import Mathlib

/-!
# IEEE 802.11 common routines (`src/common/ieee802_11_common.c`)

A shallow embedding of the information-element walker, the vendor-specific
dispatcher and the channel/frequency mapper, followed by the properties
proved about them.

Conventions of the embedding.

* A buffer of octets is a `List Nat`; a `u8` read is an element of the list.
  A pointer into the buffer `start` is the offset from `start`; `NULL` is
  `none`.
* The C locals `left`, `pos`, `unknown` keep their names.  `left` and `pos`
  are `size_t`/pointer values that the code only ever decreases/increases
  under a guard, so they are natural numbers.  `unknown` is an `int` that is
  incremented at most once per element; it is a natural number here.
* `wpa_printf` and `wpa_hexdump` append a record to a diagnostic log, so that
  what the `show_errors` flag changes is visible in the model.
-/

namespace Ieee80211

/-! ## Constants of the absent header `ieee802_11_defs.h` -/

/-- Constants that `ieee802_11_common.c` takes from `ieee802_11_defs.h`.  The
header is not part of the source tree, so the element identifiers, the vendor
OUIs and the vendor type/sub-type codes are parameters of the embedding. -/
structure ieee802_11_defs where
  WLAN_EID_SSID : Nat
  WLAN_EID_SUPP_RATES : Nat
  WLAN_EID_DS_PARAMS : Nat
  WLAN_EID_CF_PARAMS : Nat
  WLAN_EID_TIM : Nat
  WLAN_EID_CHALLENGE : Nat
  WLAN_EID_ERP_INFO : Nat
  WLAN_EID_EXT_SUPP_RATES : Nat
  WLAN_EID_VENDOR_SPECIFIC : Nat
  WLAN_EID_RSN : Nat
  WLAN_EID_PWR_CAPABILITY : Nat
  WLAN_EID_SUPPORTED_CHANNELS : Nat
  WLAN_EID_MOBILITY_DOMAIN : Nat
  WLAN_EID_FAST_BSS_TRANSITION : Nat
  WLAN_EID_TIMEOUT_INTERVAL : Nat
  WLAN_EID_HT_CAP : Nat
  WLAN_EID_HT_OPERATION : Nat
  WLAN_EID_MESH_CONFIG : Nat
  WLAN_EID_MESH_ID : Nat
  WLAN_EID_PEER_MGMT : Nat
  WLAN_EID_VHT_CAP : Nat
  WLAN_EID_VHT_OPERATION : Nat
  WLAN_EID_VHT_OPERATING_MODE_NOTIFICATION : Nat
  WLAN_EID_LINK_ID : Nat
  WLAN_EID_INTERWORKING : Nat
  WLAN_EID_QOS_MAP_SET : Nat
  WLAN_EID_EXT_CAPAB : Nat
  WLAN_EID_BSS_MAX_IDLE_PERIOD : Nat
  WLAN_EID_SSID_LIST : Nat
  WLAN_EID_NOT_INDICATOR : Nat
  WLAN_EID_AMPE : Nat
  WLAN_EID_MIC : Nat
  OUI_MICROSOFT : Nat
  OUI_WFA : Nat
  OUI_BROADCOM : Nat
  WMM_OUI_TYPE : Nat
  WMM_OUI_SUBTYPE_INFORMATION_ELEMENT : Nat
  WMM_OUI_SUBTYPE_PARAMETER_ELEMENT : Nat
  WMM_OUI_SUBTYPE_TSPEC_ELEMENT : Nat
  P2P_OUI_TYPE : Nat
  WFD_OUI_TYPE : Nat
  HS20_INDICATION_OUI_TYPE : Nat
  HS20_OSEN_OUI_TYPE : Nat
  VENDOR_HT_CAPAB_OUI_TYPE : Nat
  VENDOR_VHT_TYPE : Nat
  VENDOR_VHT_SUBTYPE : Nat
  VENDOR_VHT_SUBTYPE2 : Nat

/-- The case labels of the `switch (id)` in `ieee802_11_parse_elems`, in source
order. -/
inductive Eid
  | SSID | SUPP_RATES | DS_PARAMS | CF_PARAMS | TIM | CHALLENGE | ERP_INFO | EXT_SUPP_RATES
  | VENDOR_SPECIFIC | RSN | PWR_CAPABILITY | SUPPORTED_CHANNELS | MOBILITY_DOMAIN
  | FAST_BSS_TRANSITION | TIMEOUT_INTERVAL | HT_CAP | HT_OPERATION | MESH_CONFIG | MESH_ID
  | PEER_MGMT | VHT_CAP | VHT_OPERATION | VHT_OPERATING_MODE_NOTIFICATION | LINK_ID
  | INTERWORKING | QOS_MAP_SET | EXT_CAPAB | BSS_MAX_IDLE_PERIOD | SSID_LIST | NOT_INDICATOR
  | AMPE | MIC
  deriving DecidableEq, Repr

/-- Every case label, in source order. -/
def Eid.all : List Eid :=
  [.SSID, .SUPP_RATES, .DS_PARAMS, .CF_PARAMS, .TIM, .CHALLENGE, .ERP_INFO, .EXT_SUPP_RATES,
   .VENDOR_SPECIFIC, .RSN, .PWR_CAPABILITY, .SUPPORTED_CHANNELS, .MOBILITY_DOMAIN,
   .FAST_BSS_TRANSITION, .TIMEOUT_INTERVAL, .HT_CAP, .HT_OPERATION, .MESH_CONFIG, .MESH_ID,
   .PEER_MGMT, .VHT_CAP, .VHT_OPERATION, .VHT_OPERATING_MODE_NOTIFICATION, .LINK_ID,
   .INTERWORKING, .QOS_MAP_SET, .EXT_CAPAB, .BSS_MAX_IDLE_PERIOD, .SSID_LIST, .NOT_INDICATOR,
   .AMPE, .MIC]

/-- The value `WLAN_EID_x` of the case label `x`. -/
def ieee802_11_defs.eid (d : ieee802_11_defs) : Eid → Nat
  | .SSID => d.WLAN_EID_SSID
  | .SUPP_RATES => d.WLAN_EID_SUPP_RATES
  | .DS_PARAMS => d.WLAN_EID_DS_PARAMS
  | .CF_PARAMS => d.WLAN_EID_CF_PARAMS
  | .TIM => d.WLAN_EID_TIM
  | .CHALLENGE => d.WLAN_EID_CHALLENGE
  | .ERP_INFO => d.WLAN_EID_ERP_INFO
  | .EXT_SUPP_RATES => d.WLAN_EID_EXT_SUPP_RATES
  | .VENDOR_SPECIFIC => d.WLAN_EID_VENDOR_SPECIFIC
  | .RSN => d.WLAN_EID_RSN
  | .PWR_CAPABILITY => d.WLAN_EID_PWR_CAPABILITY
  | .SUPPORTED_CHANNELS => d.WLAN_EID_SUPPORTED_CHANNELS
  | .MOBILITY_DOMAIN => d.WLAN_EID_MOBILITY_DOMAIN
  | .FAST_BSS_TRANSITION => d.WLAN_EID_FAST_BSS_TRANSITION
  | .TIMEOUT_INTERVAL => d.WLAN_EID_TIMEOUT_INTERVAL
  | .HT_CAP => d.WLAN_EID_HT_CAP
  | .HT_OPERATION => d.WLAN_EID_HT_OPERATION
  | .MESH_CONFIG => d.WLAN_EID_MESH_CONFIG
  | .MESH_ID => d.WLAN_EID_MESH_ID
  | .PEER_MGMT => d.WLAN_EID_PEER_MGMT
  | .VHT_CAP => d.WLAN_EID_VHT_CAP
  | .VHT_OPERATION => d.WLAN_EID_VHT_OPERATION
  | .VHT_OPERATING_MODE_NOTIFICATION => d.WLAN_EID_VHT_OPERATING_MODE_NOTIFICATION
  | .LINK_ID => d.WLAN_EID_LINK_ID
  | .INTERWORKING => d.WLAN_EID_INTERWORKING
  | .QOS_MAP_SET => d.WLAN_EID_QOS_MAP_SET
  | .EXT_CAPAB => d.WLAN_EID_EXT_CAPAB
  | .BSS_MAX_IDLE_PERIOD => d.WLAN_EID_BSS_MAX_IDLE_PERIOD
  | .SSID_LIST => d.WLAN_EID_SSID_LIST
  | .NOT_INDICATOR => d.WLAN_EID_NOT_INDICATOR
  | .AMPE => d.WLAN_EID_AMPE
  | .MIC => d.WLAN_EID_MIC

/-- The values of the case labels of the `switch (id)`, in source order: the
recognised element identifiers. -/
def ieee802_11_defs.eids (d : ieee802_11_defs) : List Nat := Eid.all.map d.eid

/-- A C `switch` only compiles when its case labels are pairwise different.
This is that requirement for every `switch` of the two parsing functions. -/
def ieee802_11_defs.Distinct (d : ieee802_11_defs) : Prop :=
  d.eids.Nodup ∧
  [d.OUI_MICROSOFT, d.OUI_WFA, d.OUI_BROADCOM].Nodup ∧
  [1, d.WMM_OUI_TYPE, 4].Nodup ∧
  [d.WMM_OUI_SUBTYPE_INFORMATION_ELEMENT, d.WMM_OUI_SUBTYPE_PARAMETER_ELEMENT,
   d.WMM_OUI_SUBTYPE_TSPEC_ELEMENT].Nodup ∧
  [d.P2P_OUI_TYPE, d.WFD_OUI_TYPE, d.HS20_INDICATION_OUI_TYPE, d.HS20_OSEN_OUI_TYPE].Nodup ∧
  [d.VENDOR_HT_CAPAB_OUI_TYPE, d.VENDOR_VHT_TYPE].Nodup

instance (d : ieee802_11_defs) : Decidable d.Distinct := by
  unfold ieee802_11_defs.Distinct; infer_instance

/-- One assignment of the constants, used to instantiate the theorems at
concrete inputs.  The numbers are the IEEE 802.11 element identifiers and the
registered OUIs; `WLAN_EID_NOT_INDICATOR` is local to this tree and gets an
identifier that no other label uses. -/
def sample_defs : ieee802_11_defs where
  WLAN_EID_SSID := 0
  WLAN_EID_SUPP_RATES := 1
  WLAN_EID_DS_PARAMS := 3
  WLAN_EID_CF_PARAMS := 4
  WLAN_EID_TIM := 5
  WLAN_EID_CHALLENGE := 16
  WLAN_EID_ERP_INFO := 42
  WLAN_EID_EXT_SUPP_RATES := 50
  WLAN_EID_VENDOR_SPECIFIC := 221
  WLAN_EID_RSN := 48
  WLAN_EID_PWR_CAPABILITY := 33
  WLAN_EID_SUPPORTED_CHANNELS := 36
  WLAN_EID_MOBILITY_DOMAIN := 54
  WLAN_EID_FAST_BSS_TRANSITION := 55
  WLAN_EID_TIMEOUT_INTERVAL := 56
  WLAN_EID_HT_CAP := 45
  WLAN_EID_HT_OPERATION := 61
  WLAN_EID_MESH_CONFIG := 113
  WLAN_EID_MESH_ID := 114
  WLAN_EID_PEER_MGMT := 117
  WLAN_EID_VHT_CAP := 191
  WLAN_EID_VHT_OPERATION := 192
  WLAN_EID_VHT_OPERATING_MODE_NOTIFICATION := 199
  WLAN_EID_LINK_ID := 101
  WLAN_EID_INTERWORKING := 107
  WLAN_EID_QOS_MAP_SET := 110
  WLAN_EID_EXT_CAPAB := 127
  WLAN_EID_BSS_MAX_IDLE_PERIOD := 90
  WLAN_EID_SSID_LIST := 84
  WLAN_EID_NOT_INDICATOR := 200
  WLAN_EID_AMPE := 139
  WLAN_EID_MIC := 140
  OUI_MICROSOFT := 0x0050f2
  OUI_WFA := 0x506f9a
  OUI_BROADCOM := 0x00904c
  WMM_OUI_TYPE := 2
  WMM_OUI_SUBTYPE_INFORMATION_ELEMENT := 0
  WMM_OUI_SUBTYPE_PARAMETER_ELEMENT := 1
  WMM_OUI_SUBTYPE_TSPEC_ELEMENT := 2
  P2P_OUI_TYPE := 9
  WFD_OUI_TYPE := 10
  HS20_INDICATION_OUI_TYPE := 16
  HS20_OSEN_OUI_TYPE := 18
  VENDOR_HT_CAPAB_OUI_TYPE := 0x33
  VENDOR_VHT_TYPE := 0x04
  VENDOR_VHT_SUBTYPE := 0x08
  VENDOR_VHT_SUBTYPE2 := 0x00

/-! ## Data model -/

/-- Members of `struct ieee802_11_elems` that the parser assigns.  The
declaration lives in the absent `ieee802_11_common.h`; the members are the
ones named in `ieee802_11_common.c`. -/
inductive Field
  | ssid | supp_rates | ds_params | challenge | erp_info | ext_supp_rates
  | wpa_ie | rsn_ie | wmm | wmm_tspec | wps_ie | supp_channels | mdie | ftie
  | timeout_int | ht_capabilities | ht_operation | mesh_config | mesh_id
  | peer_mgmt | vht_capabilities | vht_operation | vht_opmode_notif
  | vendor_ht_cap | vendor_vht | p2p | wfd | link_id | interworking
  | qos_map_set | hs20 | ext_capab | bss_max_idle_period | ssid_list | osen
  | ampe | mic | afn
  deriving DecidableEq, Repr, Fintype

/-- The three members that have no `_len` companion in the source. -/
def Field.lengthless : Field → Bool
  | .vht_opmode_notif => true
  | .link_id => true
  | .bss_max_idle_period => true
  | _ => false

/-- The element set `struct ieee802_11_elems`: for each member `m` the pointer
`m` (an offset into the parsed buffer, `none` for `NULL`) and the length
`m_len`.  The `len` slot of a length-less member is never written. -/
structure ieee802_11_elems where
  ptr : Field → Option Nat
  len : Field → Nat

/-- The set after `os_memset(elems, 0, sizeof(*elems))`. -/
def ieee802_11_elems.zero : ieee802_11_elems :=
  { ptr := fun _ => none, len := fun _ => 0 }

/-- The pair of assignments `elems->m = pos; elems->m_len = elen;`. -/
def ieee802_11_elems.assign (e : ieee802_11_elems) (m : Field) (pos elen : Nat) :
    ieee802_11_elems :=
  { ptr := fun g => if g = m then some pos else e.ptr g
    len := fun g => if g = m then elen else e.len g }

/-- The single assignment `elems->m = pos;` of a length-less member. -/
def ieee802_11_elems.assignPtr (e : ieee802_11_elems) (m : Field) (pos : Nat) :
    ieee802_11_elems :=
  { ptr := fun g => if g = m then some pos else e.ptr g
    len := e.len }

/-- The verdict `ParseRes` of `ieee802_11_parse_elems`. -/
inductive ParseRes
  | ParseOK | ParseUnknown | ParseFailed
  deriving DecidableEq, Repr

/-- One record per `wpa_printf`/`wpa_hexdump` call site, with the values that
the call formats. -/
inductive Diag
  | short_vendor (elen : Nat)
  | short_wmm (elen : Nat)
  | unknown_wmm (subtype elen : Nat)
  | unknown_microsoft (type elen : Nat)
  | unknown_wfa (type elen : Nat)
  | unknown_broadcom (type elen : Nat)
  | unknown_vendor (o0 o1 o2 elen : Nat)
  | parse_failed (id elen left : Nat)
  | hexdump (ies : List Nat)
  | unknown_element (id elen : Nat)
  deriving DecidableEq, Repr

/-- The octet `buf[i]`. -/
def rd (buf : List Nat) (i : Nat) : Nat := buf.getD i 0

/-- Modelled from the spec: the macro `WPA_GET_BE24` of the absent `common.h`,
the big-endian 24-bit value of the three octets at `pos`. -/
def WPA_GET_BE24 (buf : List Nat) (pos : Nat) : Nat :=
  65536 * rd buf pos + 256 * rd buf (pos + 1) + rd buf (pos + 2)

/-! ## Vendor-specific dispatcher -/

/-- What `ieee802_11_parse_vendor_specific` leaves behind: its return value
(`0` or `-1`), the element set, and the diagnostics it emitted. -/
structure VendorOut where
  ret : Int
  elems : ieee802_11_elems
  diag : List Diag

/-- Source lines 17-158. -/
def ieee802_11_parse_vendor_specific (d : ieee802_11_defs) (buf : List Nat)
    (pos elen : Nat) (elems : ieee802_11_elems) (show_errors : Int) : VendorOut :=
  if elen < 4 then
    ⟨-1, elems, if show_errors ≠ 0 then [Diag.short_vendor elen] else []⟩
  else
    let oui := WPA_GET_BE24 buf pos
    if oui = d.OUI_MICROSOFT then
      if rd buf (pos + 3) = 1 then
        ⟨0, elems.assign .wpa_ie pos elen, []⟩
      else if rd buf (pos + 3) = d.WMM_OUI_TYPE then
        if elen < 5 then
          ⟨-1, elems, [Diag.short_wmm elen]⟩
        else if rd buf (pos + 4) = d.WMM_OUI_SUBTYPE_INFORMATION_ELEMENT ∨
            rd buf (pos + 4) = d.WMM_OUI_SUBTYPE_PARAMETER_ELEMENT then
          ⟨0, elems.assign .wmm pos elen, []⟩
        else if rd buf (pos + 4) = d.WMM_OUI_SUBTYPE_TSPEC_ELEMENT then
          ⟨0, elems.assign .wmm_tspec pos elen, []⟩
        else
          ⟨-1, elems, [Diag.unknown_wmm (rd buf (pos + 4)) elen]⟩
      else if rd buf (pos + 3) = 4 then
        ⟨0, elems.assign .wps_ie pos elen, []⟩
      else
        ⟨-1, elems, [Diag.unknown_microsoft (rd buf (pos + 3)) elen]⟩
    else if oui = d.OUI_WFA then
      if rd buf (pos + 3) = d.P2P_OUI_TYPE then
        ⟨0, elems.assign .p2p pos elen, []⟩
      else if rd buf (pos + 3) = d.WFD_OUI_TYPE then
        ⟨0, elems.assign .wfd pos elen, []⟩
      else if rd buf (pos + 3) = d.HS20_INDICATION_OUI_TYPE then
        ⟨0, elems.assign .hs20 pos elen, []⟩
      else if rd buf (pos + 3) = d.HS20_OSEN_OUI_TYPE then
        ⟨0, elems.assign .osen pos elen, []⟩
      else
        ⟨-1, elems, [Diag.unknown_wfa (rd buf (pos + 3)) elen]⟩
    else if oui = d.OUI_BROADCOM then
      if rd buf (pos + 3) = d.VENDOR_HT_CAPAB_OUI_TYPE then
        ⟨0, elems.assign .vendor_ht_cap pos elen, []⟩
      else if rd buf (pos + 3) = d.VENDOR_VHT_TYPE then
        if elen > 4 ∧ (rd buf (pos + 4) = d.VENDOR_VHT_SUBTYPE ∨
            rd buf (pos + 4) = d.VENDOR_VHT_SUBTYPE2) then
          ⟨0, elems.assign .vendor_vht pos elen, []⟩
        else
          ⟨-1, elems, []⟩
      else
        ⟨-1, elems, [Diag.unknown_broadcom (rd buf (pos + 3)) elen]⟩
    else
      ⟨-1, elems, [Diag.unknown_vendor (rd buf pos) (rd buf (pos + 1)) (rd buf (pos + 2)) elen]⟩

/-! ## Element walker -/

/-- The locals that one pass through the `switch (id)` of
`ieee802_11_parse_elems` may change, and the diagnostics emitted so far. -/
structure SwitchOut where
  left : Nat
  unknown : Nat
  elems : ieee802_11_elems
  log : List Diag

/-- The case label that `switch (id)` jumps to: the first label whose value is
`id`, or `none` for the `default:` label. -/
def switch_label (d : ieee802_11_defs) (id : Nat) : Option Eid :=
  Eid.all.find? (fun l => d.eid l = id)

/-- The `switch (id)` statement, source lines 197-337.  `pos` points at the
first octet of the Value and `left` counts the octets from `pos` on. -/
def parse_elems_switch (d : ieee802_11_defs) (buf : List Nat) (show_errors : Int)
    (id elen pos left unknown : Nat) (elems : ieee802_11_elems) (log : List Diag) :
    SwitchOut :=
  match switch_label d id with
  | some .SSID => ⟨left, unknown, elems.assign .ssid pos elen, log⟩
  | some .SUPP_RATES => ⟨left, unknown, elems.assign .supp_rates pos elen, log⟩
  | some .DS_PARAMS => ⟨left, unknown, elems.assign .ds_params pos elen, log⟩
  | some .CF_PARAMS => ⟨left, unknown, elems, log⟩
  | some .TIM => ⟨left, unknown, elems, log⟩
  | some .CHALLENGE => ⟨left, unknown, elems.assign .challenge pos elen, log⟩
  | some .ERP_INFO => ⟨left, unknown, elems.assign .erp_info pos elen, log⟩
  | some .EXT_SUPP_RATES => ⟨left, unknown, elems.assign .ext_supp_rates pos elen, log⟩
  | some .VENDOR_SPECIFIC =>
    let v := ieee802_11_parse_vendor_specific d buf pos elen elems show_errors
    ⟨left, if v.ret ≠ 0 then unknown + 1 else unknown, v.elems, log ++ v.diag⟩
  | some .RSN => ⟨left, unknown, elems.assign .rsn_ie pos elen, log⟩
  | some .PWR_CAPABILITY => ⟨left, unknown, elems, log⟩
  | some .SUPPORTED_CHANNELS => ⟨left, unknown, elems.assign .supp_channels pos elen, log⟩
  | some .MOBILITY_DOMAIN => ⟨left, unknown, elems.assign .mdie pos elen, log⟩
  | some .FAST_BSS_TRANSITION => ⟨left, unknown, elems.assign .ftie pos elen, log⟩
  | some .TIMEOUT_INTERVAL => ⟨left, unknown, elems.assign .timeout_int pos elen, log⟩
  | some .HT_CAP => ⟨left, unknown, elems.assign .ht_capabilities pos elen, log⟩
  | some .HT_OPERATION => ⟨left, unknown, elems.assign .ht_operation pos elen, log⟩
  | some .MESH_CONFIG => ⟨left, unknown, elems.assign .mesh_config pos elen, log⟩
  | some .MESH_ID => ⟨left, unknown, elems.assign .mesh_id pos elen, log⟩
  | some .PEER_MGMT => ⟨left, unknown, elems.assign .peer_mgmt pos elen, log⟩
  | some .VHT_CAP => ⟨left, unknown, elems.assign .vht_capabilities pos elen, log⟩
  | some .VHT_OPERATION => ⟨left, unknown, elems.assign .vht_operation pos elen, log⟩
  | some .VHT_OPERATING_MODE_NOTIFICATION =>
    if elen ≠ 1 then ⟨left, unknown, elems, log⟩
    else ⟨left, unknown, elems.assignPtr .vht_opmode_notif pos, log⟩
  | some .LINK_ID =>
    if elen < 18 then ⟨left, unknown, elems, log⟩
    else ⟨left, unknown, elems.assignPtr .link_id pos, log⟩
  | some .INTERWORKING => ⟨left, unknown, elems.assign .interworking pos elen, log⟩
  | some .QOS_MAP_SET =>
    if elen < 16 then ⟨left, unknown, elems, log⟩
    else ⟨left, unknown, elems.assign .qos_map_set pos elen, log⟩
  | some .EXT_CAPAB => ⟨left, unknown, elems.assign .ext_capab pos elen, log⟩
  | some .BSS_MAX_IDLE_PERIOD =>
    if elen < 3 then ⟨left, unknown, elems, log⟩
    else ⟨left, unknown, elems.assignPtr .bss_max_idle_period pos, log⟩
  | some .SSID_LIST => ⟨left, unknown, elems.assign .ssid_list pos elen, log⟩
  | some .NOT_INDICATOR => ⟨left, unknown, elems.assign .afn pos elen, log⟩
  | some .AMPE => ⟨left, unknown, elems.assign .ampe pos elen, log⟩
  | some .MIC => ⟨elen, unknown, elems.assign .mic pos elen, log⟩
  | none =>
    ⟨left, unknown + 1, elems,
      if show_errors = 0 then log else log ++ [Diag.unknown_element id elen]⟩

/-- What `ieee802_11_parse_elems` leaves behind: the verdict, the element set
written through `elems`, and the diagnostics emitted. -/
structure ParseOut where
  res : ParseRes
  elems : ieee802_11_elems
  log : List Diag

/-- The code after the `while` loop, source lines 343-346. -/
def parse_elems_exit (left unknown : Nat) (elems : ieee802_11_elems) (log : List Diag) :
    ParseOut :=
  if left ≠ 0 then ⟨.ParseFailed, elems, log⟩
  else ⟨if unknown ≠ 0 then .ParseUnknown else .ParseOK, elems, log⟩

/-- The `while (left >= 2)` loop of `ieee802_11_parse_elems` followed by the
exit code, source lines 179-346.  The first argument bounds the number of
passes; every pass lowers `left` by at least 2, so a bound of `left` passes
is never exhausted while `left >= 2` (`parse_elems_loop_fuel`). -/
def parse_elems_loop (d : ieee802_11_defs) (buf : List Nat) (show_errors : Int) :
    Nat → Nat → Nat → Nat → ieee802_11_elems → List Diag → ParseOut
  | 0, left, _, unknown, elems, log => parse_elems_exit left unknown elems log
  | fuel + 1, left, pos, unknown, elems, log =>
    if 2 ≤ left then
      let id := rd buf pos
      let elen := rd buf (pos + 1)
      if elen > left - 2 then
        ⟨.ParseFailed, elems,
          if show_errors ≠ 0 then
            log ++ [Diag.parse_failed id elen (left - 2), Diag.hexdump buf]
          else log⟩
      else
        let s := parse_elems_switch d buf show_errors id elen (pos + 2) (left - 2) unknown
          elems log
        parse_elems_loop d buf show_errors fuel (s.left - elen) (pos + 2 + elen) s.unknown
          s.elems s.log
    else parse_elems_exit left unknown elems log

/-- Source lines 169-347: `start` is offset 0 of `buf` and `len` is the length
of `buf`. -/
def ieee802_11_parse_elems (d : ieee802_11_defs) (buf : List Nat) (show_errors : Int) :
    ParseOut :=
  parse_elems_loop d buf show_errors buf.length buf.length 0 0 ieee802_11_elems.zero []

/-! ## Channel/frequency mapper -/

/-- The table `us_op_class_cc`. -/
def us_op_class_cc : List (List Char) := [['U', 'S'], ['C', 'A']]

/-- The table `eu_op_class_cc`. -/
def eu_op_class_cc : List (List Char) :=
  [['A', 'L'], ['A', 'M'], ['A', 'T'], ['A', 'Z'], ['B', 'A'], ['B', 'E'], ['B', 'G'],
   ['B', 'Y'], ['C', 'H'], ['C', 'Y'], ['C', 'Z'], ['D', 'E'], ['D', 'K'], ['E', 'E'],
   ['E', 'L'], ['E', 'S'], ['F', 'I'], ['F', 'R'], ['G', 'E'], ['H', 'R'], ['H', 'U'],
   ['I', 'E'], ['I', 'S'], ['I', 'T'], ['L', 'I'], ['L', 'T'], ['L', 'U'], ['L', 'V'],
   ['M', 'D'], ['M', 'E'], ['M', 'K'], ['M', 'T'], ['N', 'L'], ['N', 'O'], ['P', 'L'],
   ['P', 'T'], ['R', 'O'], ['R', 'S'], ['R', 'U'], ['S', 'E'], ['S', 'I'], ['S', 'K'],
   ['T', 'R'], ['U', 'A'], ['U', 'K']]

/-- The table `jp_op_class_cc`. -/
def jp_op_class_cc : List (List Char) := [['J', 'P']]

/-- The table `cn_op_class_cc`. -/
def cn_op_class_cc : List (List Char) := [['C', 'N'], ['C', 'A']]

/-- The character `s[i]` of a NUL-terminated C string whose characters before
the terminator are `s`. -/
def cstr_at (s : List Char) (i : Nat) : Char := s.getD i (Char.ofNat 0)

/-- The `for` loop of `country_match`, source lines 580-585. -/
def country_match_loop (country : List Char) : List (List Char) → Int
  | [] => 0
  | cc_i :: rest =>
    if cstr_at cc_i 0 = cstr_at country 0 ∧ cstr_at cc_i 1 = cstr_at country 1 then 1
    else country_match_loop country rest

/-- Source lines 574-586; a `NULL` country is `none`. -/
def country_match (cc : List (List Char)) (country : Option (List Char)) : Int :=
  match country with
  | none => 0
  | some c => country_match_loop c cc

/-- Source lines 589-626. -/
def ieee80211_chan_to_freq_us (op_class chan : Nat) : Int :=
  if op_class = 12 ∨ op_class = 32 ∨ op_class = 33 then
    if chan < 1 ∨ chan > 11 then -1 else 2407 + 5 * (chan : Int)
  else if op_class = 1 ∨ op_class = 2 ∨ op_class = 22 ∨ op_class = 23 ∨ op_class = 27 ∨
      op_class = 28 then
    if chan < 36 ∨ chan > 64 then -1 else 5000 + 5 * (chan : Int)
  else if op_class = 4 ∨ op_class = 24 then
    if chan < 100 ∨ chan > 144 then -1 else 5000 + 5 * (chan : Int)
  else if op_class = 3 ∨ op_class = 25 ∨ op_class = 26 ∨ op_class = 30 ∨ op_class = 31 then
    if chan < 149 ∨ chan > 161 then -1 else 5000 + 5 * (chan : Int)
  else if op_class = 34 then
    if chan < 1 ∨ chan > 3 then -1 else 56160 + 2160 * (chan : Int)
  else -1

/-- Source lines 629-664. -/
def ieee80211_chan_to_freq_eu (op_class chan : Nat) : Int :=
  if op_class = 4 ∨ op_class = 11 ∨ op_class = 12 then
    if chan < 1 ∨ chan > 13 then -1 else 2407 + 5 * (chan : Int)
  else if op_class = 1 ∨ op_class = 2 ∨ op_class = 5 ∨ op_class = 6 ∨ op_class = 8 ∨
      op_class = 9 then
    if chan < 36 ∨ chan > 64 then -1 else 5000 + 5 * (chan : Int)
  else if op_class = 3 ∨ op_class = 7 ∨ op_class = 10 ∨ op_class = 16 then
    if chan < 100 ∨ chan > 140 then -1 else 5000 + 5 * (chan : Int)
  else if op_class = 17 then
    if chan < 149 ∨ chan > 169 then -1 else 5000 + 5 * (chan : Int)
  else if op_class = 18 then
    if chan < 1 ∨ chan > 4 then -1 else 56160 + 2160 * (chan : Int)
  else -1

/-- Source lines 667-708. -/
def ieee80211_chan_to_freq_jp (op_class chan : Nat) : Int :=
  if op_class = 30 ∨ op_class = 56 ∨ op_class = 57 then
    if chan < 1 ∨ chan > 13 then -1 else 2407 + 5 * (chan : Int)
  else if op_class = 31 then
    if chan ≠ 14 then -1 else 2414 + 5 * (chan : Int)
  else if op_class = 1 ∨ op_class = 32 ∨ op_class = 33 ∨ op_class = 36 ∨ op_class = 37 ∨
      op_class = 38 ∨ op_class = 41 ∨ op_class = 42 ∨ op_class = 43 then
    if chan < 34 ∨ chan > 64 then -1 else 5000 + 5 * (chan : Int)
  else if op_class = 34 ∨ op_class = 35 ∨ op_class = 39 ∨ op_class = 40 ∨ op_class = 44 ∨
      op_class = 45 ∨ op_class = 58 then
    if chan < 100 ∨ chan > 140 then -1 else 5000 + 5 * (chan : Int)
  else if op_class = 59 then
    if chan < 1 ∨ chan > 3 then -1 else 56160 + 2160 * (chan : Int)
  else -1

/-- Source lines 711-734. -/
def ieee80211_chan_to_freq_cn (op_class chan : Nat) : Int :=
  if op_class = 7 ∨ op_class = 8 ∨ op_class = 9 then
    if chan < 1 ∨ chan > 13 then -1 else 2407 + 5 * (chan : Int)
  else if op_class = 1 ∨ op_class = 2 ∨ op_class = 4 ∨ op_class = 5 then
    if chan < 36 ∨ chan > 64 then -1 else 5000 + 5 * (chan : Int)
  else if op_class = 3 ∨ op_class = 6 then
    if chan < 149 ∨ chan > 165 then -1 else 5000 + 5 * (chan : Int)
  else -1

/-- Source lines 737-793. -/
def ieee80211_chan_to_freq_global (op_class chan : Nat) : Int :=
  if op_class = 81 then
    if chan < 1 ∨ chan > 13 then -1 else 2407 + 5 * (chan : Int)
  else if op_class = 82 then
    if chan ≠ 14 then -1 else 2414 + 5 * (chan : Int)
  else if op_class = 83 ∨ op_class = 84 then
    if chan < 1 ∨ chan > 13 then -1 else 2407 + 5 * (chan : Int)
  else if op_class = 115 ∨ op_class = 116 ∨ op_class = 117 ∨ op_class = 118 ∨
      op_class = 119 ∨ op_class = 120 then
    if chan < 36 ∨ chan > 64 then -1 else 5000 + 5 * (chan : Int)
  else if op_class = 121 ∨ op_class = 122 ∨ op_class = 123 then
    if chan < 100 ∨ chan > 140 then -1 else 5000 + 5 * (chan : Int)
  else if op_class = 124 ∨ op_class = 125 ∨ op_class = 126 ∨ op_class = 127 then
    if chan < 149 ∨ chan > 161 then -1 else 5000 + 5 * (chan : Int)
  else if op_class = 128 ∨ op_class = 130 then
    if chan < 36 ∨ chan > 161 then -1 else 5000 + 5 * (chan : Int)
  else if op_class = 129 then
    if chan < 50 ∨ chan > 114 then -1 else 5000 + 5 * (chan : Int)
  else if op_class = 180 then
    if chan < 1 ∨ chan > 4 then -1 else 56160 + 2160 * (chan : Int)
  else -1

/-- Source lines 802-831.  `op_class` and `chan` are `u8` arguments. -/
def ieee80211_chan_to_freq (country : Option (List Char)) (op_class chan : Nat) : Int :=
  if country_match us_op_class_cc country ≠ 0 ∧ ieee80211_chan_to_freq_us op_class chan > 0 then
    ieee80211_chan_to_freq_us op_class chan
  else if country_match eu_op_class_cc country ≠ 0 ∧
      ieee80211_chan_to_freq_eu op_class chan > 0 then
    ieee80211_chan_to_freq_eu op_class chan
  else if country_match jp_op_class_cc country ≠ 0 ∧
      ieee80211_chan_to_freq_jp op_class chan > 0 then
    ieee80211_chan_to_freq_jp op_class chan
  else if country_match cn_op_class_cc country ≠ 0 ∧
      ieee80211_chan_to_freq_cn op_class chan > 0 then
    ieee80211_chan_to_freq_cn op_class chan
  else ieee80211_chan_to_freq_global op_class chan

/-! ## Predicates used in the statements -/

/-- Either the dispatcher returns 0 and recorded `(pos, elen)` in one member that
has a length, or it returns -1 and left the element set alone. -/
def VendorEffect (elems : ieee802_11_elems) (pos elen : Nat) (v : VendorOut) : Prop :=
  (v.ret = 0 ∧ 4 ≤ elen ∧ ∃ m, v.elems = elems.assign m pos elen ∧ m.lengthless = false) ∨
  (v.ret = -1 ∧ v.elems = elems)

/-- The switch leaves the element set alone, or records `(pos, elen)` in one
member that has a length, or records `pos` in one length-less member. -/
def SwitchEffect (elems : ieee802_11_elems) (pos elen : Nat) (e : ieee802_11_elems) : Prop :=
  e = elems ∨ (∃ m, e = elems.assign m pos elen ∧ m.lengthless = false) ∨
  (∃ m, e = elems.assignPtr m pos ∧ m.lengthless = true)

/-- The walker started in the middle of its loop, with the locals `left`,
`pos`, `unknown`, the element set and the log as given; the pass bound is
`left` itself. -/
def parse_elems_from (d : ieee802_11_defs) (buf : List Nat) (show_errors : Int)
    (left pos unknown : Nat) (elems : ieee802_11_elems) (log : List Diag) : ParseOut :=
  parse_elems_loop d buf show_errors left left pos unknown elems log

/-- The span of `n` octets at offset `o` lies inside `buf` and is the Value of
an (ID, Length) header at `o - 2`: the octet before it is the Length `n`. -/
def SpanOK (buf : List Nat) (o n : Nat) : Prop :=
  2 ≤ o ∧ o + n ≤ buf.length ∧ buf[o - 1]? = some n

/-- Every populated reference of the element set is a span inside `buf`; for
a length-less member the length is the declared Length of its element. -/
def RefsInside (buf : List Nat) (e : ieee802_11_elems) : Prop :=
  ∀ m o, e.ptr m = some o →
    (m.lengthless = false → SpanOK buf o (e.len m)) ∧
    (m.lengthless = true → ∃ n, SpanOK buf o n)

/-- The walk over the elements of `buf`: `Reach d buf p q` says that a walk
standing at the header offset `p` arrives at the header offset `q` after zero
or more complete elements, none of which is a Message-Integrity element (the
walk stops after one). -/
inductive Reach (d : ieee802_11_defs) (buf : List Nat) : Nat → Nat → Prop
  | refl (p : Nat) : Reach d buf p p
  | step {p q : Nat} : p + 2 ≤ buf.length → rd buf (p + 1) ≤ buf.length - (p + 2) →
      rd buf p ≠ d.WLAN_EID_MIC → Reach d buf (p + 2 + rd buf (p + 1)) q → Reach d buf p q

/-- A walked element: the walk from the start of `buf` arrives at `p` and the
two header octets at `p` are inside the buffer. -/
def WalkedElem (d : ieee802_11_defs) (buf : List Nat) (p : Nat) : Prop :=
  Reach d buf 0 p ∧ p + 2 ≤ buf.length

/-- The element at `p` declares a Length greater than the number of octets
left after its 2-octet header. -/
def Overrun (buf : List Nat) (p : Nat) : Prop :=
  rd buf (p + 1) > buf.length - (p + 2)

/-- The offset at which the walk ends when it is not cut short by an overrun:
either it arrives at `q` with fewer than two octets left, or `q` is the end of
the first Message-Integrity element. -/
def WalkEnd (d : ieee802_11_defs) (buf : List Nat) (q : Nat) : Prop :=
  (Reach d buf 0 q ∧ buf.length < q + 2) ∨
  (∃ p, WalkedElem d buf p ∧ ¬ Overrun buf p ∧ rd buf p = d.WLAN_EID_MIC ∧
    q = p + 2 + rd buf (p + 1))

/-- The walker counts the element at `p` as unknown: its ID is outside the
recognised set, or it is a vendor-specific element that
`ieee802_11_parse_vendor_specific` reports as unrecognised. -/
def UnknownAt (d : ieee802_11_defs) (buf : List Nat) (p : Nat) : Prop :=
  rd buf p ∉ d.eids ∨
  (rd buf p = d.WLAN_EID_VENDOR_SPECIFIC ∧
    (ieee802_11_parse_vendor_specific d buf (p + 2) (rd buf (p + 1)) ieee802_11_elems.zero
      0).ret ≠ 0)

/-- Failure condition of a walk that stands at `pos`: an element on the way
overruns the buffer, or the walk arrives where exactly one octet is left. -/
def FailsFrom (d : ieee802_11_defs) (buf : List Nat) (pos : Nat) : Prop :=
  (∃ p, Reach d buf pos p ∧ p + 2 ≤ buf.length ∧ Overrun buf p) ∨
  (∃ q, Reach d buf pos q ∧ q + 1 = buf.length)

/-- A well-formed TLV element: its ID and its Value; the Length octet on the
wire is the number of Value octets. -/
structure Elem where
  id : Nat
  value : List Nat
  deriving DecidableEq, Repr

/-- The wire form `ID, Length, Value` of one element. -/
def Elem.encode (e : Elem) : List Nat := e.id :: e.value.length :: e.value

/-- The concatenation of the wire forms of a sequence of elements. -/
def encode : List Elem → List Nat
  | [] => []
  | e :: es => e.encode ++ encode es

/-- Reference definition of C9, eligibility: the country is present and its
first two characters equal an entry of the list of the domain. -/
def domain_eligible (cc : List (List Char)) (country : Option (List Char)) : Bool :=
  match country with
  | none => false
  | some c => cc.any (fun entry => c.take 2 = entry)

/-- Reference definition of C9: the first positive frequency returned by the
eligible domain tables tried in the order US, EU, JP, CN, and otherwise the
answer of the Global table. -/
def chan_to_freq_reference (country : Option (List Char)) (op_class chan : Nat) : Int :=
  let tables : List (List (List Char) × (Nat → Nat → Int)) :=
    [(us_op_class_cc, ieee80211_chan_to_freq_us), (eu_op_class_cc, ieee80211_chan_to_freq_eu),
     (jp_op_class_cc, ieee80211_chan_to_freq_jp), (cn_op_class_cc, ieee80211_chan_to_freq_cn)]
  let tried := (tables.filter (fun t => domain_eligible t.1 country)).map
    (fun t => t.2 op_class chan)
  (tried.find? (fun f => decide (f > 0))).getD (ieee80211_chan_to_freq_global op_class chan)

/-- Every entry of a country list is two characters, neither of them NUL. -/
def TwoLetter (cc : List (List Char)) : Prop :=
  ∀ e ∈ cc, e.length = 2 ∧ cstr_at e 0 ≠ Char.ofNat 0 ∧ cstr_at e 1 ≠ Char.ofNat 0

instance (cc : List (List Char)) : Decidable (TwoLetter cc) := by
  unfold TwoLetter; infer_instance

/-- The member of the element set in which the case label records its element;
`none` for the labels that record nothing (CF Parameters, TIM, Power
Capability) and for the vendor-specific label, whose member depends on the
payload. -/
def Eid.field : Eid → Option Field
  | .SSID => some .ssid
  | .SUPP_RATES => some .supp_rates
  | .DS_PARAMS => some .ds_params
  | .CF_PARAMS => none
  | .TIM => none
  | .CHALLENGE => some .challenge
  | .ERP_INFO => some .erp_info
  | .EXT_SUPP_RATES => some .ext_supp_rates
  | .VENDOR_SPECIFIC => none
  | .RSN => some .rsn_ie
  | .PWR_CAPABILITY => none
  | .SUPPORTED_CHANNELS => some .supp_channels
  | .MOBILITY_DOMAIN => some .mdie
  | .FAST_BSS_TRANSITION => some .ftie
  | .TIMEOUT_INTERVAL => some .timeout_int
  | .HT_CAP => some .ht_capabilities
  | .HT_OPERATION => some .ht_operation
  | .MESH_CONFIG => some .mesh_config
  | .MESH_ID => some .mesh_id
  | .PEER_MGMT => some .peer_mgmt
  | .VHT_CAP => some .vht_capabilities
  | .VHT_OPERATION => some .vht_operation
  | .VHT_OPERATING_MODE_NOTIFICATION => some .vht_opmode_notif
  | .LINK_ID => some .link_id
  | .INTERWORKING => some .interworking
  | .QOS_MAP_SET => some .qos_map_set
  | .EXT_CAPAB => some .ext_capab
  | .BSS_MAX_IDLE_PERIOD => some .bss_max_idle_period
  | .SSID_LIST => some .ssid_list
  | .NOT_INDICATOR => some .afn
  | .AMPE => some .ampe
  | .MIC => some .mic

/-- The requirement that the case label puts on the Length before it records
the element: exactly 1 for VHT Operating Mode Notification, at least 18 for
Link Identifier, at least 16 for QoS Map Set, at least 3 for BSS Max Idle
Period, none for the other labels. -/
def Eid.length_ok : Eid → Nat → Bool
  | .VHT_OPERATING_MODE_NOTIFICATION, elen => decide (elen = 1)
  | .LINK_ID, elen => decide (18 ≤ elen)
  | .QOS_MAP_SET, elen => decide (16 ≤ elen)
  | .BSS_MAX_IDLE_PERIOD, elen => decide (3 ≤ elen)
  | _, _ => true

/-- The members that only `ieee802_11_parse_vendor_specific` assigns. -/
def Field.vendor : Field → Bool
  | .wpa_ie | .wmm | .wmm_tspec | .wps_ie | .p2p | .wfd | .hs20 | .osen
  | .vendor_ht_cap | .vendor_vht => true
  | _ => false

/-! ## Frame-header address resolver -/

/-- Frame-control constants and macros that `get_hdr_bssid` takes from the
absent `ieee802_11_defs.h`: the macros `WLAN_FC_GET_TYPE` and
`WLAN_FC_GET_STYPE`, the type and sub-type codes and the To-DS/From-DS masks
are parameters of the embedding. -/
structure ieee802_11_fc_defs where
  WLAN_FC_GET_TYPE : Nat → Nat
  WLAN_FC_GET_STYPE : Nat → Nat
  WLAN_FC_TYPE_MGMT : Nat
  WLAN_FC_TYPE_CTRL : Nat
  WLAN_FC_TYPE_DATA : Nat
  WLAN_FC_STYPE_PSPOLL : Nat
  WLAN_FC_TODS : Nat
  WLAN_FC_FROMDS : Nat

/-- The case labels of each of the two `switch` statements of `get_hdr_bssid`
are pairwise different, as a C `switch` requires. -/
def ieee802_11_fc_defs.Distinct (k : ieee802_11_fc_defs) : Prop :=
  [k.WLAN_FC_TYPE_DATA, k.WLAN_FC_TYPE_CTRL, k.WLAN_FC_TYPE_MGMT].Nodup ∧
  [k.WLAN_FC_FROMDS ||| k.WLAN_FC_TODS, k.WLAN_FC_TODS, k.WLAN_FC_FROMDS].Nodup

instance (k : ieee802_11_fc_defs) : Decidable k.Distinct := by
  unfold ieee802_11_fc_defs.Distinct; infer_instance

/-- One assignment of the frame-control constants, used to instantiate the
theorems at concrete inputs: the IEEE 802.11 frame-control layout (type in bits
2-3, sub-type in bits 4-7, To-DS bit 8, From-DS bit 9). -/
def sample_fc_defs : ieee802_11_fc_defs where
  WLAN_FC_GET_TYPE := fun fc => (fc &&& 0x000c) >>> 2
  WLAN_FC_GET_STYPE := fun fc => (fc &&& 0x00f0) >>> 4
  WLAN_FC_TYPE_MGMT := 0
  WLAN_FC_TYPE_CTRL := 1
  WLAN_FC_TYPE_DATA := 2
  WLAN_FC_STYPE_PSPOLL := 10
  WLAN_FC_TODS := 0x0100
  WLAN_FC_FROMDS := 0x0200

/-- Modelled from the spec: the layout of `struct ieee80211_hdr`, whose
declaration is in the absent `ieee802_11_defs.h`.  The offset of the member
`addr1` (the first address field, header bytes 4..9). -/
def hdr_addr1 : Nat := 4

/-- Modelled from the spec: the offset of the member `addr2` (the second
address field, header bytes 10..15). -/
def hdr_addr2 : Nat := 10

/-- Modelled from the spec: the offset of the member `addr3` (the third address
field, header bytes 16..21). -/
def hdr_addr3 : Nat := 16

/-- Modelled from the spec: `le_to_host16(hdr->frame_control)`, the 16-bit
frame-control field read little-endian from header bytes 0..1. -/
def hdr_frame_control (hdr : List Nat) : Nat := rd hdr 0 + 256 * rd hdr 1

/-- Source lines 417-454.  `hdr` holds the octets that `hdr` points at, `len`
is the declared length; the result is the offset of the returned address field
in the header, `none` for `NULL`. -/
def get_hdr_bssid (k : ieee802_11_fc_defs) (hdr : List Nat) (len : Nat) : Option Nat :=
  if len < 16 then none
  else
    let fc := hdr_frame_control hdr
    let type := k.WLAN_FC_GET_TYPE fc
    let stype := k.WLAN_FC_GET_STYPE fc
    if type = k.WLAN_FC_TYPE_DATA then
      if len < 24 then none
      else
        let ds := fc &&& (k.WLAN_FC_FROMDS ||| k.WLAN_FC_TODS)
        if ds = (k.WLAN_FC_FROMDS ||| k.WLAN_FC_TODS) ∨ ds = k.WLAN_FC_TODS then some hdr_addr1
        else if ds = k.WLAN_FC_FROMDS then some hdr_addr2
        else none
    else if type = k.WLAN_FC_TYPE_CTRL then
      if stype ≠ k.WLAN_FC_STYPE_PSPOLL then none
      else some hdr_addr1
    else if type = k.WLAN_FC_TYPE_MGMT then some hdr_addr3
    else none

/-! ## Rate-set classification -/

/-- Source lines 841-844. -/
def is_11b (rate : Nat) : Bool :=
  rate = 0x02 ∨ rate = 0x04 ∨ rate = 0x0b ∨ rate = 0x16

/-- One `for` loop of `supp_rates_11b_only`, source lines 855-860 and 862-868:
`p` is the reference, `len` its length, and the pair is
`(num_11b, num_others)`.  The loop body runs for `i = 0 .. len - 1` when the
reference is not `NULL` and not at all otherwise. -/
def rates_loop (buf : List Nat) (p : Option Nat) (len : Nat) (acc : Nat × Nat) : Nat × Nat :=
  match p with
  | none => acc
  | some o =>
    (List.range len).foldl
      (fun a i => if is_11b (rd buf (o + i)) then (a.1 + 1, a.2) else (a.1, a.2 + 1)) acc

/-- Source lines 847-871.  `buf` is the buffer that the references of `elems`
point into; the result is the C truth value, 0 or 1. -/
def supp_rates_11b_only (buf : List Nat) (elems : ieee802_11_elems) : Int :=
  if elems.ptr .supp_rates = none ∧ elems.ptr .ext_supp_rates = none then 0
  else
    let c1 := rates_loop buf (elems.ptr .supp_rates) (elems.len .supp_rates) (0, 0)
    let c2 := rates_loop buf (elems.ptr .ext_supp_rates) (elems.len .ext_supp_rates) c1
    if c2.1 > 0 ∧ c2.2 = 0 then 1 else 0

/-- The rate octets that a reference designates: none when it is absent. -/
def rate_list (buf : List Nat) (p : Option Nat) (len : Nat) : List Nat :=
  match p with
  | none => []
  | some o => (List.range len).map (fun i => rd buf (o + i))

/-! ## Helper queries on an element stream -/

/-- The `while` loop of `ieee802_11_ie_count`, source lines 361-366.  `pos` is
the offset of the read pointer, `end` is `ies.length`; the first argument bounds
the number of passes, and every pass moves `pos` forward by at least 2. -/
def ie_count_loop (ies : List Nat) : Nat → Nat → Nat → Nat
  | 0, _, count => count
  | fuel + 1, pos, count =>
    if pos + 2 ≤ ies.length then
      if pos + 2 + rd ies (pos + 1) > ies.length then count
      else ie_count_loop ies fuel (pos + 2 + rd ies (pos + 1)) (count + 1)
    else count

/-- Source lines 350-369.  A `NULL` buffer is `none`; `ies_len` is the length
of the list. -/
def ieee802_11_ie_count (ies : Option (List Nat)) : Nat :=
  match ies with
  | none => 0
  | some b => ie_count_loop b b.length 0 0

/-- Modelled from the spec: the macro `WPA_GET_BE32` of the absent `common.h`,
the big-endian 32-bit value of the four octets at `pos`. -/
def WPA_GET_BE32 (buf : List Nat) (pos : Nat) : Nat :=
  16777216 * rd buf pos + 65536 * rd buf (pos + 1) + 256 * rd buf (pos + 2) + rd buf (pos + 3)

/-- The test of source lines 385-386 and 407-408 on the element at `pos`. -/
def vendor_ie_match (d : ieee802_11_defs) (ies : List Nat) (pos oui_type : Nat) : Bool :=
  rd ies pos = d.WLAN_EID_VENDOR_SPECIFIC ∧ rd ies (pos + 1) ≥ 4 ∧
    WPA_GET_BE32 ies (pos + 2) = oui_type

/-- The outcome of the first loop of `ieee802_11_vendor_ie_concat`. -/
inductive FindOut
  | ret_null
  | done (pos : Nat) (ie : Option Nat)
  deriving DecidableEq, Repr

/-- The first `while` loop of `ieee802_11_vendor_ie_concat`, source lines
382-391: it ends with `return NULL`, or with the values of `pos` and `ie` after
the loop.  The first argument bounds the number of passes. -/
def vendor_ie_find (d : ieee802_11_defs) (ies : List Nat) (oui_type : Nat) :
    Nat → Nat → FindOut
  | 0, pos => .done pos none
  | fuel + 1, pos =>
    if pos + 1 < ies.length then
      if pos + 2 + rd ies (pos + 1) > ies.length then .ret_null
      else if vendor_ie_match d ies pos oui_type then .done pos (some pos)
      else vendor_ie_find d ies oui_type fuel (pos + 2 + rd ies (pos + 1))
    else .done pos none

/-- The second `while` loop of `ieee802_11_vendor_ie_concat`, source lines
404-411; `buf` is the content of the `wpabuf` so far.  Modelled from the spec:
`wpabuf_put_data` of the absent `wpabuf.c` appends the given octets. -/
def vendor_ie_collect (d : ieee802_11_defs) (ies : List Nat) (oui_type : Nat) :
    Nat → Nat → List Nat → List Nat
  | 0, _, buf => buf
  | fuel + 1, pos, buf =>
    if pos + 1 < ies.length then
      if pos + 2 + rd ies (pos + 1) > ies.length then buf
      else
        vendor_ie_collect d ies oui_type fuel (pos + 2 + rd ies (pos + 1))
          (if vendor_ie_match d ies pos oui_type then
            buf ++ (ies.drop (pos + 6)).take (rd ies (pos + 1) - 4)
          else buf)
    else buf

/-- Source lines 372-414.  `alloc_ok` says whether `wpabuf_alloc(ies_len)`
succeeds; the result is the content of the returned `wpabuf`, `none` for
`NULL`. -/
def ieee802_11_vendor_ie_concat (d : ieee802_11_defs) (ies : List Nat) (oui_type : Nat)
    (alloc_ok : Bool) : Option (List Nat) :=
  match vendor_ie_find d ies oui_type ies.length 0 with
  | .ret_null => none
  | .done _ none => none
  | .done pos (some _) =>
    if alloc_ok then some (vendor_ie_collect d ies oui_type ies.length pos [])
    else none

/-- The element is one that `ieee802_11_vendor_ie_concat` selects: it has the
vendor-specific ID, Length at least 4, and its first four Value octets are,
big-endian, `oui_type`. -/
def Elem.vendor_match (d : ieee802_11_defs) (oui_type : Nat) (e : Elem) : Bool :=
  e.id = d.WLAN_EID_VENDOR_SPECIFIC ∧ 4 ≤ e.value.length ∧ WPA_GET_BE32 e.value 0 = oui_type

/-- No complete element stands at the front of `rest`: fewer than two octets
are left, or the header there declares a Length that overruns `rest`. -/
def NoElemAtFront (rest : List Nat) : Prop :=
  rest.length < 2 ∨ ∃ id len v, rest = id :: len :: v ∧ v.length < len

/-- What one pass through the switch does to the element set: nothing, the
pair of assignments to a member and its length, or the single assignment to a
length-less member. -/
inductive SwitchRecord
  | keep
  | full (m : Field)
  | ptr_only (m : Field)

/-- The element set after the assignments of a `SwitchRecord` for the Value at
`pos` of length `elen`. -/
def SwitchRecord.apply (r : SwitchRecord) (e : ieee802_11_elems) (pos elen : Nat) :
    ieee802_11_elems :=
  match r with
  | .keep => e
  | .full m => e.assign m pos elen
  | .ptr_only m => e.assignPtr m pos

/-- A `full` record names a member that has a length, a `ptr_only` record a
length-less member. -/
def SwitchRecord.WellTyped : SwitchRecord → Prop
  | .keep => True
  | .full m => m.lengthless = false
  | .ptr_only m => m.lengthless = true

/-- The Value octets that the member `m` of the element set refers to in
`buf`, `none` when the member is absent; for a length-less member the length is
the Length octet in front of the Value. -/
def field_value (buf : List Nat) (e : ieee802_11_elems) (m : Field) : Option (List Nat) :=
  (e.ptr m).map
    (fun o => (buf.drop o).take (if m.lengthless then rd buf (o - 1) else e.len m))

/-- Two runs of the walker, on `buf1` and on `buf2`, have the same outcome: the
same verdict, and every member is absent in both or refers to the same Value
octets in both. -/
def SameOutcome (buf1 buf2 : List Nat) (r1 r2 : ParseOut) : Prop :=
  r1.res = r2.res ∧ ∀ m, field_value buf1 r1.elems m = field_value buf2 r2.elems m

/-! ## DFS predicate and frequency to channel -/

/-- Source lines 834-838.  The result is the `int` value of the C condition:
1 when it holds, 0 when it does not. -/
def ieee80211_is_dfs (freq : Int) : Int :=
  if (freq ≥ 5260 ∧ freq ≤ 5320) ∨ (freq ≥ 5500 ∧ freq ≤ 5700) then 1 else 0

/-- Modelled from the spec: the enumeration `enum hostapd_hw_mode` of the absent
`defs.h`, with the enumerators that `ieee80211_freq_to_chan` names. -/
inductive hostapd_hw_mode
  | HOSTAPD_MODE_IEEE80211B
  | HOSTAPD_MODE_IEEE80211G
  | HOSTAPD_MODE_IEEE80211A
  | HOSTAPD_MODE_IEEE80211AD
  | NUM_HOSTAPD_MODES
  deriving DecidableEq, Repr

/-- Source lines 529-551.  `channel` is the octet that `*channel` holds before
the call; the result is the returned mode and the octet that `*channel` holds
after the call.  The quotient is the truncating division of C, and the store
into the `u8` keeps the value modulo 256. -/
def ieee80211_freq_to_chan (freq : Int) (channel : Nat) : hostapd_hw_mode × Nat :=
  if freq ≥ 2412 ∧ freq ≤ 2472 then
    (.HOSTAPD_MODE_IEEE80211G, (Int.tdiv (freq - 2407) 5 % 256).toNat)
  else if freq = 2484 then
    (.HOSTAPD_MODE_IEEE80211B, 14)
  else if freq ≥ 4900 ∧ freq < 5000 then
    (.HOSTAPD_MODE_IEEE80211A, (Int.tdiv (freq - 4000) 5 % 256).toNat)
  else if freq ≥ 5000 ∧ freq < 5900 then
    (.HOSTAPD_MODE_IEEE80211A, (Int.tdiv (freq - 5000) 5 % 256).toNat)
  else if freq ≥ 56160 + 2160 * 1 ∧ freq ≤ 56160 + 2160 * 4 then
    (.HOSTAPD_MODE_IEEE80211AD, (Int.tdiv (freq - 56160) 2160 % 256).toNat)
  else
    (.NUM_HOSTAPD_MODES, channel)

/-- The frequencies that the operating-class tables hand out for the channel
`chan`: -1 for an unknown channel, or the frequency of the channel in the
2.4 GHz band, of channel 14, in the 5 GHz band or in the 60 GHz band. -/
def TableValue (chan : Nat) (f : Int) : Prop :=
  f = -1 ∨ (1 ≤ chan ∧ chan ≤ 13 ∧ f = 2407 + 5 * (chan : Int)) ∨
  (chan = 14 ∧ f = 2484) ∨ (34 ≤ chan ∧ chan ≤ 169 ∧ f = 5000 + 5 * (chan : Int)) ∨
  (1 ≤ chan ∧ chan ≤ 4 ∧ f = 56160 + 2160 * (chan : Int))

/-- The walker counts the well-formed element `e` as unknown: its ID is outside
the recognised set, or it is a vendor-specific element whose Value
`ieee802_11_parse_vendor_specific` reports as unrecognised. -/
def Elem.unknown (d : ieee802_11_defs) (e : Elem) : Prop :=
  e.id ∉ d.eids ∨
  (e.id = d.WLAN_EID_VENDOR_SPECIFIC ∧
    (ieee802_11_parse_vendor_specific d e.value 0 e.value.length ieee802_11_elems.zero
      0).ret ≠ 0)

instance (d : ieee802_11_defs) (e : Elem) : Decidable (e.unknown d) := by
  unfold Elem.unknown; infer_instance

/-- The vendor dispatcher, run on the Value of the element `e` alone from the
zeroed element set, records the Value in the member `m`. -/
def Elem.vendor_records (d : ieee802_11_defs) (e : Elem) (m : Field) : Prop :=
  (ieee802_11_parse_vendor_specific d e.value 0 e.value.length ieee802_11_elems.zero
    0).elems.ptr m ≠ none

instance (d : ieee802_11_defs) (e : Elem) (m : Field) : Decidable (e.vendor_records d m) := by
  unfold Elem.vendor_records; infer_instance

/-! # Properties -/

/-! ## Basic facts about the switch -/

theorem Eid.mem_all (l : Eid) : l ∈ Eid.all := by
  cases l <;> simp [Eid.all]

theorem switch_label_some {d : ieee802_11_defs} {id : Nat} {l : Eid}
    (h : switch_label d id = some l) : d.eid l = id := by
  have := List.find?_some h
  simpa using this

theorem switch_label_none {d : ieee802_11_defs} {id : Nat} :
    switch_label d id = none ↔ id ∉ d.eids := by
  unfold switch_label ieee802_11_defs.eids
  rw [List.find?_eq_none]
  simp only [List.mem_map, not_exists, not_and, decide_eq_true_eq]

theorem find_map_nodup {α : Type} (f : α → Nat) :
    ∀ (xs : List α), (xs.map f).Nodup → ∀ x ∈ xs, xs.find? (fun y => f y = f x) = some x
  | [], _, x, hx => by simp at hx
  | y :: ys, hnd, x, hx => by
    rw [List.map_cons, List.nodup_cons] at hnd
    rcases List.mem_cons.1 hx with rfl | hx
    · simp
    · have hne : f y ≠ f x := by
        intro e; apply hnd.1; rw [e]; exact List.mem_map_of_mem f hx
      rw [List.find?_cons_of_neg _ (by simpa using hne)]
      exact find_map_nodup f ys hnd.2 x hx

theorem switch_label_eid {d : ieee802_11_defs} (hd : d.eids.Nodup) (l : Eid) :
    switch_label d (d.eid l) = some l :=
  find_map_nodup d.eid Eid.all hd l (Eid.mem_all l)

theorem switch_label_eq_iff {d : ieee802_11_defs} (hd : d.eids.Nodup) (id : Nat) (l : Eid) :
    switch_label d id = some l ↔ id = d.eid l :=
  ⟨fun h => (switch_label_some h).symm, fun h => h ▸ switch_label_eid hd l⟩


/-! ## Effect of the two dispatchers on the element set -/

theorem vendor_specific_effect (d : ieee802_11_defs) (buf : List Nat) (pos elen : Nat)
    (elems : ieee802_11_elems) (se : Int) :
    VendorEffect elems pos elen (ieee802_11_parse_vendor_specific d buf pos elen elems se) := by
  unfold ieee802_11_parse_vendor_specific
  dsimp only
  generalize WPA_GET_BE24 buf pos = oui
  generalize rd buf (pos + 3) = t
  generalize rd buf (pos + 4) = st
  split_ifs <;> first
    | exact Or.inr ⟨rfl, rfl⟩
    | exact Or.inl ⟨rfl, by omega, _, rfl, rfl⟩

theorem parse_elems_switch_effect (d : ieee802_11_defs) (buf : List Nat) (se : Int)
    (id elen pos left unknown : Nat) (elems : ieee802_11_elems) (log : List Diag) :
    SwitchEffect elems pos elen
      (parse_elems_switch d buf se id elen pos left unknown elems log).elems := by
  unfold parse_elems_switch
  rcases switch_label d id with _ | l
  · exact Or.inl rfl
  · cases l
    case VENDOR_SPECIFIC =>
      rcases vendor_specific_effect d buf pos elen elems se with ⟨_, _, m, h, hm⟩ | ⟨_, h⟩
      · exact Or.inr (Or.inl ⟨m, h, hm⟩)
      · exact Or.inl h
    all_goals
      dsimp only
      first
        | exact Or.inl rfl
        | exact Or.inr (Or.inl ⟨_, rfl, rfl⟩)
        | (split_ifs
           · exact Or.inl rfl
           · first
              | exact Or.inr (Or.inl ⟨_, rfl, rfl⟩)
              | exact Or.inr (Or.inr ⟨_, rfl, rfl⟩))

theorem parse_elems_switch_left (d : ieee802_11_defs) (buf : List Nat) (se : Int)
    (id elen pos left unknown : Nat) (elems : ieee802_11_elems) (log : List Diag) :
    (parse_elems_switch d buf se id elen pos left unknown elems log).left =
      if switch_label d id = some .MIC then elen else left := by
  unfold parse_elems_switch
  rcases switch_label d id with _ | l
  · simp
  · cases l <;> simp <;> split_ifs <;> rfl

/-! ## The pass bound of the loop is never exhausted -/

theorem parse_elems_switch_left_le (d : ieee802_11_defs) (buf : List Nat) (se : Int)
    (id elen pos left unknown : Nat) (elems : ieee802_11_elems) (log : List Diag) :
    (parse_elems_switch d buf se id elen pos left unknown elems log).left - elen ≤
      left - elen := by
  rw [parse_elems_switch_left]
  split_ifs <;> omega

theorem parse_elems_loop_fuel (d : ieee802_11_defs) (buf : List Nat) (se : Int) :
    ∀ (f1 f2 left pos unknown : Nat) (elems : ieee802_11_elems) (log : List Diag),
      left ≤ f1 → left ≤ f2 →
      parse_elems_loop d buf se f1 left pos unknown elems log =
        parse_elems_loop d buf se f2 left pos unknown elems log := by
  intro f1
  induction f1 with
  | zero =>
    intro f2 left pos unknown elems log h1 _
    have h0 : left = 0 := by omega
    subst h0
    cases f2 <;> simp [parse_elems_loop]
  | succ n ih =>
    intro f2 left pos unknown elems log h1 h2
    cases f2 with
    | zero =>
      have h0 : left = 0 := by omega
      subst h0
      simp [parse_elems_loop]
    | succ m =>
      simp only [parse_elems_loop]
      split_ifs with hl he hs
      · rfl
      · rfl
      · have hle := parse_elems_switch_left_le d buf se (rd buf pos) (rd buf (pos + 1))
          (pos + 2) (left - 2) unknown elems log
        exact ih m _ _ _ _ _ (by omega) (by omega)
      · rfl

/-- The loop unfolded once, free of the pass bound. -/
theorem parse_elems_from_eq (d : ieee802_11_defs) (buf : List Nat) (se : Int)
    (left pos unknown : Nat) (elems : ieee802_11_elems) (log : List Diag) :
    parse_elems_from d buf se left pos unknown elems log =
      if 2 ≤ left then
        if rd buf (pos + 1) > left - 2 then
          ⟨.ParseFailed, elems,
            if se ≠ 0 then
              log ++ [Diag.parse_failed (rd buf pos) (rd buf (pos + 1)) (left - 2),
                Diag.hexdump buf]
            else log⟩
        else
          parse_elems_from d buf se
            ((parse_elems_switch d buf se (rd buf pos) (rd buf (pos + 1)) (pos + 2) (left - 2)
              unknown elems log).left - rd buf (pos + 1))
            (pos + 2 + rd buf (pos + 1))
            (parse_elems_switch d buf se (rd buf pos) (rd buf (pos + 1)) (pos + 2) (left - 2)
              unknown elems log).unknown
            (parse_elems_switch d buf se (rd buf pos) (rd buf (pos + 1)) (pos + 2) (left - 2)
              unknown elems log).elems
            (parse_elems_switch d buf se (rd buf pos) (rd buf (pos + 1)) (pos + 2) (left - 2)
              unknown elems log).log
      else parse_elems_exit left unknown elems log := by
  unfold parse_elems_from
  cases left with
  | zero => simp [parse_elems_loop]
  | succ n =>
    simp only [parse_elems_loop]
    split_ifs with hl he hs
    · rfl
    · rfl
    · have hle := parse_elems_switch_left_le d buf se (rd buf pos) (rd buf (pos + 1))
        (pos + 2) (n + 1 - 2) unknown elems log
      exact parse_elems_loop_fuel d buf se _ _ _ _ _ _ _ (by omega) (le_refl _)
    · rfl

theorem parse_elems_eq_from (d : ieee802_11_defs) (buf : List Nat) (se : Int) :
    ieee802_11_parse_elems d buf se =
      parse_elems_from d buf se buf.length 0 0 ieee802_11_elems.zero [] := rfl

/-! ## C1: references stay inside the buffer -/

theorem rd_eq_getElem? {buf : List Nat} {i : Nat} (h : i < buf.length) :
    buf[i]? = some (rd buf i) := by
  simp [rd, List.getD, List.getElem?_eq_getElem h]

theorem RefsInside_zero (buf : List Nat) : RefsInside buf ieee802_11_elems.zero := by
  intro m o h
  simp [ieee802_11_elems.zero] at h

theorem RefsInside_assign {buf : List Nat} {e : ieee802_11_elems} (h : RefsInside buf e)
    {m : Field} {pos elen : Nat} (hm : m.lengthless = false) (hs : SpanOK buf pos elen) :
    RefsInside buf (e.assign m pos elen) := by
  intro g o hg
  simp only [ieee802_11_elems.assign] at hg ⊢
  by_cases hgm : g = m
  · subst hgm
    simp only [if_true] at hg ⊢
    cases hg
    exact ⟨fun _ => hs, fun h' => by rw [hm] at h'; cases h'⟩
  · simp only [if_neg hgm] at hg ⊢
    exact h g o hg

theorem RefsInside_assignPtr {buf : List Nat} {e : ieee802_11_elems} (h : RefsInside buf e)
    {m : Field} {pos elen : Nat} (hm : m.lengthless = true) (hs : SpanOK buf pos elen) :
    RefsInside buf (e.assignPtr m pos) := by
  intro g o hg
  simp only [ieee802_11_elems.assignPtr] at hg ⊢
  by_cases hgm : g = m
  · subst hgm
    simp only [if_true] at hg
    cases hg
    refine ⟨fun h' => ?_, fun _ => ⟨elen, hs⟩⟩
    rw [hm] at h'; cases h'
  · simp only [if_neg hgm] at hg
    exact h g o hg

theorem RefsInside_switch {buf : List Nat} {e e' : ieee802_11_elems} {pos elen : Nat}
    (h : RefsInside buf e) (hs : SpanOK buf pos elen) (he : SwitchEffect e pos elen e') :
    RefsInside buf e' := by
  rcases he with rfl | ⟨m, rfl, hm⟩ | ⟨m, rfl, hm⟩
  · exact h
  · exact RefsInside_assign h hm hs
  · exact RefsInside_assignPtr h hm hs

theorem parse_elems_from_refs (d : ieee802_11_defs) (buf : List Nat) (se : Int) :
    ∀ (left pos unknown : Nat) (elems : ieee802_11_elems) (log : List Diag),
      pos + left ≤ buf.length → RefsInside buf elems →
      RefsInside buf (parse_elems_from d buf se left pos unknown elems log).elems := by
  intro left
  induction left using Nat.strong_induction_on with
  | _ left ih =>
    intro pos unknown elems log hb hi
    rw [parse_elems_from_eq]
    split_ifs with hl he hs
    · exact hi
    · exact hi
    · have hle := parse_elems_switch_left_le d buf se (rd buf pos) (rd buf (pos + 1))
        (pos + 2) (left - 2) unknown elems log
      apply ih _ (by omega) _ _ _ _ (by omega)
      refine RefsInside_switch hi ?_ (parse_elems_switch_effect d buf se _ _ _ _ _ _ _)
      refine ⟨by omega, by omega, ?_⟩
      have e1 : pos + 2 - 1 = pos + 1 := by omega
      rw [e1]
      exact rd_eq_getElem? (by omega)
    · unfold parse_elems_exit
      split_ifs <;> exact hi

/-- C1: after `ieee802_11_parse_elems` returns, with any verdict and either value
of `show_errors`, every populated reference lies inside the input.  If member
`m` holds offset `o` and length `n` then `2 ≤ o`, `o + n ≤ len` and the octet
at `o - 1` is `n`; for a length-less member the same holds with `n` the
declared Length of its element. -/
theorem parse_elems_refs_inside (d : ieee802_11_defs) (buf : List Nat) (show_errors : Int)
    (m : Field) (o : Nat)
    (h : (ieee802_11_parse_elems d buf show_errors).elems.ptr m = some o) :
    (m.lengthless = false →
      2 ≤ o ∧ o + (ieee802_11_parse_elems d buf show_errors).elems.len m ≤ buf.length ∧
        buf[o - 1]? = some ((ieee802_11_parse_elems d buf show_errors).elems.len m)) ∧
    (m.lengthless = true →
      ∃ n, 2 ≤ o ∧ o + n ≤ buf.length ∧ buf[o - 1]? = some n) :=
  parse_elems_from_refs d buf show_errors buf.length 0 0 ieee802_11_elems.zero []
    (by omega) (RefsInside_zero buf) m o h

/-- C1 at a failed parse: the SSID element is recorded before the truncated
second element makes the verdict `ParseFailed`, and its span is inside. -/
theorem parse_elems_refs_inside_witness :
    (ieee802_11_parse_elems sample_defs [0, 2, 65, 66, 1, 9, 2] 1).res = ParseRes.ParseFailed ∧
    (ieee802_11_parse_elems sample_defs [0, 2, 65, 66, 1, 9, 2] 1).elems.ptr Field.ssid =
      some 2 ∧
    (2 ≤ 2 ∧ 2 + (ieee802_11_parse_elems sample_defs [0, 2, 65, 66, 1, 9, 2] 1).elems.len
        Field.ssid ≤ [0, 2, 65, 66, 1, 9, 2].length ∧
      [0, 2, 65, 66, 1, 9, 2][2 - 1]? =
        some ((ieee802_11_parse_elems sample_defs [0, 2, 65, 66, 1, 9, 2] 1).elems.len
          Field.ssid)) :=
  ⟨by decide, by decide,
    (parse_elems_refs_inside sample_defs [0, 2, 65, 66, 1, 9, 2] 1 Field.ssid 2
      (by decide)).1 (by decide)⟩

/-! ## C2: when the walker fails -/

theorem eid_inj {d : ieee802_11_defs} (hd : d.eids.Nodup) {l l' : Eid}
    (h : d.eid l = d.eid l') : l = l' := by
  have h1 := switch_label_eid hd l
  rw [h, switch_label_eid hd l'] at h1
  exact (Option.some.inj h1).symm

theorem Reach_of_short {d : ieee802_11_defs} {buf : List Nat} {p q : Nat}
    (h : Reach d buf p q) (hs : buf.length < p + 2) : q = p := by
  cases h with
  | refl => rfl
  | step h1 _ _ _ => omega

theorem Reach_of_mic {d : ieee802_11_defs} {buf : List Nat} {p q : Nat}
    (h : Reach d buf p q) (hs : rd buf p = d.WLAN_EID_MIC) : q = p := by
  cases h with
  | refl => rfl
  | step _ _ h3 _ => exact absurd hs h3

theorem Reach_iff_step (d : ieee802_11_defs) (buf : List Nat) (p : Nat)
    (h1 : p + 2 ≤ buf.length) (h2 : rd buf (p + 1) ≤ buf.length - (p + 2))
    (h3 : rd buf p ≠ d.WLAN_EID_MIC) (q : Nat) :
    Reach d buf p q ↔ q = p ∨ Reach d buf (p + 2 + rd buf (p + 1)) q := by
  constructor
  · intro h
    cases h with
    | refl => exact Or.inl rfl
    | step _ _ _ h4 => exact Or.inr h4
  · rintro (rfl | h)
    · exact Reach.refl _
    · exact Reach.step h1 h2 h3 h

theorem Reach_trans {d : ieee802_11_defs} {buf : List Nat} {p q r : Nat}
    (h : Reach d buf p q) (h' : Reach d buf q r) : Reach d buf p r := by
  induction h with
  | refl => exact h'
  | step h1 h2 h3 _ ih => exact Reach.step h1 h2 h3 (ih h')

theorem parse_elems_from_zero (d : ieee802_11_defs) (buf : List Nat) (se : Int)
    (pos unknown : Nat) (elems : ieee802_11_elems) (log : List Diag) :
    parse_elems_from d buf se 0 pos unknown elems log =
      ⟨if unknown ≠ 0 then .ParseUnknown else .ParseOK, elems, log⟩ := by
  rw [parse_elems_from_eq]
  simp [parse_elems_exit]

theorem parse_elems_from_failed (d : ieee802_11_defs) (hd : d.eids.Nodup) (buf : List Nat)
    (se : Int) :
    ∀ (left pos unknown : Nat) (elems : ieee802_11_elems) (log : List Diag),
      pos + left = buf.length →
      ((parse_elems_from d buf se left pos unknown elems log).res = .ParseFailed ↔
        FailsFrom d buf pos) := by
  intro left
  induction left using Nat.strong_induction_on with
  | _ left ih =>
    intro pos unknown elems log hb
    rw [parse_elems_from_eq]
    by_cases hl : 2 ≤ left
    · rw [if_pos hl]
      by_cases he : rd buf (pos + 1) > left - 2
      · rw [if_pos he]
        simp only [true_iff]
        refine Or.inl ⟨pos, Reach.refl _, by omega, ?_⟩
        unfold Overrun
        omega
      · rw [if_neg he]
        have hnov : ¬ Overrun buf pos := by unfold Overrun; omega
        by_cases hm : rd buf pos = d.WLAN_EID_MIC
        · have hlab : switch_label d (rd buf pos) = some .MIC :=
            (switch_label_eq_iff hd _ _).2 hm
          rw [parse_elems_switch_left, if_pos hlab, Nat.sub_self, parse_elems_from_zero]
          constructor
          · intro h; split_ifs at h
          · rintro (⟨p, hp, _, hov⟩ | ⟨q, hq, hq1⟩)
            · rw [Reach_of_mic hp hm] at hov; exact absurd hov hnov
            · rw [Reach_of_mic hq hm] at hq1; omega
        · have hlab : ¬ switch_label d (rd buf pos) = some .MIC := fun h =>
            hm (switch_label_some h).symm
          rw [parse_elems_switch_left, if_neg hlab]
          rw [ih (left - 2 - rd buf (pos + 1)) (by omega) _ _ _ _ (by omega)]
          have hst := Reach_iff_step d buf pos (by omega) (by omega) hm
          unfold FailsFrom
          constructor
          · rintro (⟨p, hp, h2, hov⟩ | ⟨q, hq, hq1⟩)
            · exact Or.inl ⟨p, (hst p).2 (Or.inr hp), h2, hov⟩
            · exact Or.inr ⟨q, (hst q).2 (Or.inr hq), hq1⟩
          · rintro (⟨p, hp, h2, hov⟩ | ⟨q, hq, hq1⟩)
            · rcases (hst p).1 hp with rfl | hp'
              · exact absurd hov hnov
              · exact Or.inl ⟨p, hp', h2, hov⟩
            · rcases (hst q).1 hq with rfl | hq'
              · omega
              · exact Or.inr ⟨q, hq', hq1⟩
    · rw [if_neg hl]
      unfold parse_elems_exit FailsFrom
      constructor
      · intro h
        have h1 : left = 1 := by
          by_contra hne
          have h0 : left = 0 := by omega
          subst h0
          simp at h
          split_ifs at h
        exact Or.inr ⟨pos, Reach.refl _, by omega⟩
      · rintro (⟨p, hp, h2, _⟩ | ⟨q, hq, hq1⟩)
        · rw [Reach_of_short hp (by omega)] at h2; omega
        · rw [Reach_of_short hq (by omega)] at hq1
          have h1 : left ≠ 0 := by omega
          rw [if_pos h1]

/-- C2, as amended: `ieee802_11_parse_elems` returns `ParseFailed` if and only
if, walking the buffer element by element from the start and stopping after
the first Message-Integrity element, some walked element declares a Length
greater than the number of octets left after its header, or the walk arrives,
without having met a Message-Integrity element, where exactly one octet is left.
The condition does not look at any Value octet. -/
theorem parse_elems_failed_iff (d : ieee802_11_defs) (hd : d.Distinct) (buf : List Nat)
    (show_errors : Int) :
    (ieee802_11_parse_elems d buf show_errors).res = ParseRes.ParseFailed ↔
      (∃ p, WalkedElem d buf p ∧ Overrun buf p) ∨
      (∃ q, Reach d buf 0 q ∧ q + 1 = buf.length) := by
  rw [parse_elems_eq_from,
    parse_elems_from_failed d hd.1 buf show_errors buf.length 0 0 _ _ (by omega)]
  unfold FailsFrom WalkedElem
  constructor
  · rintro (⟨p, hp, h2, hov⟩ | h)
    · exact Or.inl ⟨p, ⟨hp, h2⟩, hov⟩
    · exact Or.inr h
  · rintro (⟨p, ⟨hp, h2⟩, hov⟩ | h)
    · exact Or.inl ⟨p, hp, h2, hov⟩
    · exact Or.inr h

/-- C2 instantiated: a well-formed SSID element followed by one orphan octet. -/
theorem parse_elems_failed_iff_witness :
    sample_defs.Distinct ∧
    ((ieee802_11_parse_elems sample_defs [0, 2, 65, 66, 9] 0).res = ParseRes.ParseFailed ↔
      (∃ p, WalkedElem sample_defs [0, 2, 65, 66, 9] p ∧ Overrun [0, 2, 65, 66, 9] p) ∨
      (∃ q, Reach sample_defs [0, 2, 65, 66, 9] 0 q ∧ q + 1 = [0, 2, 65, 66, 9].length)) :=
  ⟨by decide, parse_elems_failed_iff sample_defs (by decide) [0, 2, 65, 66, 9] 0⟩

/-- C2 as stated fails: in `[MIC, 0, 7]` the walk stops after the
Message-Integrity element with exactly one octet left over, yet the verdict is
not `ParseFailed`, because the walker sets `left` to the Length of that element
and discards what follows. -/
theorem parse_elems_failed_as_stated_counterexample :
    ¬ ((ieee802_11_parse_elems sample_defs [140, 0, 7] 0).res = ParseRes.ParseFailed ↔
      (∃ p, WalkedElem sample_defs [140, 0, 7] p ∧ Overrun [140, 0, 7] p) ∨
      (∃ q, WalkEnd sample_defs [140, 0, 7] q ∧ q + 1 = [140, 0, 7].length)) := by
  intro h
  have hres : (ieee802_11_parse_elems sample_defs [140, 0, 7] 0).res = ParseRes.ParseOK := by
    decide
  have hfail := h.2 (Or.inr ⟨2, Or.inr ⟨0, ⟨Reach.refl 0, by decide⟩,
    by unfold Overrun; decide, by decide, by decide⟩, by decide⟩)
  rw [hres] at hfail
  cases hfail

/-! ## C3: `ParseUnknown` against `ParseOK` -/

theorem vendor_specific_ret_indep (d : ieee802_11_defs) (buf : List Nat) (pos elen : Nat)
    (e e' : ieee802_11_elems) (se se' : Int) :
    (ieee802_11_parse_vendor_specific d buf pos elen e se).ret =
      (ieee802_11_parse_vendor_specific d buf pos elen e' se').ret := by
  unfold ieee802_11_parse_vendor_specific
  dsimp only
  generalize WPA_GET_BE24 buf pos = oui
  generalize rd buf (pos + 3) = t
  generalize rd buf (pos + 4) = st
  split_ifs <;> rfl

theorem eid_mem_eids (d : ieee802_11_defs) (l : Eid) : d.eid l ∈ d.eids :=
  List.mem_map_of_mem _ (Eid.mem_all l)

theorem parse_elems_switch_unknown (d : ieee802_11_defs) (hd : d.eids.Nodup) (buf : List Nat)
    (se : Int) (p left unknown : Nat) (elems : ieee802_11_elems) (log : List Diag) :
    (parse_elems_switch d buf se (rd buf p) (rd buf (p + 1)) (p + 2) left unknown elems
      log).unknown ≠ 0 ↔ unknown ≠ 0 ∨ UnknownAt d buf p := by
  unfold parse_elems_switch UnknownAt
  rcases hlab : switch_label d (rd buf p) with _ | l
  · have hn := switch_label_none.1 hlab
    simp [hn]
  · have hid : rd buf p = d.eid l := (switch_label_some hlab).symm
    have hmem : rd buf p ∈ d.eids := hid ▸ eid_mem_eids d l
    by_cases hv : l = .VENDOR_SPECIFIC
    · subst hv
      have hidv : rd buf p = d.WLAN_EID_VENDOR_SPECIFIC := hid
      rw [vendor_specific_ret_indep d buf (p + 2) (rd buf (p + 1)) ieee802_11_elems.zero elems
        0 se]
      simp only [hmem, not_true_eq_false, false_or, hidv, true_and]
      have hmem' : d.WLAN_EID_VENDOR_SPECIFIC ∈ d.eids := hidv ▸ hmem
      split_ifs with h <;> simp [h, hmem']
    · have hne : rd buf p ≠ d.WLAN_EID_VENDOR_SPECIFIC := fun h =>
        hv (@eid_inj d hd l Eid.VENDOR_SPECIFIC (hid ▸ h))
      simp only [hmem, not_true_eq_false, false_or, hne, false_and, or_false]
      cases l <;> first | exact absurd rfl hv | rfl | (dsimp only; split_ifs <;> rfl)

theorem parse_elems_from_unknown (d : ieee802_11_defs) (hd : d.eids.Nodup) (buf : List Nat)
    (se : Int) :
    ∀ (left pos unknown : Nat) (elems : ieee802_11_elems) (log : List Diag),
      pos + left = buf.length →
      (parse_elems_from d buf se left pos unknown elems log).res ≠ .ParseFailed →
      ((parse_elems_from d buf se left pos unknown elems log).res = .ParseUnknown ↔
        unknown ≠ 0 ∨ ∃ p, Reach d buf pos p ∧ p + 2 ≤ buf.length ∧ UnknownAt d buf p) := by
  intro left
  induction left using Nat.strong_induction_on with
  | _ left ih =>
    intro pos unknown elems log hb
    rw [parse_elems_from_eq]
    by_cases hl : 2 ≤ left
    · rw [if_pos hl]
      by_cases he : rd buf (pos + 1) > left - 2
      · rw [if_pos he]
        intro h; exact absurd rfl h
      · rw [if_neg he]
        have hsu := parse_elems_switch_unknown d hd buf se pos (left - 2) unknown elems log
        by_cases hm : rd buf pos = d.WLAN_EID_MIC
        · have hlab : switch_label d (rd buf pos) = some .MIC :=
            (switch_label_eq_iff hd _ _).2 hm
          rw [parse_elems_switch_left, if_pos hlab, Nat.sub_self, parse_elems_from_zero]
          intro _
          have hres : ∀ u : Nat, (if u ≠ 0 then ParseRes.ParseUnknown else ParseRes.ParseOK) =
              ParseRes.ParseUnknown ↔ u ≠ 0 := by
            intro u; split_ifs with h <;> simp [h]
          dsimp only
          rw [hres, hsu]
          constructor
          · rintro (h | h)
            · exact Or.inl h
            · exact Or.inr ⟨pos, Reach.refl _, by omega, h⟩
          · rintro (h | ⟨p, hp, _, hu⟩)
            · exact Or.inl h
            · rw [Reach_of_mic hp hm] at hu; exact Or.inr hu
        · have hlab : ¬ switch_label d (rd buf pos) = some .MIC := fun h =>
            hm (switch_label_some h).symm
          rw [parse_elems_switch_left, if_neg hlab]
          intro hnf
          rw [ih (left - 2 - rd buf (pos + 1)) (by omega) _ _ _ _ (by omega) hnf, hsu]
          have hst := Reach_iff_step d buf pos (by omega) (by omega) hm
          constructor
          · rintro ((h | h) | ⟨p, hp, h2, hu⟩)
            · exact Or.inl h
            · exact Or.inr ⟨pos, Reach.refl _, by omega, h⟩
            · exact Or.inr ⟨p, (hst p).2 (Or.inr hp), h2, hu⟩
          · rintro (h | ⟨p, hp, h2, hu⟩)
            · exact Or.inl (Or.inl h)
            · rcases (hst p).1 hp with rfl | hp'
              · exact Or.inl (Or.inr hu)
              · exact Or.inr ⟨p, hp', h2, hu⟩
    · rw [if_neg hl]
      unfold parse_elems_exit
      by_cases h0 : left ≠ 0
      · rw [if_pos h0]; intro h; exact absurd rfl h
      · rw [if_neg h0]
        intro _
        dsimp only
        constructor
        · intro h
          left
          intro hu
          rw [hu] at h
          simp at h
        · rintro (h | ⟨p, hp, h2, _⟩)
          · rw [if_pos h]
          · rw [Reach_of_short hp (by omega)] at h2; omega

theorem parse_elems_short_wmm (d : ieee802_11_defs) (hd : d.Distinct) (se : Int)
    (o0 o1 o2 : Nat) (ho : WPA_GET_BE24 [o0, o1, o2] 0 = d.OUI_MICROSOFT) :
    (ieee802_11_parse_elems d [d.WLAN_EID_VENDOR_SPECIFIC, 4, o0, o1, o2, d.WMM_OUI_TYPE]
      se).res = ParseRes.ParseUnknown := by
  have hlab : switch_label d d.WLAN_EID_VENDOR_SPECIFIC = some .VENDOR_SPECIFIC :=
    switch_label_eid hd.1 .VENDOR_SPECIFIC
  have hw1 : d.WMM_OUI_TYPE ≠ 1 := by
    have := hd.2.2.1
    simp only [List.nodup_cons, List.mem_cons, List.mem_singleton, not_or] at this
    exact fun h => this.1.1 h.symm
  have houi : WPA_GET_BE24 [d.WLAN_EID_VENDOR_SPECIFIC, 4, o0, o1, o2, d.WMM_OUI_TYPE] 2 =
      d.OUI_MICROSOFT := by rw [← ho]; rfl
  have hv : (ieee802_11_parse_vendor_specific d
      [d.WLAN_EID_VENDOR_SPECIFIC, 4, o0, o1, o2, d.WMM_OUI_TYPE] 2 4 ieee802_11_elems.zero
      se).ret = -1 := by
    unfold ieee802_11_parse_vendor_specific
    have h3 : rd [d.WLAN_EID_VENDOR_SPECIFIC, 4, o0, o1, o2, d.WMM_OUI_TYPE] (2 + 3) =
        d.WMM_OUI_TYPE := rfl
    simp only [houi, h3, hw1, if_true, if_false, Nat.lt_irrefl, show (4 : Nat) < 5 by omega]
  rw [parse_elems_eq_from, parse_elems_from_eq]
  have h0 : rd [d.WLAN_EID_VENDOR_SPECIFIC, 4, o0, o1, o2, d.WMM_OUI_TYPE] 0 =
      d.WLAN_EID_VENDOR_SPECIFIC := rfl
  have h1 : rd [d.WLAN_EID_VENDOR_SPECIFIC, 4, o0, o1, o2, d.WMM_OUI_TYPE] (0 + 1) = 4 := rfl
  have hlen : [d.WLAN_EID_VENDOR_SPECIFIC, 4, o0, o1, o2, d.WMM_OUI_TYPE].length = 6 := rfl
  rw [h0, h1, hlen, if_pos (by omega), if_neg (by omega), parse_elems_switch_left,
    hlab, if_neg (by simp), parse_elems_from_zero]
  unfold parse_elems_switch
  rw [hlab]
  dsimp only
  rw [hv]
  simp

/-- C3: on every buffer on which `ieee802_11_parse_elems` does not return
`ParseFailed`, the verdict is `ParseUnknown` exactly when some walked element
has an ID outside the recognised set or is a vendor-specific element that
`ieee802_11_parse_vendor_specific` reports as unrecognised, and `ParseOK`
otherwise.  In particular one vendor-specific element whose 4-octet Value is
the Microsoft OUI followed by the WMM type octet yields `ParseUnknown`. -/
theorem parse_elems_unknown_iff (d : ieee802_11_defs) (hd : d.Distinct) (buf : List Nat)
    (show_errors : Int) :
    ((ieee802_11_parse_elems d buf show_errors).res ≠ ParseRes.ParseFailed →
      (((ieee802_11_parse_elems d buf show_errors).res = ParseRes.ParseUnknown ↔
          ∃ p, WalkedElem d buf p ∧ UnknownAt d buf p) ∧
        (¬ (∃ p, WalkedElem d buf p ∧ UnknownAt d buf p) →
          (ieee802_11_parse_elems d buf show_errors).res = ParseRes.ParseOK))) ∧
    (∀ o0 o1 o2 : Nat, WPA_GET_BE24 [o0, o1, o2] 0 = d.OUI_MICROSOFT →
      (ieee802_11_parse_elems d [d.WLAN_EID_VENDOR_SPECIFIC, 4, o0, o1, o2, d.WMM_OUI_TYPE]
        show_errors).res = ParseRes.ParseUnknown) := by
  refine ⟨fun hnf => ?_, fun o0 o1 o2 ho => parse_elems_short_wmm d hd show_errors o0 o1 o2 ho⟩
  have hiff : (ieee802_11_parse_elems d buf show_errors).res = ParseRes.ParseUnknown ↔
      ∃ p, WalkedElem d buf p ∧ UnknownAt d buf p := by
    rw [parse_elems_eq_from] at hnf ⊢
    rw [parse_elems_from_unknown d hd.1 buf show_errors buf.length 0 0 _ _ (by omega) hnf]
    unfold WalkedElem
    constructor
    · rintro (h | ⟨p, hp, h2, hu⟩)
      · exact absurd rfl h
      · exact ⟨p, ⟨hp, h2⟩, hu⟩
    · rintro ⟨p, ⟨hp, h2⟩, hu⟩
      exact Or.inr ⟨p, hp, h2, hu⟩
  refine ⟨hiff, fun hno => ?_⟩
  have hnu : (ieee802_11_parse_elems d buf show_errors).res ≠ ParseRes.ParseUnknown :=
    fun h => hno (hiff.1 h)
  cases hres : (ieee802_11_parse_elems d buf show_errors).res with
  | ParseOK => rfl
  | ParseUnknown => exact absurd hres hnu
  | ParseFailed => exact absurd hres hnf

/-- C3 instantiated at the short WMM element `dd 04 00 50 f2 02`. -/
theorem parse_elems_unknown_iff_witness :
    sample_defs.Distinct ∧
    (ieee802_11_parse_elems sample_defs [221, 4, 0, 0x50, 0xf2, 2] 0).res ≠
      ParseRes.ParseFailed ∧
    ((ieee802_11_parse_elems sample_defs [221, 4, 0, 0x50, 0xf2, 2] 0).res =
        ParseRes.ParseUnknown ↔
      ∃ p, WalkedElem sample_defs [221, 4, 0, 0x50, 0xf2, 2] p ∧
        UnknownAt sample_defs [221, 4, 0, 0x50, 0xf2, 2] p) ∧
    (ieee802_11_parse_elems sample_defs
      [sample_defs.WLAN_EID_VENDOR_SPECIFIC, 4, 0, 0x50, 0xf2, sample_defs.WMM_OUI_TYPE]
      0).res = ParseRes.ParseUnknown :=
  ⟨by decide, by decide,
    ((parse_elems_unknown_iff sample_defs (by decide) [221, 4, 0, 0x50, 0xf2, 2] 0).1
      (by decide)).1,
    (parse_elems_unknown_iff sample_defs (by decide) [221, 4, 0, 0x50, 0xf2, 2] 0).2
      0 0x50 0xf2 (by decide)⟩

/-! ## The walker on a concatenation of well-formed elements -/

theorem rd_append_right (pre post : List Nat) (i : Nat) :
    rd (pre ++ post) (pre.length + i) = rd post i := by
  unfold rd
  rw [List.getD_eq_getElem?_getD, List.getD_eq_getElem?_getD,
    List.getElem?_append_right (by omega)]
  congr 2
  omega

theorem rd_append_left (pre post : List Nat) (i : Nat) (h : i < pre.length) :
    rd (pre ++ post) i = rd pre i := by
  unfold rd
  rw [List.getD_eq_getElem?_getD, List.getD_eq_getElem?_getD,
    List.getElem?_append_left h]

theorem encode_append (es fs : List Elem) : encode (es ++ fs) = encode es ++ encode fs := by
  induction es with
  | nil => rfl
  | cons e es ih => simp [encode, ih]

theorem Elem.encode_length (e : Elem) : e.encode.length = e.value.length + 2 := by
  simp [Elem.encode]

/-- The vendor dispatcher reads only the `elen` octets of the span. -/
theorem vendor_specific_local (d : ieee802_11_defs) (buf buf' : List Nat) (pos elen : Nat)
    (e : ieee802_11_elems) (se : Int)
    (h : ∀ i, i < elen → rd buf (pos + i) = rd buf' (pos + i)) :
    ieee802_11_parse_vendor_specific d buf pos elen e se =
      ieee802_11_parse_vendor_specific d buf' pos elen e se := by
  unfold ieee802_11_parse_vendor_specific
  by_cases h4 : elen < 4
  · rw [if_pos h4, if_pos h4]
  · rw [if_neg h4, if_neg h4]
    have e0 : rd buf pos = rd buf' pos := h 0 (by omega)
    have e1 := h 1 (by omega)
    have e2 := h 2 (by omega)
    have e3 := h 3 (by omega)
    have hbe : WPA_GET_BE24 buf pos = WPA_GET_BE24 buf' pos := by
      unfold WPA_GET_BE24; rw [e0, e1, e2]
    dsimp only
    rw [hbe, e0, e1, e2, e3]
    by_cases h5 : elen < 5
    · have h5' : ¬ elen > 4 := by omega
      simp only [h5, h5', if_true, false_and, if_false]
    · rw [h 4 (by omega)]

/-- Apart from `left`, the outcome of the switch depends on the buffer only
through the `elen` octets of the Value, and not on `left` at all. -/
theorem parse_elems_switch_local (d : ieee802_11_defs) (buf buf' : List Nat) (se : Int)
    (id elen pos left left' unknown : Nat) (elems : ieee802_11_elems) (log : List Diag)
    (h : ∀ i, i < elen → rd buf (pos + i) = rd buf' (pos + i)) :
    (parse_elems_switch d buf se id elen pos left unknown elems log).unknown =
      (parse_elems_switch d buf' se id elen pos left' unknown elems log).unknown ∧
    (parse_elems_switch d buf se id elen pos left unknown elems log).elems =
      (parse_elems_switch d buf' se id elen pos left' unknown elems log).elems ∧
    (parse_elems_switch d buf se id elen pos left unknown elems log).log =
      (parse_elems_switch d buf' se id elen pos left' unknown elems log).log := by
  unfold parse_elems_switch
  rw [vendor_specific_local d buf buf' pos elen elems se h]
  rcases switch_label d id with _ | l
  · exact ⟨rfl, rfl, rfl⟩
  · cases l <;> first | exact ⟨rfl, rfl, rfl⟩ | (dsimp only; split_ifs <;> exact ⟨rfl, rfl, rfl⟩)

/-- One pass of the loop over a complete element `e` that sits at offset
`pre.length` of the buffer. -/
theorem parse_elems_from_elem (d : ieee802_11_defs) (se : Int) (pre post : List Nat)
    (e : Elem) (unknown : Nat) (elems : ieee802_11_elems) (log : List Diag) :
    parse_elems_from d (pre ++ (e.encode ++ post)) se (e.encode ++ post).length pre.length
        unknown elems log =
      parse_elems_from d (pre ++ (e.encode ++ post)) se
        ((parse_elems_switch d (pre ++ (e.encode ++ post)) se e.id e.value.length
          (pre.length + 2) (e.value.length + post.length) unknown elems log).left -
            e.value.length)
        (pre.length + 2 + e.value.length)
        (parse_elems_switch d (pre ++ (e.encode ++ post)) se e.id e.value.length
          (pre.length + 2) (e.value.length + post.length) unknown elems log).unknown
        (parse_elems_switch d (pre ++ (e.encode ++ post)) se e.id e.value.length
          (pre.length + 2) (e.value.length + post.length) unknown elems log).elems
        (parse_elems_switch d (pre ++ (e.encode ++ post)) se e.id e.value.length
          (pre.length + 2) (e.value.length + post.length) unknown elems log).log := by
  have hid : rd (pre ++ (e.encode ++ post)) pre.length = e.id := by
    have := rd_append_right pre (e.encode ++ post) 0
    rw [Nat.add_zero] at this
    rw [this]; rfl
  have hlen : rd (pre ++ (e.encode ++ post)) (pre.length + 1) = e.value.length := by
    rw [rd_append_right]; rfl
  have hl : (e.encode ++ post).length = e.value.length + post.length + 2 := by
    simp [Elem.encode]
  rw [parse_elems_from_eq, hid, hlen, hl, if_pos (by omega), if_neg (by omega)]
  rfl

/-! ## C5, C6: truncated last element, orphan octet -/

theorem encode_cons_length (e : Elem) (es : List Elem) :
    (encode (e :: es)).length = (encode es).length + e.value.length + 2 := by
  simp [encode, Elem.encode]; omega

/-- The walk passes over a sequence of complete elements without a
Message-Integrity element. -/
theorem Reach_encode (d : ieee802_11_defs) :
    ∀ (P : List Elem) (pre post buf : List Nat), buf = pre ++ (encode P ++ post) →
      (∀ x ∈ P, x.id ≠ d.WLAN_EID_MIC) →
      Reach d buf pre.length (pre.length + (encode P).length)
  | [], pre, post, buf, _, _ => by simpa [encode] using Reach.refl pre.length
  | e :: P, pre, post, buf, hb, hP => by
    have hb' : buf = pre ++ (e.encode ++ (encode P ++ post)) := by
      rw [hb]; simp [encode]
    have hid : rd buf pre.length = e.id := by
      have := rd_append_right pre (e.encode ++ (encode P ++ post)) 0
      rw [Nat.add_zero] at this
      rw [hb', this]; rfl
    have hlen : rd buf (pre.length + 1) = e.value.length := by
      rw [hb', rd_append_right]; rfl
    have hl : buf.length = pre.length + (e.value.length + 2 + ((encode P).length +
        post.length)) := by
      rw [hb']; simp [Elem.encode]; omega
    have ih := Reach_encode d P (pre ++ e.encode) post buf
      (by rw [hb']; simp) (fun x hx => hP x (List.mem_cons_of_mem _ hx))
    have e1 : (pre ++ e.encode).length = pre.length + 2 + rd buf (pre.length + 1) := by
      rw [hlen]; simp [Elem.encode]; omega
    have e2 : pre.length + 2 + rd buf (pre.length + 1) + (encode P).length =
        pre.length + (encode (e :: P)).length := by
      rw [encode_cons_length, hlen]; omega
    rw [e1, e2] at ih
    refine Reach.step (by omega) (by omega) ?_ ih
    rw [hid]
    exact hP e (List.mem_cons_self _ _)

/-- C5, as amended: when zero or more well-formed elements, none of them a
Message-Integrity element, are followed by a final element whose header
declares a Length greater than the number of octets that remain after that
header, `ieee802_11_parse_elems` returns `ParseFailed`. -/
theorem parse_elems_truncated (d : ieee802_11_defs) (hd : d.Distinct) (P : List Elem)
    (hP : ∀ x ∈ P, x.id ≠ d.WLAN_EID_MIC) (id len : Nat) (v : List Nat)
    (hv : v.length < len) (show_errors : Int) :
    (ieee802_11_parse_elems d (encode P ++ id :: len :: v) show_errors).res =
      ParseRes.ParseFailed := by
  rw [parse_elems_eq_from, parse_elems_from_failed d hd.1 _ show_errors _ 0 0 _ _ (by omega)]
  have hr := Reach_encode d P [] (id :: len :: v) (encode P ++ id :: len :: v) rfl hP
  simp only [List.length_nil, Nat.zero_add] at hr
  refine Or.inl ⟨_, hr, by simp, ?_⟩
  unfold Overrun
  have := rd_append_right (encode P) (id :: len :: v) 1
  rw [this]
  simp [rd]
  omega

/-- C5 instantiated: an SSID element followed by a Supported Rates header that
declares 9 octets where one remains. -/
theorem parse_elems_truncated_witness :
    sample_defs.Distinct ∧ (∀ x ∈ [Elem.mk 0 [65, 66]], x.id ≠ sample_defs.WLAN_EID_MIC) ∧
    [2].length < 9 ∧
    (ieee802_11_parse_elems sample_defs (encode [Elem.mk 0 [65, 66]] ++ 1 :: 9 :: [2]) 1).res =
      ParseRes.ParseFailed :=
  ⟨by decide, by decide, by decide,
    parse_elems_truncated sample_defs (by decide) [Elem.mk 0 [65, 66]] (by decide) 1 9 [2]
      (by decide) 1⟩

/-- C5 as stated fails: a well-formed Message-Integrity element followed by a
truncated element (Length 5, no Value octet) gives `ParseOK`, because the
walker stops after the Message-Integrity element. -/
theorem parse_elems_truncated_counterexample :
    ([] : List Nat).length < 5 ∧
    (ieee802_11_parse_elems sample_defs (encode [Elem.mk 140 []] ++ 0 :: 5 :: []) 0).res =
      ParseRes.ParseOK :=
  ⟨by decide, by decide⟩

/-- C6, as amended: for every concatenation of well-formed elements without a
Message-Integrity element, appending exactly one extra octet makes
`ieee802_11_parse_elems` return `ParseFailed`. -/
theorem parse_elems_orphan_octet (d : ieee802_11_defs) (hd : d.Distinct) (P : List Elem)
    (hP : ∀ x ∈ P, x.id ≠ d.WLAN_EID_MIC) (b : Nat) (show_errors : Int) :
    (ieee802_11_parse_elems d (encode P ++ [b]) show_errors).res = ParseRes.ParseFailed := by
  rw [parse_elems_eq_from, parse_elems_from_failed d hd.1 _ show_errors _ 0 0 _ _ (by omega)]
  have hr := Reach_encode d P [] [b] (encode P ++ [b]) rfl hP
  simp only [List.length_nil, Nat.zero_add] at hr
  exact Or.inr ⟨_, hr, by simp⟩

/-- C6 instantiated: SSID and Supported Rates elements followed by one octet. -/
theorem parse_elems_orphan_octet_witness :
    sample_defs.Distinct ∧
    (∀ x ∈ [Elem.mk 0 [65, 66], Elem.mk 1 [2, 4]], x.id ≠ sample_defs.WLAN_EID_MIC) ∧
    (ieee802_11_parse_elems sample_defs
      (encode [Elem.mk 0 [65, 66], Elem.mk 1 [2, 4]] ++ [9]) 0).res = ParseRes.ParseFailed :=
  ⟨by decide, by decide,
    parse_elems_orphan_octet sample_defs (by decide) [Elem.mk 0 [65, 66], Elem.mk 1 [2, 4]]
      (by decide) 9 0⟩

/-- C6 as stated fails: one extra octet behind a concatenation that contains a
Message-Integrity element is discarded with everything else that follows that
element, and the verdict is `ParseOK`. -/
theorem parse_elems_orphan_octet_counterexample :
    (ieee802_11_parse_elems sample_defs
      (encode [Elem.mk 0 [65], Elem.mk 140 [9]] ++ [7]) 0).res = ParseRes.ParseOK := by
  decide

/-! ## C7: nothing behind a Message-Integrity element is interpreted -/

theorem rd_elem_value (pre post : List Nat) (e : Elem) (i : Nat) (h : i < e.value.length) :
    rd (pre ++ (e.encode ++ post)) (pre.length + 2 + i) = rd e.value i := by
  rw [Nat.add_assoc, rd_append_right, rd_append_left _ _ _ (by simp [Elem.encode]; omega)]
  simp [rd, Elem.encode, Nat.add_comm 2 i]

theorem parse_elems_switch_mic (d : ieee802_11_defs) (buf : List Nat) (se : Int)
    (id elen pos left unknown : Nat) (elems : ieee802_11_elems) (log : List Diag)
    (h : switch_label d id = some .MIC) :
    parse_elems_switch d buf se id elen pos left unknown elems log =
      ⟨elen, unknown, elems.assign .mic pos elen, log⟩ := by
  unfold parse_elems_switch
  rw [h]

/-- The walker on a buffer that has a complete Message-Integrity element at
offset `pre.length`: it records the element and stops. -/
theorem parse_elems_from_elem_mic (d : ieee802_11_defs) (se : Int) (pre post : List Nat)
    (e : Elem) (unknown : Nat) (elems : ieee802_11_elems) (log : List Diag)
    (h : switch_label d e.id = some .MIC) :
    parse_elems_from d (pre ++ (e.encode ++ post)) se (e.encode ++ post).length pre.length
        unknown elems log =
      ⟨if unknown ≠ 0 then .ParseUnknown else .ParseOK,
        elems.assign .mic (pre.length + 2) e.value.length, log⟩ := by
  rw [parse_elems_from_elem, parse_elems_switch_mic _ _ _ _ _ _ _ _ _ _ h]
  dsimp only
  rw [Nat.sub_self, parse_elems_from_zero]

/-- The walker on a buffer that has a complete element other than a
Message-Integrity element at offset `pre.length`: it runs the switch on the
element and goes on behind it. -/
theorem parse_elems_from_elem_next (d : ieee802_11_defs) (se : Int) (pre post : List Nat)
    (e : Elem) (unknown : Nat) (elems : ieee802_11_elems) (log : List Diag)
    (h : switch_label d e.id ≠ some .MIC) :
    parse_elems_from d (pre ++ (e.encode ++ post)) se (e.encode ++ post).length pre.length
        unknown elems log =
      parse_elems_from d ((pre ++ e.encode) ++ post) se post.length (pre ++ e.encode).length
        (parse_elems_switch d (pre ++ (e.encode ++ post)) se e.id e.value.length
          (pre.length + 2) 0 unknown elems log).unknown
        (parse_elems_switch d (pre ++ (e.encode ++ post)) se e.id e.value.length
          (pre.length + 2) 0 unknown elems log).elems
        (parse_elems_switch d (pre ++ (e.encode ++ post)) se e.id e.value.length
          (pre.length + 2) 0 unknown elems log).log := by
  rw [parse_elems_from_elem, parse_elems_switch_left, if_neg h]
  obtain ⟨h1, h2, h3⟩ := parse_elems_switch_local d (pre ++ (e.encode ++ post))
    (pre ++ (e.encode ++ post)) se e.id e.value.length (pre.length + 2)
    (e.value.length + post.length) 0 unknown elems log (fun _ _ => rfl)
  rw [h1, h2, h3, Nat.add_sub_cancel_left, List.append_assoc]
  have : (pre ++ e.encode).length = pre.length + 2 + e.value.length := by
    simp [Elem.encode]; omega
  rw [this]

theorem parse_elems_from_mic_tail (d : ieee802_11_defs) (hd : d.eids.Nodup) (se : Int)
    (Mv T : List Nat) :
    ∀ (P : List Elem) (pre : List Nat) (unknown : Nat) (elems : ieee802_11_elems)
      (log : List Diag), (∀ x ∈ P, x.id ≠ d.WLAN_EID_MIC) →
      parse_elems_from d (pre ++ (encode P ++ ((Elem.mk d.WLAN_EID_MIC Mv).encode ++ T))) se
          (encode P ++ ((Elem.mk d.WLAN_EID_MIC Mv).encode ++ T)).length pre.length
          unknown elems log =
        parse_elems_from d (pre ++ (encode P ++ ((Elem.mk d.WLAN_EID_MIC Mv).encode ++ []))) se
          (encode P ++ ((Elem.mk d.WLAN_EID_MIC Mv).encode ++ [])).length pre.length
          unknown elems log ∧
      (parse_elems_from d (pre ++ (encode P ++ ((Elem.mk d.WLAN_EID_MIC Mv).encode ++ T))) se
          (encode P ++ ((Elem.mk d.WLAN_EID_MIC Mv).encode ++ T)).length pre.length
          unknown elems log).elems.ptr .mic = some (pre.length + (encode P).length + 2) ∧
      (parse_elems_from d (pre ++ (encode P ++ ((Elem.mk d.WLAN_EID_MIC Mv).encode ++ T))) se
          (encode P ++ ((Elem.mk d.WLAN_EID_MIC Mv).encode ++ T)).length pre.length
          unknown elems log).elems.len .mic = Mv.length
  | [], pre, unknown, elems, log, _ => by
    have hlab : switch_label d (Elem.mk d.WLAN_EID_MIC Mv).id = some .MIC :=
      switch_label_eid hd .MIC
    simp only [encode, List.nil_append]
    rw [parse_elems_from_elem_mic d se pre T _ unknown elems log hlab,
      parse_elems_from_elem_mic d se pre [] _ unknown elems log hlab]
    simp [ieee802_11_elems.assign]
  | e :: P, pre, unknown, elems, log, hP => by
    have hlab : switch_label d e.id ≠ some .MIC := fun h =>
      hP e (List.mem_cons_self _ _) (switch_label_some h).symm
    have ih := parse_elems_from_mic_tail d hd se Mv T P (pre ++ e.encode)
    simp only [encode, List.append_assoc] at ih ⊢
    rw [parse_elems_from_elem_next d se pre _ e unknown elems log hlab,
      parse_elems_from_elem_next d se pre _ e unknown elems log hlab]
    obtain ⟨h1, h2, h3⟩ := parse_elems_switch_local d
      (pre ++ (e.encode ++ (encode P ++ ((Elem.mk d.WLAN_EID_MIC Mv).encode ++ T))))
      (pre ++ (e.encode ++ (encode P ++ ((Elem.mk d.WLAN_EID_MIC Mv).encode ++ []))))
      se e.id e.value.length (pre.length + 2) 0 0 unknown elems log
      (fun i hi => by rw [rd_elem_value _ _ _ _ hi, rd_elem_value _ _ _ _ hi])
    rw [h1, h2, h3]
    generalize parse_elems_switch d
      (pre ++ (e.encode ++ (encode P ++ ((Elem.mk d.WLAN_EID_MIC Mv).encode ++ []))))
      se e.id e.value.length (pre.length + 2) 0 unknown elems log = s2
    simp only [List.append_assoc]
    have hlen : (pre ++ e.encode).length + (encode P).length + 2 =
        pre.length + (e.encode.length + (encode P).length) + 2 := by
      simp; omega
    have := ih s2.unknown s2.elems s2.log (fun x hx => hP x (List.mem_cons_of_mem _ hx))
    rw [hlen] at this
    simpa [List.length_append] using this

/-- C7: for every sequence `P` of well-formed elements without a
Message-Integrity element, every well-formed Message-Integrity element `M` and
every octet string `T`, `ieee802_11_parse_elems` on `P ++ M ++ T` returns the
verdict and the element set that it returns on `P ++ M`; the `mic` reference is
the Value of `M`, and every reference is a span inside `P ++ M`, so that none
points into `T`. -/
theorem parse_elems_mic_tail (d : ieee802_11_defs) (hd : d.Distinct) (P : List Elem)
    (hP : ∀ x ∈ P, x.id ≠ d.WLAN_EID_MIC) (Mv T : List Nat) (show_errors : Int) :
    (ieee802_11_parse_elems d (encode P ++ ((Elem.mk d.WLAN_EID_MIC Mv).encode ++ T))
        show_errors).res =
      (ieee802_11_parse_elems d (encode P ++ (Elem.mk d.WLAN_EID_MIC Mv).encode)
        show_errors).res ∧
    (ieee802_11_parse_elems d (encode P ++ ((Elem.mk d.WLAN_EID_MIC Mv).encode ++ T))
        show_errors).elems =
      (ieee802_11_parse_elems d (encode P ++ (Elem.mk d.WLAN_EID_MIC Mv).encode)
        show_errors).elems ∧
    (ieee802_11_parse_elems d (encode P ++ ((Elem.mk d.WLAN_EID_MIC Mv).encode ++ T))
        show_errors).elems.ptr Field.mic = some ((encode P).length + 2) ∧
    (ieee802_11_parse_elems d (encode P ++ ((Elem.mk d.WLAN_EID_MIC Mv).encode ++ T))
        show_errors).elems.len Field.mic = Mv.length ∧
    ((encode P ++ ((Elem.mk d.WLAN_EID_MIC Mv).encode ++ T)).drop
        ((encode P).length + 2)).take Mv.length = Mv ∧
    RefsInside (encode P ++ (Elem.mk d.WLAN_EID_MIC Mv).encode)
      (ieee802_11_parse_elems d (encode P ++ ((Elem.mk d.WLAN_EID_MIC Mv).encode ++ T))
        show_errors).elems := by
  have h := parse_elems_from_mic_tail d hd.1 show_errors Mv T P [] 0 ieee802_11_elems.zero []
    hP
  simp only [List.nil_append, List.length_nil, Nat.zero_add, List.append_nil] at h
  obtain ⟨h1, h2, h3⟩ := h
  rw [parse_elems_eq_from, parse_elems_eq_from, h1]
  refine ⟨rfl, rfl, ?_, ?_, ?_, ?_⟩
  · rw [← h1]; exact h2
  · rw [← h1]; exact h3
  · rw [List.drop_append_eq_append_drop, List.drop_eq_nil_of_le (by omega)]
    simp [Elem.encode]
  · exact parse_elems_from_refs d _ show_errors _ 0 0 _ _ (by omega) (RefsInside_zero _)

/-- C7 instantiated: an SSID element, a Message-Integrity element and a tail
that is itself a well-formed Supported Rates element. -/
theorem parse_elems_mic_tail_witness :
    sample_defs.Distinct ∧ (∀ x ∈ [Elem.mk 0 [65, 66]], x.id ≠ sample_defs.WLAN_EID_MIC) ∧
    (ieee802_11_parse_elems sample_defs
        (encode [Elem.mk 0 [65, 66]] ++
          ((Elem.mk sample_defs.WLAN_EID_MIC [7, 8]).encode ++ [1, 2, 2, 4]))
        0).elems.ptr Field.mic = some ((encode [Elem.mk 0 [65, 66]]).length + 2) ∧
    (ieee802_11_parse_elems sample_defs
        (encode [Elem.mk 0 [65, 66]] ++
          ((Elem.mk sample_defs.WLAN_EID_MIC [7, 8]).encode ++ [1, 2, 2, 4]))
        0).elems.ptr Field.supp_rates = none :=
  ⟨by decide, by decide,
    (parse_elems_mic_tail sample_defs (by decide) [Elem.mk 0 [65, 66]] (by decide) [7, 8]
      [1, 2, 2, 4] 0).2.2.1,
    by decide⟩

/-! ## C8: the diagnostics flag does not change the outcome -/

theorem vendor_specific_flag (d : ieee802_11_defs) (buf : List Nat) (pos elen : Nat)
    (e : ieee802_11_elems) (se se' : Int) :
    (ieee802_11_parse_vendor_specific d buf pos elen e se).ret =
      (ieee802_11_parse_vendor_specific d buf pos elen e se').ret ∧
    (ieee802_11_parse_vendor_specific d buf pos elen e se).elems =
      (ieee802_11_parse_vendor_specific d buf pos elen e se').elems := by
  unfold ieee802_11_parse_vendor_specific
  dsimp only
  generalize WPA_GET_BE24 buf pos = oui
  generalize rd buf (pos + 3) = t
  generalize rd buf (pos + 4) = st
  split_ifs <;> exact ⟨rfl, rfl⟩

theorem parse_elems_switch_flag (d : ieee802_11_defs) (buf : List Nat) (se se' : Int)
    (id elen pos left unknown : Nat) (elems : ieee802_11_elems) (log log' : List Diag) :
    (parse_elems_switch d buf se id elen pos left unknown elems log).left =
      (parse_elems_switch d buf se' id elen pos left unknown elems log').left ∧
    (parse_elems_switch d buf se id elen pos left unknown elems log).unknown =
      (parse_elems_switch d buf se' id elen pos left unknown elems log').unknown ∧
    (parse_elems_switch d buf se id elen pos left unknown elems log).elems =
      (parse_elems_switch d buf se' id elen pos left unknown elems log').elems := by
  unfold parse_elems_switch
  obtain ⟨hr, he⟩ := vendor_specific_flag d buf pos elen elems se se'
  rcases switch_label d id with _ | l
  · exact ⟨rfl, rfl, rfl⟩
  · cases l
    case VENDOR_SPECIFIC =>
      dsimp only
      rw [hr, he]
      exact ⟨rfl, rfl, rfl⟩
    all_goals
      first | exact ⟨rfl, rfl, rfl⟩ | (dsimp only; split_ifs <;> exact ⟨rfl, rfl, rfl⟩)

theorem parse_elems_from_flag (d : ieee802_11_defs) (buf : List Nat) (se se' : Int) :
    ∀ (left pos unknown : Nat) (elems : ieee802_11_elems) (log log' : List Diag),
      (parse_elems_from d buf se left pos unknown elems log).res =
        (parse_elems_from d buf se' left pos unknown elems log').res ∧
      (parse_elems_from d buf se left pos unknown elems log).elems =
        (parse_elems_from d buf se' left pos unknown elems log').elems := by
  intro left
  induction left using Nat.strong_induction_on with
  | _ left ih =>
    intro pos unknown elems log log'
    rw [parse_elems_from_eq, parse_elems_from_eq d buf se']
    by_cases hl : 2 ≤ left
    · rw [if_pos hl, if_pos hl]
      by_cases he : rd buf (pos + 1) > left - 2
      · rw [if_pos he, if_pos he]
        exact ⟨rfl, rfl⟩
      · rw [if_neg he, if_neg he]
        obtain ⟨h1, h2, h3⟩ := parse_elems_switch_flag d buf se se' (rd buf pos)
          (rd buf (pos + 1)) (pos + 2) (left - 2) unknown elems log log'
        have hle := parse_elems_switch_left_le d buf se (rd buf pos) (rd buf (pos + 1))
          (pos + 2) (left - 2) unknown elems log
        rw [← h1, ← h2, ← h3]
        exact ih _ (by omega) _ _ _ _ _
    · rw [if_neg hl, if_neg hl]
      unfold parse_elems_exit
      split_ifs <;> exact ⟨rfl, rfl⟩

/-- C8: for every buffer, `ieee802_11_parse_elems` returns the same verdict and
the same element set for any two values of `show_errors`, and
`ieee802_11_parse_vendor_specific` returns the same result and leaves the same
element set for any two values of the flag. -/
theorem parse_elems_flag_irrelevant (d : ieee802_11_defs) (buf : List Nat)
    (show_errors show_errors' : Int) :
    (ieee802_11_parse_elems d buf show_errors).res =
      (ieee802_11_parse_elems d buf show_errors').res ∧
    (ieee802_11_parse_elems d buf show_errors).elems =
      (ieee802_11_parse_elems d buf show_errors').elems ∧
    (∀ (pos elen : Nat) (elems : ieee802_11_elems),
      (ieee802_11_parse_vendor_specific d buf pos elen elems show_errors).ret =
        (ieee802_11_parse_vendor_specific d buf pos elen elems show_errors').ret ∧
      (ieee802_11_parse_vendor_specific d buf pos elen elems show_errors).elems =
        (ieee802_11_parse_vendor_specific d buf pos elen elems show_errors').elems) :=
  ⟨(parse_elems_from_flag d buf show_errors show_errors' _ _ _ _ _ _).1,
    (parse_elems_from_flag d buf show_errors show_errors' _ _ _ _ _ _).2,
    fun pos elen elems => vendor_specific_flag d buf pos elen elems show_errors show_errors'⟩

/-- What the flag does change is the log: on an unknown element ID the
diagnostic is emitted only when `show_errors` is non-zero. -/
theorem parse_elems_flag_changes_log :
    (ieee802_11_parse_elems sample_defs [250, 0] 0).log = [] ∧
    (ieee802_11_parse_elems sample_defs [250, 0] 1).log = [Diag.unknown_element 250 0] := by
  decide

/-! ## C9, C10: channel to frequency -/

theorem country_match_loop_iff (c : List Char) :
    ∀ (cc : List (List Char)), TwoLetter cc →
      (country_match_loop c cc ≠ 0 ↔ cc.any (fun entry => c.take 2 = entry) = true)
  | [], _ => by simp [country_match_loop]
  | e :: cc, h => by
    have ih := country_match_loop_iff c cc (fun x hx => h x (List.mem_cons_of_mem _ hx))
    obtain ⟨hlen, ha, hb⟩ := h e (List.mem_cons_self _ _)
    obtain ⟨a, b, rfl⟩ : ∃ a b, e = [a, b] := by
      rcases e with _ | ⟨a, _ | ⟨b, _ | ⟨_, _⟩⟩⟩ <;> simp at hlen
      exact ⟨a, b, rfl⟩
    have ha' : a ≠ Char.ofNat 0 := ha
    have hb' : b ≠ Char.ofNat 0 := hb
    have key : (cstr_at [a, b] 0 = cstr_at c 0 ∧ cstr_at [a, b] 1 = cstr_at c 1) ↔
        c.take 2 = [a, b] := by
      unfold cstr_at
      rcases c with _ | ⟨x, _ | ⟨y, r⟩⟩
      · simp; intro h; exact absurd h ha'
      · simp; intro _ h; exact absurd h hb'
      · simp; constructor
        · rintro ⟨h1, h2⟩; exact ⟨h1.symm, h2.symm⟩
        · rintro ⟨h1, h2⟩; exact ⟨h1.symm, h2.symm⟩
    unfold country_match_loop
    by_cases hk : c.take 2 = [a, b]
    · rw [if_pos (key.2 hk)]
      simp [hk]
    · rw [if_neg (fun h => hk (key.1 h))]
      rw [ih]
      simp [hk]

theorem country_match_iff (cc : List (List Char)) (h : TwoLetter cc)
    (country : Option (List Char)) :
    country_match cc country ≠ 0 ↔ domain_eligible cc country = true := by
  cases country with
  | none => simp [country_match, domain_eligible]
  | some c => exact country_match_loop_iff c cc h

theorem us_two_letter : TwoLetter us_op_class_cc := by decide
theorem eu_two_letter : TwoLetter eu_op_class_cc := by decide
theorem jp_two_letter : TwoLetter jp_op_class_cc := by decide
theorem cn_two_letter : TwoLetter cn_op_class_cc := by decide

theorem first_positive_cons (country : Option (List Char)) (op_class chan : Nat)
    (t : List (List Char) × (Nat → Nat → Int))
    (ts : List (List (List Char) × (Nat → Nat → Int))) (g : Int) :
    ((((t :: ts).filter (fun t => domain_eligible t.1 country)).map
        (fun t => t.2 op_class chan)).find? (fun f => decide (f > 0))).getD g =
    if domain_eligible t.1 country = true ∧ t.2 op_class chan > 0 then t.2 op_class chan
    else
      (((ts.filter (fun t => domain_eligible t.1 country)).map
          (fun t => t.2 op_class chan)).find? (fun f => decide (f > 0))).getD g := by
  by_cases he : domain_eligible t.1 country = true
  · by_cases hf : t.2 op_class chan > 0
    · simp [List.filter, List.find?, he, hf]
    · simp [List.filter, List.find?, he, hf]
  · simp [List.filter, he]

theorem chan_to_freq_eq_reference (country : Option (List Char)) (op_class chan : Nat) :
    ieee80211_chan_to_freq country op_class chan =
      chan_to_freq_reference country op_class chan := by
  unfold ieee80211_chan_to_freq chan_to_freq_reference
  simp only [country_match_iff _ us_two_letter, country_match_iff _ eu_two_letter,
    country_match_iff _ jp_two_letter, country_match_iff _ cn_two_letter]
  rw [first_positive_cons, first_positive_cons, first_positive_cons, first_positive_cons]
  simp only [List.filter_nil, List.map_nil, List.find?_nil, Option.getD_none]

/-- C9: `ieee80211_chan_to_freq` equals the reference definition for every
country (possibly absent), operating class and channel: the first positive
frequency of the eligible domain tables in the order US, EU, JP, CN, otherwise
the answer of the Global table.  An absent country gives the answer of the
Global table, and country "CA" tries the US table, then the CN table, then
the Global table. -/
theorem chan_to_freq_refines (country : Option (List Char)) (op_class chan : Nat) :
    ieee80211_chan_to_freq country op_class chan =
      chan_to_freq_reference country op_class chan ∧
    ieee80211_chan_to_freq none op_class chan = ieee80211_chan_to_freq_global op_class chan ∧
    ieee80211_chan_to_freq (some ['C', 'A']) op_class chan =
      (if ieee80211_chan_to_freq_us op_class chan > 0 then
        ieee80211_chan_to_freq_us op_class chan
      else if ieee80211_chan_to_freq_cn op_class chan > 0 then
        ieee80211_chan_to_freq_cn op_class chan
      else ieee80211_chan_to_freq_global op_class chan) := by
  refine ⟨chan_to_freq_eq_reference country op_class chan, ?_, ?_⟩
  · simp [ieee80211_chan_to_freq, country_match]
  · have h1 : country_match us_op_class_cc (some ['C', 'A']) = 1 := by decide
    have h2 : country_match eu_op_class_cc (some ['C', 'A']) = 0 := by decide
    have h3 : country_match jp_op_class_cc (some ['C', 'A']) = 0 := by decide
    have h4 : country_match cn_op_class_cc (some ['C', 'A']) = 1 := by decide
    simp [ieee80211_chan_to_freq, h1, h2, h3, h4]

/-- C10: with country "US" and operating class 12, `ieee80211_chan_to_freq`
returns `2407 + 5 * chan` for every channel 1..11 and -1 for every other
channel; channel 6 gives 2437 and channel 12 gives -1. -/
theorem chan_to_freq_us_class_12 (chan : Nat) :
    ieee80211_chan_to_freq (some ['U', 'S']) 12 chan =
      (if 1 ≤ chan ∧ chan ≤ 11 then 2407 + 5 * (chan : Int) else -1) ∧
    ieee80211_chan_to_freq (some ['U', 'S']) 12 6 = 2437 ∧
    ieee80211_chan_to_freq (some ['U', 'S']) 12 12 = -1 := by
  refine ⟨?_, by decide, by decide⟩
  have h1 : country_match us_op_class_cc (some ['U', 'S']) = 1 := by decide
  have h2 : country_match eu_op_class_cc (some ['U', 'S']) = 0 := by decide
  have h3 : country_match jp_op_class_cc (some ['U', 'S']) = 0 := by decide
  have h4 : country_match cn_op_class_cc (some ['U', 'S']) = 0 := by decide
  have hg : ieee80211_chan_to_freq_global 12 chan = -1 := by
    simp [ieee80211_chan_to_freq_global]
  have hu : ieee80211_chan_to_freq_us 12 chan =
      (if 1 ≤ chan ∧ chan ≤ 11 then 2407 + 5 * (chan : Int) else -1) := by
    unfold ieee80211_chan_to_freq_us
    simp only [true_or, if_true]
    split_ifs with ha hb hb <;> first | rfl | omega
  unfold ieee80211_chan_to_freq
  rw [h1, h2, h3, h4, hg, hu]
  split_ifs with ha hb <;> first | rfl | omega

/-! ## C4: a concatenation of recognised elements -/

theorem Eid.field_not_vendor {l : Eid} {m : Field} (h : l.field = some m) :
    m.vendor = false := by
  cases l <;> simp [Eid.field] at h <;> subst h <;> rfl

theorem Eid.field_inj {l l' : Eid} {m : Field} (h : l.field = some m) (h' : l'.field = some m) :
    l = l' := by
  cases l <;> simp [Eid.field] at h <;> subst h <;> cases l' <;> simp [Eid.field] at h' <;> rfl

theorem assign_other (e : ieee802_11_elems) {m m' : Field} (pos elen : Nat) (h : m ≠ m') :
    (e.assign m' pos elen).ptr m = e.ptr m ∧ (e.assign m' pos elen).len m = e.len m := by
  simp [ieee802_11_elems.assign, h]

theorem assignPtr_other (e : ieee802_11_elems) {m m' : Field} (pos : Nat) (h : m ≠ m') :
    (e.assignPtr m' pos).ptr m = e.ptr m ∧ (e.assignPtr m' pos).len m = e.len m := by
  simp [ieee802_11_elems.assignPtr, h]

theorem assign_vendor_other (e : ieee802_11_elems) {m m' : Field} (pos elen : Nat)
    (hm : m.vendor = false) (hm' : m'.vendor = true) :
    (e.assign m' pos elen).ptr m = e.ptr m ∧ (e.assign m' pos elen).len m = e.len m :=
  assign_other e pos elen (fun h => by rw [h, hm'] at hm; cases hm)

/-- The vendor dispatcher assigns vendor members only. -/
theorem vendor_specific_other (d : ieee802_11_defs) (buf : List Nat) (pos elen : Nat)
    (e : ieee802_11_elems) (se : Int) (m : Field) (hm : m.vendor = false) :
    (ieee802_11_parse_vendor_specific d buf pos elen e se).elems.ptr m = e.ptr m ∧
    (ieee802_11_parse_vendor_specific d buf pos elen e se).elems.len m = e.len m := by
  unfold ieee802_11_parse_vendor_specific
  dsimp only
  generalize WPA_GET_BE24 buf pos = oui
  generalize rd buf (pos + 3) = t
  generalize rd buf (pos + 4) = st
  split_ifs <;> first
    | exact ⟨rfl, rfl⟩
    | exact assign_vendor_other e pos elen hm rfl

/-- The case label records its element in its member when the Length meets
the requirement of the label. -/
theorem parse_elems_switch_hit (d : ieee802_11_defs) (buf : List Nat) (se : Int)
    (id elen pos left unknown : Nat) (elems : ieee802_11_elems) (log : List Diag)
    {l : Eid} {m : Field} (hl : switch_label d id = some l) (hm : l.field = some m)
    (hok : l.length_ok elen = true) :
    (parse_elems_switch d buf se id elen pos left unknown elems log).elems.ptr m = some pos ∧
    (m.lengthless = false →
      (parse_elems_switch d buf se id elen pos left unknown elems log).elems.len m = elen) := by
  unfold parse_elems_switch
  rw [hl]
  cases l <;> simp [Eid.field] at hm <;> subst hm <;>
    simp [Eid.length_ok] at hok <;>
    first
      | (simp [ieee802_11_elems.assign, ieee802_11_elems.assignPtr, Field.lengthless, hok]
         done)
      | (dsimp only
         rw [if_neg (by omega)]
         simp [ieee802_11_elems.assign, ieee802_11_elems.assignPtr, Field.lengthless])

/-- A pass through the switch leaves alone every non-vendor member other than
the one of the case label taken. -/
theorem parse_elems_switch_miss (d : ieee802_11_defs) (buf : List Nat) (se : Int)
    (id elen pos left unknown : Nat) (elems : ieee802_11_elems) (log : List Diag)
    {m : Field} (hl : ∀ l, switch_label d id = some l → l.field ≠ some m)
    (hv : m.vendor = false) :
    (parse_elems_switch d buf se id elen pos left unknown elems log).elems.ptr m =
      elems.ptr m ∧
    (parse_elems_switch d buf se id elen pos left unknown elems log).elems.len m =
      elems.len m := by
  unfold parse_elems_switch
  rcases hlab : switch_label d id with _ | l
  · exact ⟨rfl, rfl⟩
  · have hne : l.field ≠ some m := hl l hlab
    cases l
    case VENDOR_SPECIFIC => exact vendor_specific_other d buf pos elen elems se m hv
    all_goals
      first
        | exact ⟨rfl, rfl⟩
        | exact assign_other elems pos elen (fun h => hne (by rw [h]; rfl))
        | (dsimp only
           split_ifs
           · exact ⟨rfl, rfl⟩
           · first
              | exact assign_other elems pos elen (fun h => hne (by rw [h]; rfl))
              | exact assignPtr_other elems pos (fun h => hne (by rw [h]; rfl)))

/-- A recognised element that is not a rejected vendor-specific element does
not raise the counter of unknown elements. -/
theorem parse_elems_switch_known (d : ieee802_11_defs) (buf : List Nat) (se : Int)
    (id elen pos left unknown : Nat) (elems : ieee802_11_elems) (log : List Diag)
    (hid : id ∈ d.eids)
    (hv : id = d.WLAN_EID_VENDOR_SPECIFIC →
      (ieee802_11_parse_vendor_specific d buf pos elen elems se).ret = 0) :
    (parse_elems_switch d buf se id elen pos left unknown elems log).unknown = unknown := by
  unfold parse_elems_switch
  rcases hlab : switch_label d id with _ | l
  · exact absurd hid (switch_label_none.1 hlab)
  · cases l
    case VENDOR_SPECIFIC =>
      dsimp only
      rw [hv (switch_label_some hlab).symm]
      simp
    all_goals first | rfl | (dsimp only; split_ifs <;> rfl)

/-- The return value of the vendor dispatcher depends only on the `elen`
octets of the span, wherever the span lies. -/
theorem vendor_specific_ret_shift (d : ieee802_11_defs) (buf buf' : List Nat)
    (pos pos' elen : Nat) (e e' : ieee802_11_elems) (se se' : Int)
    (h : ∀ i, i < elen → rd buf (pos + i) = rd buf' (pos' + i)) :
    (ieee802_11_parse_vendor_specific d buf pos elen e se).ret =
      (ieee802_11_parse_vendor_specific d buf' pos' elen e' se').ret := by
  unfold ieee802_11_parse_vendor_specific
  by_cases h4 : elen < 4
  · rw [if_pos h4, if_pos h4]
  · rw [if_neg h4, if_neg h4]
    have e0 : rd buf pos = rd buf' pos' := h 0 (by omega)
    have e1 := h 1 (by omega)
    have e2 := h 2 (by omega)
    have e3 := h 3 (by omega)
    have hbe : WPA_GET_BE24 buf pos = WPA_GET_BE24 buf' pos' := by
      unfold WPA_GET_BE24; rw [e0, e1, e2]
    dsimp only
    rw [hbe, e3]
    generalize WPA_GET_BE24 buf' pos' = oui
    generalize rd buf' (pos' + 3) = t
    by_cases h5 : elen < 5
    · have h5' : ¬ elen > 4 := by omega
      simp only [h5, h5', if_true, false_and, if_false]
      split_ifs <;> rfl
    · rw [h 4 (by omega)]
      generalize rd buf' (pos' + 4) = st
      split_ifs <;> rfl

/-- The elements of a sequence are recognised, and its vendor-specific
elements are ones that the vendor dispatcher accepts. -/
theorem parse_elems_from_ok (d : ieee802_11_defs) (se : Int) :
    ∀ (es : List Elem) (pb : List Nat) (elems : ieee802_11_elems) (log : List Diag),
      (∀ x ∈ es, x.id ∈ d.eids) →
      (∀ x ∈ es, x.id = d.WLAN_EID_VENDOR_SPECIFIC →
        (ieee802_11_parse_vendor_specific d x.value 0 x.value.length ieee802_11_elems.zero
          0).ret = 0) →
      (parse_elems_from d (pb ++ encode es) se (encode es).length pb.length 0 elems log).res =
        ParseRes.ParseOK
  | [], pb, elems, log, _, _ => by
    simp only [encode, List.length_nil]
    rw [parse_elems_from_zero]
    rfl
  | e :: es, pb, elems, log, hrec, hven => by
    simp only [encode]
    by_cases hlab : switch_label d e.id = some .MIC
    · rw [parse_elems_from_elem_mic d se pb _ e 0 elems log hlab]
      rfl
    · rw [parse_elems_from_elem_next d se pb _ e 0 elems log hlab]
      rw [parse_elems_switch_known d _ se e.id e.value.length (pb.length + 2) 0 0 elems log
        (hrec e (List.mem_cons_self _ _))]
      · exact parse_elems_from_ok d se es (pb ++ e.encode) _ _
          (fun x hx => hrec x (List.mem_cons_of_mem _ hx))
          (fun x hx => hven x (List.mem_cons_of_mem _ hx))
      · intro hv
        rw [← hven e (List.mem_cons_self _ _) hv]
        apply vendor_specific_ret_shift
        intro i hi
        rw [rd_elem_value _ _ _ _ hi, Nat.zero_add]

/-- Elements whose ID is not the value of the label `l` leave the member of
`l` as it was. -/
theorem parse_elems_from_kept (d : ieee802_11_defs) (se : Int) (l : Eid) (m : Field)
    (hm : l.field = some m) :
    ∀ (es : List Elem) (pb : List Nat) (unknown : Nat) (elems : ieee802_11_elems)
      (log : List Diag), (∀ y ∈ es, y.id ≠ d.eid l) →
      (parse_elems_from d (pb ++ encode es) se (encode es).length pb.length unknown elems
        log).elems.ptr m = elems.ptr m ∧
      (parse_elems_from d (pb ++ encode es) se (encode es).length pb.length unknown elems
        log).elems.len m = elems.len m
  | [], pb, unknown, elems, log, _ => by
    simp only [encode, List.length_nil]
    rw [parse_elems_from_zero]
    exact ⟨rfl, rfl⟩
  | e :: es, pb, unknown, elems, log, hne => by
    simp only [encode]
    have hlne : ∀ l', switch_label d e.id = some l' → l'.field ≠ some m := by
      intro l' hl' hf
      have : l = l' := Eid.field_inj hm hf
      subst this
      exact hne e (List.mem_cons_self _ _) (switch_label_some hl').symm
    by_cases hlab : switch_label d e.id = some .MIC
    · rw [parse_elems_from_elem_mic d se pb _ e unknown elems log hlab]
      exact assign_other elems _ _ (fun h => hlne _ hlab (by rw [h]; rfl))
    · rw [parse_elems_from_elem_next d se pb _ e unknown elems log hlab]
      obtain ⟨h1, h2⟩ := parse_elems_from_kept d se l m hm es (pb ++ e.encode)
        (parse_elems_switch d (pb ++ (e.encode ++ encode es)) se e.id e.value.length
          (pb.length + 2) 0 unknown elems log).unknown
        (parse_elems_switch d (pb ++ (e.encode ++ encode es)) se e.id e.value.length
          (pb.length + 2) 0 unknown elems log).elems
        (parse_elems_switch d (pb ++ (e.encode ++ encode es)) se e.id e.value.length
          (pb.length + 2) 0 unknown elems log).log
        (fun y hy => hne y (List.mem_cons_of_mem _ hy))
      obtain ⟨h3, h4⟩ := parse_elems_switch_miss d (pb ++ (e.encode ++ encode es)) se e.id
        e.value.length (pb.length + 2) 0 unknown elems log hlne (Eid.field_not_vendor hm)
      exact ⟨h1.trans h3, h2.trans h4⟩

/-- The last element with the ID of the label `l` that no Message-Integrity
element precedes is the one that the member of `l` refers to. -/
theorem parse_elems_from_recorded (d : ieee802_11_defs) (hd : d.eids.Nodup) (se : Int)
    (l : Eid) (m : Field) (hm : l.field = some m) (x : Elem) (hx : x.id = d.eid l)
    (hok : l.length_ok x.value.length = true) (post : List Elem)
    (hpost : ∀ y ∈ post, y.id ≠ x.id) :
    ∀ (pre : List Elem) (pb : List Nat) (unknown : Nat) (elems : ieee802_11_elems)
      (log : List Diag), (∀ y ∈ pre, y.id ≠ d.WLAN_EID_MIC) →
      (parse_elems_from d (pb ++ encode (pre ++ x :: post)) se
        (encode (pre ++ x :: post)).length pb.length unknown elems log).elems.ptr m =
          some (pb.length + (encode pre).length + 2) ∧
      (m.lengthless = false →
        (parse_elems_from d (pb ++ encode (pre ++ x :: post)) se
          (encode (pre ++ x :: post)).length pb.length unknown elems log).elems.len m =
            x.value.length)
  | [], pb, unknown, elems, log, _ => by
    have hlx : switch_label d x.id = some l := (switch_label_eq_iff hd _ _).2 hx
    simp only [List.nil_append, encode, List.length_nil, Nat.add_zero]
    by_cases hlab : switch_label d x.id = some .MIC
    · rw [parse_elems_from_elem_mic d se pb _ x unknown elems log hlab]
      have hl : l = .MIC := Option.some.inj (hlx.symm.trans hlab)
      subst hl
      cases hm
      simp [ieee802_11_elems.assign]
    · rw [parse_elems_from_elem_next d se pb _ x unknown elems log hlab]
      obtain ⟨h1, h2⟩ := parse_elems_from_kept d se l m hm post (pb ++ x.encode)
        (parse_elems_switch d (pb ++ (x.encode ++ encode post)) se x.id x.value.length
          (pb.length + 2) 0 unknown elems log).unknown
        (parse_elems_switch d (pb ++ (x.encode ++ encode post)) se x.id x.value.length
          (pb.length + 2) 0 unknown elems log).elems
        (parse_elems_switch d (pb ++ (x.encode ++ encode post)) se x.id x.value.length
          (pb.length + 2) 0 unknown elems log).log
        (fun y hy => hx ▸ hpost y hy)
      obtain ⟨h3, h4⟩ := parse_elems_switch_hit d (pb ++ (x.encode ++ encode post)) se x.id
        x.value.length (pb.length + 2) 0 unknown elems log hlx hm hok
      exact ⟨h1.trans h3, fun hless => h2.trans (h4 hless)⟩
  | e :: pre, pb, unknown, elems, log, hpre => by
    have hlab : switch_label d e.id ≠ some .MIC := fun h =>
      hpre e (List.mem_cons_self _ _) (switch_label_some h).symm
    simp only [List.cons_append, encode]
    rw [parse_elems_from_elem_next d se pb _ e unknown elems log hlab]
    have ih := parse_elems_from_recorded d hd se l m hm x hx hok post hpost pre
      (pb ++ e.encode)
      (parse_elems_switch d (pb ++ (e.encode ++ encode (pre ++ x :: post))) se e.id
        e.value.length (pb.length + 2) 0 unknown elems log).unknown
      (parse_elems_switch d (pb ++ (e.encode ++ encode (pre ++ x :: post))) se e.id
        e.value.length (pb.length + 2) 0 unknown elems log).elems
      (parse_elems_switch d (pb ++ (e.encode ++ encode (pre ++ x :: post))) se e.id
        e.value.length (pb.length + 2) 0 unknown elems log).log
      (fun y hy => hpre y (List.mem_cons_of_mem _ hy))
    have hlen : (pb ++ e.encode).length + (encode pre).length + 2 =
        pb.length + (e.encode ++ encode pre).length + 2 := by
      simp; omega
    rw [hlen] at ih
    exact ih

/-! ## C11, C12: the BSSID of a frame header -/

theorem and_two_pow_cases (x i : Nat) : x &&& 2 ^ i = 0 ∨ x &&& 2 ^ i = 2 ^ i := by
  by_cases h : x.testBit i
  · right
    apply Nat.eq_of_testBit_eq
    intro n
    rw [Nat.testBit_and, Nat.testBit_two_pow]
    by_cases hn : i = n
    · subst hn; simp [h]
    · simp [hn]
  · left
    apply Nat.eq_of_testBit_eq
    intro n
    rw [Nat.testBit_and, Nat.testBit_two_pow]
    by_cases hn : i = n
    · subst hn; simp [h]
    · simp [hn]

theorem two_pow_or_ne_left {i j : Nat} (hij : i ≠ j) : 2 ^ j ||| 2 ^ i ≠ 2 ^ i := by
  intro h
  have := congrArg (fun n => Nat.testBit n j) h
  simp [Nat.testBit_two_pow, hij] at this

theorem two_pow_or_ne_right {i j : Nat} (hij : i ≠ j) : 2 ^ j ||| 2 ^ i ≠ 2 ^ j := by
  intro h
  have := congrArg (fun n => Nat.testBit n i) h
  simp [Nat.testBit_two_pow, hij, Ne.symm hij] at this

theorem two_pow_ne {i j : Nat} (hij : i ≠ j) : (2 : Nat) ^ i ≠ 2 ^ j := by
  intro h
  exact hij (Nat.pow_right_injective (le_refl 2) h)

/-- The inner `switch` of `get_hdr_bssid` read as a test of the two DS bits. -/
theorem ds_switch (T F i j x : Nat) (hT : T = 2 ^ i) (hF : F = 2 ^ j) (hij : i ≠ j) :
    ((x &&& (F ||| T) = (F ||| T) ∨ x &&& (F ||| T) = T) ↔ x &&& T ≠ 0) ∧
    (x &&& T = 0 → (x &&& (F ||| T) = F ↔ x &&& F ≠ 0)) := by
  subst hT hF
  have hpi : (2 : Nat) ^ i ≠ 0 := by positivity
  have hpj : (2 : Nat) ^ j ≠ 0 := by positivity
  have hne1 := two_pow_or_ne_left hij
  have hne2 := two_pow_or_ne_right hij
  have hne3 := two_pow_ne hij
  have hor0 : (2 : Nat) ^ j ||| 2 ^ i ≠ 0 := by
    intro h
    have := congrArg (fun n => Nat.testBit n i) h
    simp [Nat.testBit_two_pow] at this
  rw [Nat.and_or_distrib_left]
  rcases and_two_pow_cases x i with hi | hi <;> rcases and_two_pow_cases x j with hj | hj <;>
    rw [hi, hj] <;> simp [hpi, hpj, hne1, hne2, hne3, hor0, Ne.symm hne3, Ne.symm hne1,
      Ne.symm hne2, Ne.symm hor0, Ne.symm hpi, Ne.symm hpj]

/-- C11: `get_hdr_bssid` returns `NULL` for every header with `len < 16`,
whatever its octets are, and for every header with `len >= 16` whose
frame-control type is management it returns the third address field (header
bytes 16..21), whatever the sub-type and the To-DS/From-DS bits are. -/
theorem get_hdr_bssid_short_or_mgmt (k : ieee802_11_fc_defs) (hk : k.Distinct)
    (hdr : List Nat) (len : Nat) :
    (len < 16 → get_hdr_bssid k hdr len = none) ∧
    (16 ≤ len → k.WLAN_FC_GET_TYPE (hdr_frame_control hdr) = k.WLAN_FC_TYPE_MGMT →
      get_hdr_bssid k hdr len = some 16) := by
  have hd := hk.1
  simp only [List.nodup_cons, List.mem_cons, List.mem_singleton, not_or, List.not_mem_nil,
    not_false_eq_true, List.nodup_nil, and_true] at hd
  refine ⟨fun h => by simp [get_hdr_bssid, h], fun h hm => ?_⟩
  unfold get_hdr_bssid
  rw [if_neg (by omega)]
  dsimp only
  rw [hm, if_neg (fun h => hd.1.2 h.symm), if_neg (fun h => hd.2 h.symm), if_pos rfl]
  rfl

/-- C11 instantiated: a beacon header (frame control `80 00`) of 24 octets, and
the same octets with a declared length of 15. -/
theorem get_hdr_bssid_short_or_mgmt_witness :
    sample_fc_defs.Distinct ∧ (15 : Nat) < 16 ∧ get_hdr_bssid sample_fc_defs [0x80, 0x00] 15 = none ∧
    (16 : Nat) ≤ 24 ∧
    sample_fc_defs.WLAN_FC_GET_TYPE (hdr_frame_control [0x80, 0x00]) =
      sample_fc_defs.WLAN_FC_TYPE_MGMT ∧
    get_hdr_bssid sample_fc_defs [0x80, 0x00] 24 = some 16 :=
  ⟨by decide, by decide,
    (get_hdr_bssid_short_or_mgmt sample_fc_defs (by decide) [0x80, 0x00] 15).1 (by decide),
    by decide, by decide,
    (get_hdr_bssid_short_or_mgmt sample_fc_defs (by decide) [0x80, 0x00] 24).2 (by decide)
      (by decide)⟩

/-- C12: for every header with `len >= 16` whose frame-control type is not
management, `get_hdr_bssid` follows the table: data frame with `len < 24`,
indeterminate; data frame with `len >= 24`, the first address field when To-DS
is set, the second when only From-DS is set, indeterminate when neither is set;
control frame, the first address field for PS-Poll and indeterminate for every
other sub-type; any other type, indeterminate. -/
theorem get_hdr_bssid_table (k : ieee802_11_fc_defs) (i j : Nat)
    (hT : k.WLAN_FC_TODS = 2 ^ i) (hF : k.WLAN_FC_FROMDS = 2 ^ j) (hij : i ≠ j)
    (hdr : List Nat) (len : Nat) (hlen : 16 ≤ len)
    (hty : k.WLAN_FC_GET_TYPE (hdr_frame_control hdr) ≠ k.WLAN_FC_TYPE_MGMT) :
    get_hdr_bssid k hdr len =
      (if k.WLAN_FC_GET_TYPE (hdr_frame_control hdr) = k.WLAN_FC_TYPE_DATA then
        if len < 24 then none
        else if hdr_frame_control hdr &&& k.WLAN_FC_TODS ≠ 0 then some 4
        else if hdr_frame_control hdr &&& k.WLAN_FC_FROMDS ≠ 0 then some 10
        else none
      else if k.WLAN_FC_GET_TYPE (hdr_frame_control hdr) = k.WLAN_FC_TYPE_CTRL then
        if k.WLAN_FC_GET_STYPE (hdr_frame_control hdr) = k.WLAN_FC_STYPE_PSPOLL then some 4
        else none
      else none) := by
  obtain ⟨h1, h2⟩ := ds_switch k.WLAN_FC_TODS k.WLAN_FC_FROMDS i j (hdr_frame_control hdr)
    hT hF hij
  unfold get_hdr_bssid
  rw [if_neg (by omega)]
  dsimp only
  by_cases hd : k.WLAN_FC_GET_TYPE (hdr_frame_control hdr) = k.WLAN_FC_TYPE_DATA
  · rw [if_pos hd, if_pos hd]
    by_cases h24 : len < 24
    · rw [if_pos h24, if_pos h24]
    · rw [if_neg h24, if_neg h24]
      by_cases ht : hdr_frame_control hdr &&& k.WLAN_FC_TODS ≠ 0
      · rw [if_pos (h1.2 ht), if_pos ht]; rfl
      · rw [if_neg (fun h => ht (h1.1 h)), if_neg ht]
        have ht0 : hdr_frame_control hdr &&& k.WLAN_FC_TODS = 0 := by
          by_contra h; exact ht h
        by_cases hf : hdr_frame_control hdr &&& k.WLAN_FC_FROMDS ≠ 0
        · rw [if_pos ((h2 ht0).2 hf), if_pos hf]; rfl
        · rw [if_neg (fun h => hf ((h2 ht0).1 h)), if_neg hf]
  · rw [if_neg hd, if_neg hd]
    by_cases hc : k.WLAN_FC_GET_TYPE (hdr_frame_control hdr) = k.WLAN_FC_TYPE_CTRL
    · rw [if_pos hc, if_pos hc]
      by_cases hs : k.WLAN_FC_GET_STYPE (hdr_frame_control hdr) = k.WLAN_FC_STYPE_PSPOLL
      · rw [if_neg (fun h => h hs), if_pos hs]; rfl
      · rw [if_pos hs, if_neg hs]
    · rw [if_neg hc, if_neg hc, if_neg hty]

/-- C12 instantiated: a data frame of 24 octets with only From-DS set (frame
control `08 02`) gives the second address field. -/
theorem get_hdr_bssid_table_witness :
    sample_fc_defs.WLAN_FC_TODS = 2 ^ 8 ∧
    sample_fc_defs.WLAN_FC_FROMDS = 2 ^ 9 ∧ (8 : Nat) ≠ 9 ∧ (16 : Nat) ≤ 24 ∧
    sample_fc_defs.WLAN_FC_GET_TYPE (hdr_frame_control [0x08, 0x02]) ≠
      sample_fc_defs.WLAN_FC_TYPE_MGMT ∧
    get_hdr_bssid sample_fc_defs [0x08, 0x02] 24 = some 10 :=
  ⟨by decide, by decide, by decide, by decide, by decide,
    (get_hdr_bssid_table sample_fc_defs 8 9 (by decide) (by decide) (by decide)
      [0x08, 0x02] 24 (by decide) (by decide)).trans (by decide)⟩

/-! ## C13: 802.11b-only rate sets -/

theorem rates_fold (f : Nat → Nat) :
    ∀ (l : List Nat) (a : Nat × Nat),
      l.foldl (fun a i => if is_11b (f i) then (a.1 + 1, a.2) else (a.1, a.2 + 1)) a =
        (a.1 + (l.map f).countP (fun r => is_11b r),
          a.2 + (l.map f).countP (fun r => !is_11b r))
  | [], a => by simp
  | i :: l, a => by
    rw [List.foldl_cons, rates_fold f l]
    by_cases h : is_11b (f i) = true
    · simp [h, List.countP_cons]; omega
    · simp [h, List.countP_cons]; omega

theorem rates_loop_eq (buf : List Nat) (p : Option Nat) (len : Nat) (a : Nat × Nat) :
    rates_loop buf p len a =
      (a.1 + (rate_list buf p len).countP (fun r => is_11b r),
        a.2 + (rate_list buf p len).countP (fun r => !is_11b r)) := by
  cases p with
  | none => simp [rates_loop, rate_list]
  | some o => exact rates_fold (fun i => rd buf (o + i)) (List.range len) a

theorem supp_rates_11b_only_eq (buf : List Nat) (elems : ieee802_11_elems) :
    supp_rates_11b_only buf elems =
      if elems.ptr Field.supp_rates = none ∧ elems.ptr Field.ext_supp_rates = none then 0
      else if
          (rate_list buf (elems.ptr Field.supp_rates) (elems.len Field.supp_rates) ++
            rate_list buf (elems.ptr Field.ext_supp_rates)
              (elems.len Field.ext_supp_rates)).countP (fun r => is_11b r) > 0 ∧
          (rate_list buf (elems.ptr Field.supp_rates) (elems.len Field.supp_rates) ++
            rate_list buf (elems.ptr Field.ext_supp_rates)
              (elems.len Field.ext_supp_rates)).countP (fun r => !is_11b r) = 0 then 1
      else 0 := by
  unfold supp_rates_11b_only
  simp only [rates_loop_eq, List.countP_append, Nat.zero_add]

/-- C13: `supp_rates_11b_only` returns true if and only if at least one of the
two rate references is present, the two lists together hold at least one rate
octet, and every rate octet of both lists is one of 0x02, 0x04, 0x0b, 0x16.  It
returns false when both references are absent, and false when an octet outside
that set is in either list. -/
theorem supp_rates_11b_only_iff (buf : List Nat) (elems : ieee802_11_elems) :
    (supp_rates_11b_only buf elems ≠ 0 ↔
      (elems.ptr Field.supp_rates ≠ none ∨ elems.ptr Field.ext_supp_rates ≠ none) ∧
      (rate_list buf (elems.ptr Field.supp_rates) (elems.len Field.supp_rates) ++
        rate_list buf (elems.ptr Field.ext_supp_rates) (elems.len Field.ext_supp_rates)) ≠ [] ∧
      ∀ r ∈ rate_list buf (elems.ptr Field.supp_rates) (elems.len Field.supp_rates) ++
          rate_list buf (elems.ptr Field.ext_supp_rates) (elems.len Field.ext_supp_rates),
        r = 0x02 ∨ r = 0x04 ∨ r = 0x0b ∨ r = 0x16) ∧
    (elems.ptr Field.supp_rates = none ∧ elems.ptr Field.ext_supp_rates = none →
      supp_rates_11b_only buf elems = 0) ∧
    ((∃ r ∈ rate_list buf (elems.ptr Field.supp_rates) (elems.len Field.supp_rates) ++
          rate_list buf (elems.ptr Field.ext_supp_rates) (elems.len Field.ext_supp_rates),
        ¬ (r = 0x02 ∨ r = 0x04 ∨ r = 0x0b ∨ r = 0x16)) →
      supp_rates_11b_only buf elems = 0) := by
  have key := supp_rates_11b_only_eq buf elems
  have hall : ∀ L : List Nat, (L.countP (fun r => !is_11b r) = 0 ↔
      ∀ r ∈ L, r = 0x02 ∨ r = 0x04 ∨ r = 0x0b ∨ r = 0x16) := by
    intro L
    rw [List.countP_eq_zero]
    simp only [is_11b, Bool.not_eq_true', decide_eq_false_iff_not, not_not, Bool.not_eq_eq_eq_not,
      Bool.not_true, Bool.decide_or, Bool.or_eq_true, decide_eq_true_eq, Bool.or_eq_false_iff,
      not_and]
    constructor
    · intro h r hr
      have := h r hr
      by_contra hc
      simp only [not_or] at hc
      exact hc.2.2.2 (this hc.1 hc.2.1 hc.2.2.1)
    · intro h r hr h1 h2 h3
      rcases h r hr with h' | h' | h' | h'
      · exact absurd h' h1
      · exact absurd h' h2
      · exact absurd h' h3
      · exact h'
  generalize rate_list buf (elems.ptr Field.supp_rates) (elems.len Field.supp_rates) ++
    rate_list buf (elems.ptr Field.ext_supp_rates) (elems.len Field.ext_supp_rates) = L
    at key ⊢
  by_cases hn : elems.ptr Field.supp_rates = none ∧ elems.ptr Field.ext_supp_rates = none
  · rw [if_pos hn] at key
    refine ⟨?_, fun _ => key, fun _ => key⟩
    rw [key]
    simp [hn.1, hn.2]
  · rw [if_neg hn] at key
    have hpres : elems.ptr Field.supp_rates ≠ none ∨ elems.ptr Field.ext_supp_rates ≠ none := by
      by_contra h
      simp only [not_or, not_not] at h
      exact hn h
    refine ⟨?_, fun h => absurd h hn, ?_⟩
    · rw [key]
      constructor
      · intro h
        split_ifs at h with hc
        · refine ⟨hpres, ?_, (hall L).1 hc.2⟩
          intro hL
          rw [hL] at hc
          simp at hc
        · exact absurd rfl h
      · rintro ⟨_, hne, hr⟩
        have h2 := (hall L).2 hr
        have h1 : L.countP (fun r => is_11b r) > 0 := by
          rw [gt_iff_lt, List.countP_pos_iff]
          obtain ⟨r, hrL⟩ := List.exists_mem_of_ne_nil L hne
          refine ⟨r, hrL, ?_⟩
          have := hr r hrL
          simp [is_11b, this]
        rw [if_pos ⟨h1, h2⟩]
        decide
    · rintro ⟨r, hrL, hbad⟩
      rw [key, if_neg]
      rintro ⟨_, h2⟩
      exact hbad ((hall L).1 h2 r hrL)

/-- C13 instantiated: both references absent; a Supported Rates element with
the rates 0x02 and 0x16; the same with 0x0c in place of 0x16. -/
theorem supp_rates_11b_only_iff_witness :
    (ieee802_11_elems.zero.ptr Field.supp_rates = none ∧
      ieee802_11_elems.zero.ptr Field.ext_supp_rates = none) ∧
    supp_rates_11b_only [] ieee802_11_elems.zero = 0 ∧
    supp_rates_11b_only [1, 2, 0x02, 0x16]
      (ieee802_11_parse_elems sample_defs [1, 2, 0x02, 0x16] 0).elems = 1 ∧
    supp_rates_11b_only [1, 2, 0x02, 0x0c]
      (ieee802_11_parse_elems sample_defs [1, 2, 0x02, 0x0c] 0).elems = 0 :=
  ⟨by decide, (supp_rates_11b_only_iff [] ieee802_11_elems.zero).2.1 (by decide), by decide,
    by decide⟩

/-! ## C14, C15, C16: the vendor tables -/

theorem vendor_specific_microsoft (d : ieee802_11_defs) (buf : List Nat) (pos elen : Nat)
    (e : ieee802_11_elems) (se : Int) (h4 : 4 ≤ elen)
    (ho : WPA_GET_BE24 buf pos = d.OUI_MICROSOFT) :
    ieee802_11_parse_vendor_specific d buf pos elen e se =
      if rd buf (pos + 3) = 1 then ⟨0, e.assign .wpa_ie pos elen, []⟩
      else if rd buf (pos + 3) = d.WMM_OUI_TYPE then
        if elen < 5 then ⟨-1, e, [Diag.short_wmm elen]⟩
        else if rd buf (pos + 4) = d.WMM_OUI_SUBTYPE_INFORMATION_ELEMENT ∨
            rd buf (pos + 4) = d.WMM_OUI_SUBTYPE_PARAMETER_ELEMENT then
          ⟨0, e.assign .wmm pos elen, []⟩
        else if rd buf (pos + 4) = d.WMM_OUI_SUBTYPE_TSPEC_ELEMENT then
          ⟨0, e.assign .wmm_tspec pos elen, []⟩
        else ⟨-1, e, [Diag.unknown_wmm (rd buf (pos + 4)) elen]⟩
      else if rd buf (pos + 3) = 4 then ⟨0, e.assign .wps_ie pos elen, []⟩
      else ⟨-1, e, [Diag.unknown_microsoft (rd buf (pos + 3)) elen]⟩ := by
  unfold ieee802_11_parse_vendor_specific
  rw [if_neg (by omega)]
  dsimp only
  rw [if_pos ho]

/-- C14: for a vendor-specific Value span of at least 4 octets whose first
three octets are the Microsoft OUI: type octet 1 is recognised and sets
`wpa_ie`; type octet 4 is recognised and sets `wps_ie`; type octet
`WMM_OUI_TYPE` is unrecognised when the span is shorter than 5 octets, and
otherwise the fifth octet selects `wmm` for the information and the parameter
sub-type, `wmm_tspec` for the TSPEC sub-type, and is unrecognised for every
other sub-type; every other type octet is unrecognised. -/
theorem vendor_specific_microsoft_table (d : ieee802_11_defs) (hd : d.Distinct)
    (buf : List Nat) (pos elen : Nat) (e : ieee802_11_elems) (show_errors : Int)
    (h4 : 4 ≤ elen) (ho : WPA_GET_BE24 buf pos = d.OUI_MICROSOFT) :
    (rd buf (pos + 3) = 1 →
      (ieee802_11_parse_vendor_specific d buf pos elen e show_errors).ret = 0 ∧
      (ieee802_11_parse_vendor_specific d buf pos elen e show_errors).elems =
        e.assign Field.wpa_ie pos elen) ∧
    (rd buf (pos + 3) = 4 →
      (ieee802_11_parse_vendor_specific d buf pos elen e show_errors).ret = 0 ∧
      (ieee802_11_parse_vendor_specific d buf pos elen e show_errors).elems =
        e.assign Field.wps_ie pos elen) ∧
    (rd buf (pos + 3) = d.WMM_OUI_TYPE →
      (elen < 5 →
        (ieee802_11_parse_vendor_specific d buf pos elen e show_errors).ret = -1) ∧
      (5 ≤ elen →
        (rd buf (pos + 4) = d.WMM_OUI_SUBTYPE_INFORMATION_ELEMENT ∨
            rd buf (pos + 4) = d.WMM_OUI_SUBTYPE_PARAMETER_ELEMENT →
          (ieee802_11_parse_vendor_specific d buf pos elen e show_errors).ret = 0 ∧
          (ieee802_11_parse_vendor_specific d buf pos elen e show_errors).elems =
            e.assign Field.wmm pos elen) ∧
        (rd buf (pos + 4) = d.WMM_OUI_SUBTYPE_TSPEC_ELEMENT →
          (ieee802_11_parse_vendor_specific d buf pos elen e show_errors).ret = 0 ∧
          (ieee802_11_parse_vendor_specific d buf pos elen e show_errors).elems =
            e.assign Field.wmm_tspec pos elen) ∧
        (rd buf (pos + 4) ≠ d.WMM_OUI_SUBTYPE_INFORMATION_ELEMENT ∧
            rd buf (pos + 4) ≠ d.WMM_OUI_SUBTYPE_PARAMETER_ELEMENT ∧
            rd buf (pos + 4) ≠ d.WMM_OUI_SUBTYPE_TSPEC_ELEMENT →
          (ieee802_11_parse_vendor_specific d buf pos elen e show_errors).ret = -1))) ∧
    (rd buf (pos + 3) ≠ 1 ∧ rd buf (pos + 3) ≠ 4 ∧ rd buf (pos + 3) ≠ d.WMM_OUI_TYPE →
      (ieee802_11_parse_vendor_specific d buf pos elen e show_errors).ret = -1) := by
  have hty := hd.2.2.1
  have hst := hd.2.2.2.1
  simp only [List.nodup_cons, List.mem_cons, List.mem_singleton, not_or, List.not_mem_nil,
    not_false_eq_true, List.nodup_nil, and_true] at hty hst
  obtain ⟨⟨h1w, _⟩, hw4⟩ := hty
  obtain ⟨⟨_, hit⟩, hpt⟩ := hst
  rw [vendor_specific_microsoft d buf pos elen e show_errors h4 ho]
  refine ⟨fun h => ?_, fun h => ?_, fun h => ⟨fun h5 => ?_, fun h5 => ⟨fun hs => ?_, fun hs => ?_,
    fun hs => ?_⟩⟩, fun h => ?_⟩
  · rw [if_pos h]; exact ⟨rfl, rfl⟩
  · rw [if_neg (by omega), if_neg (fun hw => hw4 (hw.symm.trans h)), if_pos h]; exact ⟨rfl, rfl⟩
  · rw [if_neg (fun h1 => h1w (h1.symm.trans h)), if_pos h, if_pos h5]
  · rw [if_neg (fun h1 => h1w (h1.symm.trans h)), if_pos h, if_neg (by omega), if_pos hs]
    exact ⟨rfl, rfl⟩
  · rw [if_neg (fun h1 => h1w (h1.symm.trans h)), if_pos h, if_neg (by omega), if_neg, if_pos hs]
    · exact ⟨rfl, rfl⟩
    · rintro (hi | hp)
      · exact hit (hi.symm.trans hs)
      · exact hpt (hp.symm.trans hs)
  · rw [if_neg (fun h1 => h1w (h1.symm.trans h)), if_pos h, if_neg (by omega), if_neg,
      if_neg hs.2.2]
    rintro (hi | hp)
    · exact hs.1 hi
    · exact hs.2.1 hp
  · rw [if_neg h.1, if_neg h.2.2, if_neg h.2.1]

/-- C14 instantiated: the WPA element body `00 50 f2 01 01 00`. -/
theorem vendor_specific_microsoft_table_witness :
    sample_defs.Distinct ∧ 4 ≤ 6 ∧
    WPA_GET_BE24 [0, 0x50, 0xf2, 1, 1, 0] 0 = sample_defs.OUI_MICROSOFT ∧
    rd [0, 0x50, 0xf2, 1, 1, 0] (0 + 3) = 1 ∧
    (ieee802_11_parse_vendor_specific sample_defs [0, 0x50, 0xf2, 1, 1, 0] 0 6
      ieee802_11_elems.zero 0).ret = 0 ∧
    (ieee802_11_parse_vendor_specific sample_defs [0, 0x50, 0xf2, 1, 1, 0] 0 6
      ieee802_11_elems.zero 0).elems = ieee802_11_elems.zero.assign Field.wpa_ie 0 6 :=
  ⟨by decide, by decide, by decide, by decide,
    (vendor_specific_microsoft_table sample_defs (by decide) [0, 0x50, 0xf2, 1, 1, 0] 0 6
      ieee802_11_elems.zero 0 (by decide) (by decide)).1 (by decide)⟩

theorem vendor_specific_broadcom (d : ieee802_11_defs) (hd : d.Distinct) (buf : List Nat)
    (pos elen : Nat) (e : ieee802_11_elems) (se : Int) (h4 : 4 ≤ elen)
    (ho : WPA_GET_BE24 buf pos = d.OUI_BROADCOM) :
    ieee802_11_parse_vendor_specific d buf pos elen e se =
      if rd buf (pos + 3) = d.VENDOR_HT_CAPAB_OUI_TYPE then
        ⟨0, e.assign .vendor_ht_cap pos elen, []⟩
      else if rd buf (pos + 3) = d.VENDOR_VHT_TYPE then
        if elen > 4 ∧ (rd buf (pos + 4) = d.VENDOR_VHT_SUBTYPE ∨
            rd buf (pos + 4) = d.VENDOR_VHT_SUBTYPE2) then
          ⟨0, e.assign .vendor_vht pos elen, []⟩
        else ⟨-1, e, []⟩
      else ⟨-1, e, [Diag.unknown_broadcom (rd buf (pos + 3)) elen]⟩ := by
  have hou := hd.2.1
  simp only [List.nodup_cons, List.mem_cons, List.mem_singleton, not_or, List.not_mem_nil,
    not_false_eq_true, List.nodup_nil, and_true] at hou
  unfold ieee802_11_parse_vendor_specific
  rw [if_neg (by omega)]
  dsimp only
  rw [if_neg (fun h => hou.1.2 (h.symm.trans ho)), if_neg (fun h => hou.2 (h.symm.trans ho)),
    if_pos ho]

theorem vendor_specific_wfa (d : ieee802_11_defs) (hd : d.Distinct) (buf : List Nat)
    (pos elen : Nat) (e : ieee802_11_elems) (se : Int) (h4 : 4 ≤ elen)
    (ho : WPA_GET_BE24 buf pos = d.OUI_WFA) :
    ieee802_11_parse_vendor_specific d buf pos elen e se =
      if rd buf (pos + 3) = d.P2P_OUI_TYPE then ⟨0, e.assign .p2p pos elen, []⟩
      else if rd buf (pos + 3) = d.WFD_OUI_TYPE then ⟨0, e.assign .wfd pos elen, []⟩
      else if rd buf (pos + 3) = d.HS20_INDICATION_OUI_TYPE then
        ⟨0, e.assign .hs20 pos elen, []⟩
      else if rd buf (pos + 3) = d.HS20_OSEN_OUI_TYPE then ⟨0, e.assign .osen pos elen, []⟩
      else ⟨-1, e, [Diag.unknown_wfa (rd buf (pos + 3)) elen]⟩ := by
  have hou := hd.2.1
  simp only [List.nodup_cons, List.mem_cons, List.mem_singleton, not_or, List.not_mem_nil,
    not_false_eq_true, List.nodup_nil, and_true] at hou
  unfold ieee802_11_parse_vendor_specific
  rw [if_neg (by omega)]
  dsimp only
  rw [if_neg (fun h => hou.1.1 (h.symm.trans ho)), if_pos ho]

theorem vendor_specific_other_oui (d : ieee802_11_defs) (buf : List Nat)
    (pos elen : Nat) (e : ieee802_11_elems) (se : Int) (h4 : 4 ≤ elen)
    (h1 : WPA_GET_BE24 buf pos ≠ d.OUI_MICROSOFT) (h2 : WPA_GET_BE24 buf pos ≠ d.OUI_WFA)
    (h3 : WPA_GET_BE24 buf pos ≠ d.OUI_BROADCOM) :
    ieee802_11_parse_vendor_specific d buf pos elen e se =
      ⟨-1, e, [Diag.unknown_vendor (rd buf pos) (rd buf (pos + 1)) (rd buf (pos + 2)) elen]⟩ := by
  unfold ieee802_11_parse_vendor_specific
  rw [if_neg (by omega)]
  dsimp only
  rw [if_neg h1, if_neg h2, if_neg h3]

/-- C15: for a vendor-specific Value span of at least 4 octets whose first
three octets are the Broadcom OUI: the HT-capability type octet is recognised
and sets `vendor_ht_cap`, whatever the rest of the span is; the VHT type octet
is recognised and sets `vendor_vht` if and only if the span is longer than 4
octets and its fifth octet is `VENDOR_VHT_SUBTYPE` or `VENDOR_VHT_SUBTYPE2`,
and is unrecognised otherwise; every other type octet is unrecognised. -/
theorem vendor_specific_broadcom_table (d : ieee802_11_defs) (hd : d.Distinct)
    (buf : List Nat) (pos elen : Nat) (e : ieee802_11_elems) (show_errors : Int)
    (h4 : 4 ≤ elen) (ho : WPA_GET_BE24 buf pos = d.OUI_BROADCOM) :
    (rd buf (pos + 3) = d.VENDOR_HT_CAPAB_OUI_TYPE →
      (ieee802_11_parse_vendor_specific d buf pos elen e show_errors).ret = 0 ∧
      (ieee802_11_parse_vendor_specific d buf pos elen e show_errors).elems =
        e.assign Field.vendor_ht_cap pos elen) ∧
    (rd buf (pos + 3) = d.VENDOR_VHT_TYPE →
      ((ieee802_11_parse_vendor_specific d buf pos elen e show_errors).ret = 0 ↔
        (4 < elen ∧ (rd buf (pos + 4) = d.VENDOR_VHT_SUBTYPE ∨
          rd buf (pos + 4) = d.VENDOR_VHT_SUBTYPE2))) ∧
      ((4 < elen ∧ (rd buf (pos + 4) = d.VENDOR_VHT_SUBTYPE ∨
          rd buf (pos + 4) = d.VENDOR_VHT_SUBTYPE2)) →
        (ieee802_11_parse_vendor_specific d buf pos elen e show_errors).elems =
          e.assign Field.vendor_vht pos elen) ∧
      (¬ (4 < elen ∧ (rd buf (pos + 4) = d.VENDOR_VHT_SUBTYPE ∨
          rd buf (pos + 4) = d.VENDOR_VHT_SUBTYPE2)) →
        (ieee802_11_parse_vendor_specific d buf pos elen e show_errors).ret = -1 ∧
        (ieee802_11_parse_vendor_specific d buf pos elen e show_errors).elems = e)) ∧
    (rd buf (pos + 3) ≠ d.VENDOR_HT_CAPAB_OUI_TYPE ∧ rd buf (pos + 3) ≠ d.VENDOR_VHT_TYPE →
      (ieee802_11_parse_vendor_specific d buf pos elen e show_errors).ret = -1) := by
  have hty := hd.2.2.2.2.2
  simp only [List.nodup_cons, List.mem_cons, List.mem_singleton, not_or, List.not_mem_nil,
    not_false_eq_true, List.nodup_nil, and_true] at hty
  rw [vendor_specific_broadcom d hd buf pos elen e show_errors h4 ho]
  refine ⟨fun h => ?_, fun h => ?_, fun h => ?_⟩
  · rw [if_pos h]; exact ⟨rfl, rfl⟩
  · rw [if_neg (fun hh => hty (hh.symm.trans h)), if_pos h]
    by_cases hc : 4 < elen ∧ (rd buf (pos + 4) = d.VENDOR_VHT_SUBTYPE ∨
        rd buf (pos + 4) = d.VENDOR_VHT_SUBTYPE2)
    · rw [if_pos hc]
      exact ⟨⟨fun _ => hc, fun _ => rfl⟩, fun _ => rfl, fun hn => absurd hc hn⟩
    · rw [if_neg hc]
      refine ⟨⟨fun h0 => ?_, fun hh => absurd hh hc⟩, fun hh => absurd hh hc,
        fun _ => ⟨rfl, rfl⟩⟩
      have h1 : (-1 : Int) = 0 := h0
      exact absurd h1 (by decide)
  · rw [if_neg h.1, if_neg h.2]

/-- C15 instantiated: the Broadcom VHT body `00 90 4c 04 08` is accepted. -/
theorem vendor_specific_broadcom_table_witness :
    sample_defs.Distinct ∧ 4 ≤ 5 ∧
    WPA_GET_BE24 [0, 0x90, 0x4c, 4, 8] 0 = sample_defs.OUI_BROADCOM ∧
    rd [0, 0x90, 0x4c, 4, 8] (0 + 3) = sample_defs.VENDOR_VHT_TYPE ∧
    ((ieee802_11_parse_vendor_specific sample_defs [0, 0x90, 0x4c, 4, 8] 0 5
        ieee802_11_elems.zero 0).ret = 0 ↔
      (4 < 5 ∧ (rd [0, 0x90, 0x4c, 4, 8] (0 + 4) = sample_defs.VENDOR_VHT_SUBTYPE ∨
        rd [0, 0x90, 0x4c, 4, 8] (0 + 4) = sample_defs.VENDOR_VHT_SUBTYPE2))) :=
  ⟨by decide, by decide, by decide, by decide,
    ((vendor_specific_broadcom_table sample_defs (by decide) [0, 0x90, 0x4c, 4, 8] 0 5
      ieee802_11_elems.zero 0 (by decide) (by decide)).2.1 (by decide)).1⟩

/-- C16: for a vendor-specific Value span of at least 4 octets whose first
three octets are the Wi-Fi Alliance OUI, the type octet selects exactly one of
the `p2p`, `wfd`, `hs20` or `osen` references, which is set to the span and
reported recognised, and any other type octet is reported unrecognised; when
the OUI is none of Microsoft, Wi-Fi Alliance or Broadcom, the span is reported
unrecognised whatever follows the OUI. -/
theorem vendor_specific_wfa_table (d : ieee802_11_defs) (hd : d.Distinct)
    (buf : List Nat) (pos elen : Nat) (e : ieee802_11_elems) (show_errors : Int)
    (h4 : 4 ≤ elen) :
    (WPA_GET_BE24 buf pos = d.OUI_WFA →
      (rd buf (pos + 3) = d.P2P_OUI_TYPE →
        (ieee802_11_parse_vendor_specific d buf pos elen e show_errors).ret = 0 ∧
        (ieee802_11_parse_vendor_specific d buf pos elen e show_errors).elems =
          e.assign Field.p2p pos elen) ∧
      (rd buf (pos + 3) = d.WFD_OUI_TYPE →
        (ieee802_11_parse_vendor_specific d buf pos elen e show_errors).ret = 0 ∧
        (ieee802_11_parse_vendor_specific d buf pos elen e show_errors).elems =
          e.assign Field.wfd pos elen) ∧
      (rd buf (pos + 3) = d.HS20_INDICATION_OUI_TYPE →
        (ieee802_11_parse_vendor_specific d buf pos elen e show_errors).ret = 0 ∧
        (ieee802_11_parse_vendor_specific d buf pos elen e show_errors).elems =
          e.assign Field.hs20 pos elen) ∧
      (rd buf (pos + 3) = d.HS20_OSEN_OUI_TYPE →
        (ieee802_11_parse_vendor_specific d buf pos elen e show_errors).ret = 0 ∧
        (ieee802_11_parse_vendor_specific d buf pos elen e show_errors).elems =
          e.assign Field.osen pos elen) ∧
      (rd buf (pos + 3) ≠ d.P2P_OUI_TYPE ∧ rd buf (pos + 3) ≠ d.WFD_OUI_TYPE ∧
          rd buf (pos + 3) ≠ d.HS20_INDICATION_OUI_TYPE ∧
          rd buf (pos + 3) ≠ d.HS20_OSEN_OUI_TYPE →
        (ieee802_11_parse_vendor_specific d buf pos elen e show_errors).ret = -1 ∧
        (ieee802_11_parse_vendor_specific d buf pos elen e show_errors).elems = e)) ∧
    (WPA_GET_BE24 buf pos ≠ d.OUI_MICROSOFT ∧ WPA_GET_BE24 buf pos ≠ d.OUI_WFA ∧
        WPA_GET_BE24 buf pos ≠ d.OUI_BROADCOM →
      (ieee802_11_parse_vendor_specific d buf pos elen e show_errors).ret = -1 ∧
      (ieee802_11_parse_vendor_specific d buf pos elen e show_errors).elems = e) := by
  have hty := hd.2.2.2.2.1
  simp only [List.nodup_cons, List.mem_cons, List.mem_singleton, not_or, List.not_mem_nil,
    not_false_eq_true, List.nodup_nil, and_true] at hty
  obtain ⟨⟨hpw, hph, hpo⟩, ⟨hwh, hwo⟩, hho⟩ := hty
  refine ⟨fun ho => ?_, fun h => ?_⟩
  · rw [vendor_specific_wfa d hd buf pos elen e show_errors h4 ho]
    refine ⟨fun h => ?_, fun h => ?_, fun h => ?_, fun h => ?_, fun h => ?_⟩
    · rw [if_pos h]; exact ⟨rfl, rfl⟩
    · rw [if_neg (fun hh => hpw (hh.symm.trans h)), if_pos h]; exact ⟨rfl, rfl⟩
    · rw [if_neg (fun hh => hph (hh.symm.trans h)), if_neg (fun hh => hwh (hh.symm.trans h)),
        if_pos h]
      exact ⟨rfl, rfl⟩
    · rw [if_neg (fun hh => hpo (hh.symm.trans h)), if_neg (fun hh => hwo (hh.symm.trans h)),
        if_neg (fun hh => hho (hh.symm.trans h)), if_pos h]
      exact ⟨rfl, rfl⟩
    · rw [if_neg h.1, if_neg h.2.1, if_neg h.2.2.1, if_neg h.2.2.2]
      exact ⟨rfl, rfl⟩
  · rw [vendor_specific_other_oui d buf pos elen e show_errors h4 h.1 h.2.1 h.2.2]
    exact ⟨rfl, rfl⟩

/-- C16 instantiated: the P2P body `50 6f 9a 09` sets `p2p`. -/
theorem vendor_specific_wfa_table_witness :
    sample_defs.Distinct ∧ 4 ≤ 4 ∧
    WPA_GET_BE24 [0x50, 0x6f, 0x9a, 9] 0 = sample_defs.OUI_WFA ∧
    rd [0x50, 0x6f, 0x9a, 9] (0 + 3) = sample_defs.P2P_OUI_TYPE ∧
    (ieee802_11_parse_vendor_specific sample_defs [0x50, 0x6f, 0x9a, 9] 0 4
      ieee802_11_elems.zero 0).ret = 0 ∧
    (ieee802_11_parse_vendor_specific sample_defs [0x50, 0x6f, 0x9a, 9] 0 4
      ieee802_11_elems.zero 0).elems = ieee802_11_elems.zero.assign Field.p2p 0 4 :=
  ⟨by decide, by decide, by decide, by decide,
    ((vendor_specific_wfa_table sample_defs (by decide) [0x50, 0x6f, 0x9a, 9] 0 4
      ieee802_11_elems.zero 0 (by decide)).1 (by decide)).1 (by decide)⟩

/-! ## C19: counting elements -/

theorem rd_elem_id (pre post : List Nat) (e : Elem) :
    rd (pre ++ (e.encode ++ post)) pre.length = e.id := by
  have := rd_append_right pre (e.encode ++ post) 0
  rw [Nat.add_zero] at this
  rw [this]; rfl

theorem rd_elem_len (pre post : List Nat) (e : Elem) :
    rd (pre ++ (e.encode ++ post)) (pre.length + 1) = e.value.length := by
  rw [rd_append_right]; rfl

theorem ie_count_loop_stuck (pre rest : List Nat) (h : NoElemAtFront rest) (fuel count : Nat) :
    ie_count_loop (pre ++ rest) fuel pre.length count = count := by
  cases fuel with
  | zero => rfl
  | succ n =>
    unfold ie_count_loop
    rcases h with h | ⟨id, len, v, rfl, hv⟩
    · rw [if_neg (by simp; omega)]
    · have hl : rd (pre ++ id :: len :: v) (pre.length + 1) = len := by
        rw [rd_append_right]; rfl
      rw [hl, if_pos (by simp), if_pos (by simp; omega)]

theorem ie_count_loop_encode (rest : List Nat) (h : NoElemAtFront rest) :
    ∀ (es : List Elem) (pre : List Nat) (fuel count : Nat),
      (encode es).length ≤ fuel →
      ie_count_loop (pre ++ (encode es ++ rest)) fuel pre.length count = count + es.length
  | [], pre, fuel, count, _ => by
    simpa [encode] using ie_count_loop_stuck pre rest h fuel count
  | e :: es, pre, fuel, count, hf => by
    rw [encode_cons_length] at hf
    cases fuel with
    | zero => omega
    | succ n =>
      unfold ie_count_loop
      have hb : pre ++ (encode (e :: es) ++ rest) = pre ++ (e.encode ++ (encode es ++ rest)) := by
        simp [encode]
      rw [hb, rd_elem_len]
      rw [if_pos (by simp [Elem.encode]), if_neg (by simp [Elem.encode]; omega)]
      have hp : pre.length + 2 + e.value.length = (pre ++ e.encode).length := by
        simp [Elem.encode]; omega
      have hb2 : pre ++ (e.encode ++ (encode es ++ rest)) =
          (pre ++ e.encode) ++ (encode es ++ rest) := by simp
      rw [hp, hb2, ie_count_loop_encode rest h es (pre ++ e.encode) n (count + 1) (by omega)]
      simp; omega

/-- Every buffer is a sequence of complete elements followed by a part that
has no complete element at its front. -/
theorem exists_encode_prefix :
    ∀ (n : Nat) (buf : List Nat), buf.length ≤ n →
      ∃ es rest, buf = encode es ++ rest ∧ NoElemAtFront rest
  | 0, buf, h => ⟨[], buf, rfl, Or.inl (by omega)⟩
  | n + 1, buf, h => by
    match buf, h with
    | [], _ => exact ⟨[], [], rfl, Or.inl (by simp)⟩
    | [b], _ => exact ⟨[], [b], rfl, Or.inl (by simp)⟩
    | id :: len :: v, h =>
      by_cases hv : v.length < len
      · exact ⟨[], id :: len :: v, rfl, Or.inr ⟨id, len, v, rfl, hv⟩⟩
      · obtain ⟨es, rest, he, hr⟩ := exists_encode_prefix n (v.drop len)
          (by simp at h ⊢; omega)
        refine ⟨⟨id, v.take len⟩ :: es, rest, ?_, hr⟩
        have hl : (v.take len).length = len := by simp; omega
        simp only [encode, Elem.encode, hl, List.cons_append, List.append_assoc]
        rw [← he, List.take_append_drop]

/-- C19: `ieee802_11_ie_count` is 0 for a `NULL` and for an empty buffer, `n`
for a concatenation of `n` well-formed elements, and in general the number of
complete elements at the front of the buffer: counting stops at the first
place where no complete element stands (fewer than two octets left, or a
declared Length that overruns the buffer), whatever follows.  Every buffer has
such a decomposition, and the count is at least the length of any sequence of
complete elements that the buffer starts with. -/
theorem ie_count_spec :
    ieee802_11_ie_count none = 0 ∧ ieee802_11_ie_count (some []) = 0 ∧
    (∀ es : List Elem, ieee802_11_ie_count (some (encode es)) = es.length) ∧
    (∀ (es : List Elem) (rest : List Nat), NoElemAtFront rest →
      ieee802_11_ie_count (some (encode es ++ rest)) = es.length) ∧
    (∀ buf : List Nat, ∃ es rest, buf = encode es ++ rest ∧ NoElemAtFront rest) ∧
    (∀ (es : List Elem) (rest : List Nat),
      es.length ≤ ieee802_11_ie_count (some (encode es ++ rest))) := by
  have h3 : ∀ (es : List Elem) (rest : List Nat), NoElemAtFront rest →
      ieee802_11_ie_count (some (encode es ++ rest)) = es.length := by
    intro es rest hr
    have := ie_count_loop_encode rest hr es [] (encode es ++ rest).length 0 (by simp)
    simpa [ieee802_11_ie_count] using this
  refine ⟨rfl, rfl, fun es => ?_, h3, fun buf => exists_encode_prefix _ buf (le_refl _),
    fun es rest => ?_⟩
  · have := h3 es [] (Or.inl (by simp))
    simpa using this
  · obtain ⟨es', rest', he, hr⟩ := exists_encode_prefix _ rest (le_refl _)
    have := h3 (es ++ es') rest' hr
    rw [encode_append, List.append_assoc, ← he] at this
    rw [this]
    simp

/-- C19 instantiated: two complete elements followed by a header that
declares 9 octets where one remains. -/
theorem ie_count_spec_witness :
    NoElemAtFront [1, 9, 2] ∧
    ieee802_11_ie_count (some (encode [Elem.mk 0 [65], Elem.mk 1 [2, 4]] ++ [1, 9, 2])) =
      [Elem.mk 0 [65], Elem.mk 1 [2, 4]].length :=
  ⟨Or.inr ⟨1, 9, [2], rfl, by decide⟩,
    ie_count_spec.2.2.2.1 [Elem.mk 0 [65], Elem.mk 1 [2, 4]] [1, 9, 2]
      (Or.inr ⟨1, 9, [2], rfl, by decide⟩)⟩

/-! ## C20: concatenating the payloads of matching vendor elements -/

theorem WPA_GET_BE32_elem (pre post : List Nat) (e : Elem) (h : 4 ≤ e.value.length) :
    WPA_GET_BE32 (pre ++ (e.encode ++ post)) (pre.length + 2) = WPA_GET_BE32 e.value 0 := by
  unfold WPA_GET_BE32
  have h0 := rd_elem_value pre post e 0 (by omega)
  have h1 := rd_elem_value pre post e 1 (by omega)
  have h2 := rd_elem_value pre post e 2 (by omega)
  have h3 := rd_elem_value pre post e 3 (by omega)
  simp only [Nat.add_zero, Nat.add_assoc] at h0 h1 h2 h3 ⊢
  simp only [Nat.zero_add]
  rw [h0, h1, h2, h3]

theorem vendor_ie_match_elem (d : ieee802_11_defs) (oui_type : Nat) (pre post : List Nat)
    (e : Elem) :
    vendor_ie_match d (pre ++ (e.encode ++ post)) pre.length oui_type =
      e.vendor_match d oui_type := by
  unfold vendor_ie_match Elem.vendor_match
  rw [rd_elem_id, rd_elem_len]
  by_cases h : 4 ≤ e.value.length
  · rw [WPA_GET_BE32_elem pre post e h]
  · simp [h]

theorem vendor_ie_data_elem (pre post : List Nat) (e : Elem) :
    ((pre ++ (e.encode ++ post)).drop (pre.length + 6)).take (e.value.length - 4) =
      e.value.drop 4 := by
  rw [List.drop_append_eq_append_drop, List.drop_eq_nil_of_le (by omega)]
  have : pre.length + 6 - pre.length = 6 := by omega
  rw [this, List.nil_append]
  simp only [Elem.encode, List.cons_append, List.drop_succ_cons]
  rw [List.drop_append_eq_append_drop, List.take_append_eq_append_take]
  simp [List.take_of_length_le]

/-- The second loop on a sequence of complete elements appends the payload of
every matching element. -/
theorem vendor_ie_collect_encode (d : ieee802_11_defs) (oui_type : Nat) :
    ∀ (es : List Elem) (pre : List Nat) (fuel : Nat) (buf : List Nat),
      (encode es).length ≤ fuel →
      vendor_ie_collect d (pre ++ encode es) oui_type fuel pre.length buf =
        buf ++ ((es.filter (Elem.vendor_match d oui_type)).map
          (fun e => e.value.drop 4)).flatten
  | [], pre, fuel, buf, _ => by
    cases fuel with
    | zero => simp [vendor_ie_collect]
    | succ n =>
      unfold vendor_ie_collect
      rw [if_neg (by simp [encode])]
      simp
  | e :: es, pre, fuel, buf, hf => by
    rw [encode_cons_length] at hf
    cases fuel with
    | zero => omega
    | succ n =>
      unfold vendor_ie_collect
      simp only [encode]
      rw [rd_elem_len, vendor_ie_match_elem, vendor_ie_data_elem]
      rw [if_pos (by simp [Elem.encode]), if_neg (by simp [Elem.encode]; omega)]
      have hp : pre.length + 2 + e.value.length = (pre ++ e.encode).length := by
        simp [Elem.encode]; omega
      have hb2 : pre ++ (e.encode ++ encode es) = (pre ++ e.encode) ++ encode es := by simp
      rw [hp, hb2, vendor_ie_collect_encode d oui_type es (pre ++ e.encode) n _ (by omega)]
      by_cases hm : e.vendor_match d oui_type = true
      · simp [hm, List.filter_cons]
      · simp [hm, List.filter_cons]

/-- The first loop on a sequence of complete elements without a matching
element runs to the end and leaves `ie` at `NULL`. -/
theorem vendor_ie_find_none (d : ieee802_11_defs) (oui_type : Nat) :
    ∀ (es : List Elem) (pre : List Nat) (fuel : Nat),
      (∀ e ∈ es, e.vendor_match d oui_type = false) →
      ∃ pos, vendor_ie_find d (pre ++ encode es) oui_type fuel pre.length = .done pos none
  | [], pre, fuel, _ => by
    cases fuel with
    | zero => exact ⟨_, rfl⟩
    | succ n =>
      unfold vendor_ie_find
      rw [if_neg (by simp [encode])]
      exact ⟨_, rfl⟩
  | e :: es, pre, fuel, hno => by
    cases fuel with
    | zero => exact ⟨_, rfl⟩
    | succ n =>
      unfold vendor_ie_find
      simp only [encode]
      rw [rd_elem_len, vendor_ie_match_elem, hno e (List.mem_cons_self _ _)]
      rw [if_pos (by simp [Elem.encode]), if_neg (by simp [Elem.encode]; omega)]
      have hp : pre.length + 2 + e.value.length = (pre ++ e.encode).length := by
        simp [Elem.encode]; omega
      have hb2 : pre ++ (e.encode ++ encode es) = (pre ++ e.encode) ++ encode es := by simp
      rw [hp, hb2]
      simp only [Bool.false_eq_true, if_false]
      exact vendor_ie_find_none d oui_type es (pre ++ e.encode) n
        (fun x hx => hno x (List.mem_cons_of_mem _ hx))

/-- The first loop stops at the first matching element. -/
theorem vendor_ie_find_some (d : ieee802_11_defs) (oui_type : Nat) (m : Elem)
    (hm : m.vendor_match d oui_type = true) (post : List Elem) :
    ∀ (es : List Elem) (pre : List Nat) (fuel : Nat),
      (∀ e ∈ es, e.vendor_match d oui_type = false) →
      (encode (es ++ m :: post)).length ≤ fuel →
      vendor_ie_find d (pre ++ encode (es ++ m :: post)) oui_type fuel pre.length =
        .done (pre.length + (encode es).length) (some (pre.length + (encode es).length))
  | [], pre, fuel, _, hf => by
    simp only [List.nil_append, encode, List.length_nil, Nat.add_zero] at hf ⊢
    cases fuel with
    | zero => simp [Elem.encode] at hf
    | succ n =>
      unfold vendor_ie_find
      rw [rd_elem_len, vendor_ie_match_elem, hm]
      rw [if_pos (by simp [Elem.encode]), if_neg (by simp [Elem.encode]; omega)]
      simp
  | e :: es, pre, fuel, hno, hf => by
    simp only [List.cons_append] at hf ⊢
    rw [encode_cons_length] at hf
    cases fuel with
    | zero => omega
    | succ n =>
      unfold vendor_ie_find
      simp only [encode]
      rw [rd_elem_len, vendor_ie_match_elem, hno e (List.mem_cons_self _ _)]
      rw [if_pos (by simp [Elem.encode]), if_neg (by simp [Elem.encode]; omega)]
      have hp : pre.length + 2 + e.value.length = (pre ++ e.encode).length := by
        simp [Elem.encode]; omega
      have hb2 : pre ++ (e.encode ++ encode (es ++ m :: post)) =
          (pre ++ e.encode) ++ encode (es ++ m :: post) := by simp
      rw [hp, hb2]
      simp only [Bool.false_eq_true, if_false]
      rw [vendor_ie_find_some d oui_type m hm post es (pre ++ e.encode) n
        (fun x hx => hno x (List.mem_cons_of_mem _ hx)) (by omega)]
      simp [Elem.encode]
      omega

theorem exists_first_match {α : Type} (p : α → Bool) :
    ∀ (l : List α), (∃ x ∈ l, p x = true) →
      ∃ l1 m l2, l = l1 ++ m :: l2 ∧ (∀ x ∈ l1, p x = false) ∧ p m = true
  | [], h => by obtain ⟨x, hx, _⟩ := h; cases hx
  | a :: l, h => by
    by_cases ha : p a = true
    · exact ⟨[], a, l, rfl, fun x hx => absurd hx (List.not_mem_nil x), ha⟩
    · have hl : ∃ x ∈ l, p x = true := by
        obtain ⟨x, hx, hpx⟩ := h
        rcases List.mem_cons.1 hx with rfl | hx
        · exact absurd hpx ha
        · exact ⟨x, hx, hpx⟩
      obtain ⟨l1, m, l2, he, h1, hm⟩ := exists_first_match p l hl
      refine ⟨a :: l1, m, l2, by rw [he]; rfl, ?_, hm⟩
      intro x hx
      rcases List.mem_cons.1 hx with rfl | hx
      · simpa using ha
      · exact h1 x hx

/-- C20: for every buffer that is a concatenation of well-formed elements and
every `oui_type`, `ieee802_11_vendor_ie_concat`, when the allocation succeeds,
returns `NULL` when no element has the vendor-specific ID, Length at least 4
and first four Value octets equal, big-endian, to `oui_type`; otherwise it
returns a buffer whose content is the concatenation, in stream order, of the
Value octets after the first four of every such element. -/
theorem vendor_ie_concat_spec (d : ieee802_11_defs) (es : List Elem) (oui_type : Nat) :
    ieee802_11_vendor_ie_concat d (encode es) oui_type true =
      if es.filter (Elem.vendor_match d oui_type) = [] then none
      else some (((es.filter (Elem.vendor_match d oui_type)).map
        (fun e => e.value.drop 4)).flatten) := by
  unfold ieee802_11_vendor_ie_concat
  by_cases hex : ∃ x ∈ es, Elem.vendor_match d oui_type x = true
  · obtain ⟨es1, m, post, he, h1, hm⟩ := exists_first_match _ es hex
    have hfil : es.filter (Elem.vendor_match d oui_type) =
        (m :: post).filter (Elem.vendor_match d oui_type) := by
      rw [he, List.filter_append, List.filter_eq_nil_iff.2 (fun x hx => by simp [h1 x hx])]
      rfl
    have hne : es.filter (Elem.vendor_match d oui_type) ≠ [] := by
      rw [hfil, List.filter_cons, if_pos hm]; exact List.cons_ne_nil _ _
    rw [if_neg hne]
    have hfind := vendor_ie_find_some d oui_type m hm post es1 [] (encode es).length h1
      (by rw [he])
    simp only [List.nil_append, List.length_nil, Nat.zero_add] at hfind
    rw [← he] at hfind
    rw [hfind]
    simp only [if_true]
    have hcol := vendor_ie_collect_encode d oui_type (m :: post) (encode es1)
      (encode es).length [] (by rw [he, encode_append]; simp)
    rw [← encode_append, ← he] at hcol
    rw [hcol, hfil, List.nil_append]
  · have hno : ∀ e ∈ es, Elem.vendor_match d oui_type e = false := by
      intro e he
      by_contra hc
      exact hex ⟨e, he, by simpa using hc⟩
    have hnil : es.filter (Elem.vendor_match d oui_type) = [] :=
      List.filter_eq_nil_iff.2 (fun x hx => by simp [hno x hx])
    rw [if_pos hnil]
    obtain ⟨pos, hp⟩ := vendor_ie_find_none d oui_type es [] (encode es).length hno
    simp only [List.nil_append, List.length_nil] at hp
    rw [hp]

/-- An instance of C20: of three vendor elements two carry the WPS type
`00 50 f2 04`; their payloads `07 08` and `09` are concatenated in order, and a
search for a type that no element carries returns `NULL`. -/
theorem vendor_ie_concat_example :
    ieee802_11_vendor_ie_concat sample_defs
      (encode [Elem.mk 0 [65], Elem.mk 221 [0, 0x50, 0xf2, 4, 7, 8],
        Elem.mk 221 [0, 0x50, 0xf2, 1], Elem.mk 221 [0, 0x50, 0xf2, 4, 9]])
      0x0050f204 true = some [7, 8, 9] ∧
    ieee802_11_vendor_ie_concat sample_defs
      (encode [Elem.mk 0 [65], Elem.mk 221 [0, 0x50, 0xf2, 4, 7, 8]])
      0x0050f202 true = none := by
  decide

/-! ## C17, C18: elements below the minimum Length of their ID -/

/-- An element whose Length does not meet the requirement of its case label
goes through the switch without any effect. -/
theorem parse_elems_switch_skip (d : ieee802_11_defs) (buf : List Nat) (se : Int)
    (id elen pos left unknown : Nat) (elems : ieee802_11_elems) (log : List Diag)
    {l : Eid} (hl : switch_label d id = some l) (hok : l.length_ok elen = false) :
    parse_elems_switch d buf se id elen pos left unknown elems log =
      ⟨left, unknown, elems, log⟩ := by
  unfold parse_elems_switch
  rw [hl]
  cases l <;> simp [Eid.length_ok] at hok
  · dsimp only; rw [if_pos hok]
  · dsimp only; rw [if_pos hok]
  · dsimp only; rw [if_pos hok]
  · dsimp only; rw [if_pos hok]

/-- The vendor dispatcher on two spans that hold the same octets makes the
same decision: the same return value and the same member, if any. -/
theorem vendor_specific_rel (d : ieee802_11_defs) (buf buf' : List Nat)
    (pos pos' elen : Nat) (e e' : ieee802_11_elems) (se se' : Int)
    (h : ∀ i, i < elen → rd buf (pos + i) = rd buf' (pos' + i)) :
    ∃ r : SwitchRecord,
      (ieee802_11_parse_vendor_specific d buf pos elen e se).elems = r.apply e pos elen ∧
      (ieee802_11_parse_vendor_specific d buf' pos' elen e' se').elems =
        r.apply e' pos' elen ∧
      (ieee802_11_parse_vendor_specific d buf pos elen e se).ret =
        (ieee802_11_parse_vendor_specific d buf' pos' elen e' se').ret ∧ r.WellTyped := by
  unfold ieee802_11_parse_vendor_specific
  by_cases h4 : elen < 4
  · rw [if_pos h4, if_pos h4]
    exact ⟨.keep, rfl, rfl, rfl, trivial⟩
  · rw [if_neg h4, if_neg h4]
    have e0 : rd buf pos = rd buf' pos' := h 0 (by omega)
    have e1 := h 1 (by omega)
    have e2 := h 2 (by omega)
    have e3 := h 3 (by omega)
    have hbe : WPA_GET_BE24 buf pos = WPA_GET_BE24 buf' pos' := by
      unfold WPA_GET_BE24; rw [e0, e1, e2]
    dsimp only
    rw [hbe, e3]
    generalize WPA_GET_BE24 buf' pos' = oui
    generalize rd buf' (pos' + 3) = t
    by_cases h5 : elen < 5
    · have h5' : ¬ elen > 4 := by omega
      simp only [h5, h5', if_true, false_and, if_false]
      split_ifs <;> first
        | exact ⟨.keep, rfl, rfl, rfl, trivial⟩
        | exact ⟨.full _, rfl, rfl, rfl, rfl⟩
    · rw [h 4 (by omega)]
      generalize rd buf' (pos' + 4) = st
      split_ifs <;> first
        | exact ⟨.keep, rfl, rfl, rfl, trivial⟩
        | exact ⟨.full _, rfl, rfl, rfl, rfl⟩

/-- The switch on two elements with the same ID, the same Length and the same
Value octets, at any two places of any two buffers, makes the same assignments
and counts the same. -/
theorem parse_elems_switch_rel (d : ieee802_11_defs) (buf buf' : List Nat) (se se' : Int)
    (id elen pos pos' left left' unknown : Nat) (e e' : ieee802_11_elems)
    (log log' : List Diag) (h : ∀ i, i < elen → rd buf (pos + i) = rd buf' (pos' + i)) :
    ∃ r : SwitchRecord,
      (parse_elems_switch d buf se id elen pos left unknown e log).elems =
        r.apply e pos elen ∧
      (parse_elems_switch d buf' se' id elen pos' left' unknown e' log').elems =
        r.apply e' pos' elen ∧
      (parse_elems_switch d buf se id elen pos left unknown e log).unknown =
        (parse_elems_switch d buf' se' id elen pos' left' unknown e' log').unknown ∧
      r.WellTyped := by
  unfold parse_elems_switch
  rcases switch_label d id with _ | l
  · exact ⟨.keep, rfl, rfl, rfl, trivial⟩
  · cases l
    case VENDOR_SPECIFIC =>
      obtain ⟨r, h1, h2, h3, hr⟩ := vendor_specific_rel d buf buf' pos pos' elen e e' se se' h
      dsimp only
      rw [h3]
      exact ⟨r, h1, h2, rfl, hr⟩
    all_goals
      first
        | exact ⟨.keep, rfl, rfl, rfl, trivial⟩
        | exact ⟨.full _, rfl, rfl, rfl, rfl⟩
        | (dsimp only
           split_ifs
           · exact ⟨.keep, rfl, rfl, rfl, trivial⟩
           · first
              | exact ⟨.full _, rfl, rfl, rfl, rfl⟩
              | exact ⟨.ptr_only _, rfl, rfl, rfl, rfl⟩)

theorem field_value_congr {buf1 buf2 : List Nat} {e1 e1' e2 e2' : ieee802_11_elems} {m : Field}
    (h : field_value buf1 e1 m = field_value buf2 e2 m)
    (hp1 : e1'.ptr m = e1.ptr m) (hl1 : e1'.len m = e1.len m)
    (hp2 : e2'.ptr m = e2.ptr m) (hl2 : e2'.len m = e2.len m) :
    field_value buf1 e1' m = field_value buf2 e2' m := by
  unfold field_value at h ⊢
  rw [hp1, hl1, hp2, hl2]
  exact h

/-- The same record applied in two runs, for Values that hold the same octets
behind the same Length octet, keeps the members of the two element sets
referring to equal octets. -/
theorem field_value_apply (r : SwitchRecord) (hr : r.WellTyped) (buf1 buf2 : List Nat)
    (e1 e2 : ieee802_11_elems) (pos1 pos2 elen : Nat)
    (hinv : ∀ m, field_value buf1 e1 m = field_value buf2 e2 m)
    (hspan : (buf1.drop pos1).take elen = (buf2.drop pos2).take elen)
    (hl1 : rd buf1 (pos1 - 1) = elen) (hl2 : rd buf2 (pos2 - 1) = elen) :
    ∀ m, field_value buf1 (r.apply e1 pos1 elen) m =
      field_value buf2 (r.apply e2 pos2 elen) m := by
  intro m
  cases r with
  | keep => exact hinv m
  | full m' =>
    have hm' : m'.lengthless = false := hr
    by_cases hm : m = m'
    · subst hm
      simp [field_value, SwitchRecord.apply, ieee802_11_elems.assign, hm', hspan]
    · exact field_value_congr (hinv m) (assign_other e1 pos1 elen hm).1
        (assign_other e1 pos1 elen hm).2 (assign_other e2 pos2 elen hm).1
        (assign_other e2 pos2 elen hm).2
  | ptr_only m' =>
    have hm' : m'.lengthless = true := hr
    by_cases hm : m = m'
    · subst hm
      simp [field_value, SwitchRecord.apply, ieee802_11_elems.assignPtr, hm', hspan, hl1, hl2]
    · exact field_value_congr (hinv m) (assignPtr_other e1 pos1 hm).1
        (assignPtr_other e1 pos1 hm).2 (assignPtr_other e2 pos2 hm).1
        (assignPtr_other e2 pos2 hm).2

theorem elem_value_span (pre post : List Nat) (e : Elem) :
    ((pre ++ (e.encode ++ post)).drop (pre.length + 2)).take e.value.length = e.value := by
  rw [List.drop_append_eq_append_drop, List.drop_eq_nil_of_le (by omega)]
  have : pre.length + 2 - pre.length = 2 := by omega
  rw [this, List.nil_append]
  simp [Elem.encode]

theorem elem_len_octet (pre post : List Nat) (e : Elem) :
    rd (pre ++ (e.encode ++ post)) (pre.length + 2 - 1) = e.value.length := by
  have : pre.length + 2 - 1 = pre.length + 1 := by omega
  rw [this, rd_elem_len]

/-- A concatenation of well-formed elements never fails. -/
theorem parse_elems_from_wf (d : ieee802_11_defs) (se : Int) :
    ∀ (es : List Elem) (pb : List Nat) (unknown : Nat) (elems : ieee802_11_elems)
      (log : List Diag),
      (parse_elems_from d (pb ++ encode es) se (encode es).length pb.length unknown elems
        log).res ≠ ParseRes.ParseFailed
  | [], pb, unknown, elems, log => by
    simp only [encode, List.length_nil]
    rw [parse_elems_from_zero]
    dsimp only
    split_ifs <;> exact fun h => ParseRes.noConfusion h
  | e :: es, pb, unknown, elems, log => by
    simp only [encode]
    by_cases hlab : switch_label d e.id = some .MIC
    · rw [parse_elems_from_elem_mic d se pb _ e unknown elems log hlab]
      dsimp only
      split_ifs <;> exact fun h => ParseRes.noConfusion h
    · rw [parse_elems_from_elem_next d se pb _ e unknown elems log hlab]
      exact parse_elems_from_wf d se es (pb ++ e.encode) _ _ _

/-- Two runs over the same sequence of elements, placed anywhere in two
buffers and followed by any two tails, stay in step: they end alike whenever
the runs over the tails do. -/
theorem parse_elems_from_sim (d : ieee802_11_defs) (se : Int) (t1 t2 : List Nat) :
    ∀ (es : List Elem) (pb1 pb2 : List Nat) (unknown : Nat) (e1 e2 : ieee802_11_elems)
      (log1 log2 : List Diag),
      (∀ m, field_value (pb1 ++ (encode es ++ t1)) e1 m =
        field_value (pb2 ++ (encode es ++ t2)) e2 m) →
      (∀ (u : Nat) (f1 f2 : ieee802_11_elems) (l1 l2 : List Diag),
        (∀ m, field_value (pb1 ++ (encode es ++ t1)) f1 m =
          field_value (pb2 ++ (encode es ++ t2)) f2 m) →
        SameOutcome (pb1 ++ (encode es ++ t1)) (pb2 ++ (encode es ++ t2))
          (parse_elems_from d (pb1 ++ (encode es ++ t1)) se t1.length
            (pb1.length + (encode es).length) u f1 l1)
          (parse_elems_from d (pb2 ++ (encode es ++ t2)) se t2.length
            (pb2.length + (encode es).length) u f2 l2)) →
      SameOutcome (pb1 ++ (encode es ++ t1)) (pb2 ++ (encode es ++ t2))
        (parse_elems_from d (pb1 ++ (encode es ++ t1)) se (encode es ++ t1).length
          pb1.length unknown e1 log1)
        (parse_elems_from d (pb2 ++ (encode es ++ t2)) se (encode es ++ t2).length
          pb2.length unknown e2 log2)
  | [], pb1, pb2, unknown, e1, e2, log1, log2, hinv, hk => by
    have := hk unknown e1 e2 log1 log2 hinv
    simpa [encode] using this
  | e :: es, pb1, pb2, unknown, e1, e2, log1, log2, hinv, hk => by
    simp only [encode, List.append_assoc] at hinv hk ⊢
    have hb : ∀ i, i < e.value.length →
        rd (pb1 ++ (e.encode ++ (encode es ++ t1))) (pb1.length + 2 + i) =
          rd (pb2 ++ (e.encode ++ (encode es ++ t2))) (pb2.length + 2 + i) := by
      intro i hi
      rw [rd_elem_value _ _ _ _ hi, rd_elem_value _ _ _ _ hi]
    have hspan : ((pb1 ++ (e.encode ++ (encode es ++ t1))).drop (pb1.length + 2)).take
        e.value.length = ((pb2 ++ (e.encode ++ (encode es ++ t2))).drop
          (pb2.length + 2)).take e.value.length := by
      rw [elem_value_span, elem_value_span]
    by_cases hlab : switch_label d e.id = some .MIC
    · rw [parse_elems_from_elem_mic d se pb1 _ e unknown e1 log1 hlab,
        parse_elems_from_elem_mic d se pb2 _ e unknown e2 log2 hlab]
      exact ⟨rfl, field_value_apply (.full .mic) rfl _ _ e1 e2 _ _ _ hinv hspan
        (elem_len_octet _ _ _) (elem_len_octet _ _ _)⟩
    · rw [parse_elems_from_elem_next d se pb1 _ e unknown e1 log1 hlab,
        parse_elems_from_elem_next d se pb2 _ e unknown e2 log2 hlab]
      obtain ⟨r, h1, h2, h3, hr⟩ := parse_elems_switch_rel d
        (pb1 ++ (e.encode ++ (encode es ++ t1))) (pb2 ++ (e.encode ++ (encode es ++ t2)))
        se se e.id e.value.length (pb1.length + 2) (pb2.length + 2) 0 0 unknown e1 e2
        log1 log2 hb
      rw [h1, h2, h3]
      have hinv' := field_value_apply r hr _ _ e1 e2 _ _ _ hinv hspan
        (elem_len_octet _ _ _) (elem_len_octet _ _ _)
      have ih := parse_elems_from_sim d se t1 t2 es (pb1 ++ e.encode) (pb2 ++ e.encode)
        (parse_elems_switch d (pb2 ++ (e.encode ++ (encode es ++ t2))) se e.id
          e.value.length (pb2.length + 2) 0 unknown e2 log2).unknown
        (r.apply e1 (pb1.length + 2) e.value.length)
        (r.apply e2 (pb2.length + 2) e.value.length)
        (parse_elems_switch d (pb1 ++ (e.encode ++ (encode es ++ t1))) se e.id
          e.value.length (pb1.length + 2) 0 unknown e1 log1).log
        (parse_elems_switch d (pb2 ++ (e.encode ++ (encode es ++ t2))) se e.id
          e.value.length (pb2.length + 2) 0 unknown e2 log2).log
      simp only [List.append_assoc, List.length_append] at ih ⊢
      apply ih hinv'
      intro u f1 f2 l1 l2 hf
      have := hk u f1 f2 l1 l2 hf
      simpa only [List.length_append, Nat.add_assoc] using this

theorem field_value_zero (buf : List Nat) (m : Field) :
    field_value buf ieee802_11_elems.zero m = none := rfl

/-- Dropping an element whose Length does not meet the requirement of its case
label from a stream of well-formed elements does not change the outcome. -/
theorem parse_elems_skip_sim (d : ieee802_11_defs) (se : Int) (P Q : List Elem) (U : Elem)
    (l : Eid) (hl : switch_label d U.id = some l)
    (hok : l.length_ok U.value.length = false) :
    SameOutcome (encode (P ++ U :: Q)) (encode (P ++ Q))
      (ieee802_11_parse_elems d (encode (P ++ U :: Q)) se)
      (ieee802_11_parse_elems d (encode (P ++ Q)) se) := by
  have hnm : switch_label d U.id ≠ some .MIC := by
    intro h
    rw [hl] at h
    cases h
    simp [Eid.length_ok] at hok
  have h1 := parse_elems_from_sim d se (U.encode ++ encode Q) (encode Q) P [] [] 0
    ieee802_11_elems.zero ieee802_11_elems.zero [] [] (fun m => rfl)
  simp only [List.nil_append, List.length_nil, Nat.zero_add] at h1
  rw [parse_elems_eq_from, parse_elems_eq_from]
  have hb1 : encode (P ++ U :: Q) = encode P ++ (U.encode ++ encode Q) := by
    rw [encode_append]; rfl
  have hb2 : encode (P ++ Q) = encode P ++ encode Q := encode_append P Q
  rw [hb1, hb2]
  apply h1
  intro u f1 f2 l1 l2 hf
  rw [parse_elems_from_elem_next d se (encode P) (encode Q) U u f1 l1 hnm,
    parse_elems_switch_skip d _ se U.id U.value.length _ 0 u f1 l1 hl hok]
  dsimp only
  have h2 := parse_elems_from_sim d se [] [] Q (encode P ++ U.encode) (encode P) u f1 f2 l1 l2
  simp only [List.append_nil, List.length_nil, List.append_assoc] at h2 ⊢
  apply h2 hf
  intro u' g1 g2 k1 k2 hg
  rw [parse_elems_from_zero, parse_elems_from_zero]
  exact ⟨rfl, hg⟩

/-- C18: an under-length element is silently skipped.  For all sequences `P`
and `Q` of well-formed elements and every well-formed element `U` whose ID is
Link Identifier, QoS Map Set or BSS Max Idle Period with a Length below 18, 16
or 3, `ieee802_11_parse_elems` on `P ++ U ++ Q` returns the verdict that it
returns on `P ++ Q`, which is not `ParseFailed`, and every member is absent in
both element sets or refers to the same Value octets in both. -/
theorem parse_elems_underlength_skipped (d : ieee802_11_defs) (hd : d.Distinct)
    (P Q : List Elem) (U : Elem) (show_errors : Int)
    (hU : (U.id = d.WLAN_EID_LINK_ID ∧ U.value.length < 18) ∨
      (U.id = d.WLAN_EID_QOS_MAP_SET ∧ U.value.length < 16) ∨
      (U.id = d.WLAN_EID_BSS_MAX_IDLE_PERIOD ∧ U.value.length < 3)) :
    (ieee802_11_parse_elems d (encode (P ++ U :: Q)) show_errors).res =
      (ieee802_11_parse_elems d (encode (P ++ Q)) show_errors).res ∧
    (ieee802_11_parse_elems d (encode (P ++ U :: Q)) show_errors).res ≠
      ParseRes.ParseFailed ∧
    ∀ m, field_value (encode (P ++ U :: Q))
        (ieee802_11_parse_elems d (encode (P ++ U :: Q)) show_errors).elems m =
      field_value (encode (P ++ Q))
        (ieee802_11_parse_elems d (encode (P ++ Q)) show_errors).elems m := by
  have hwf := parse_elems_from_wf d show_errors (P ++ U :: Q) [] 0 ieee802_11_elems.zero []
  simp only [List.nil_append, List.length_nil] at hwf
  obtain ⟨l, hl, hok⟩ : ∃ l, switch_label d U.id = some l ∧
      l.length_ok U.value.length = false := by
    rcases hU with ⟨hid, hlen⟩ | ⟨hid, hlen⟩ | ⟨hid, hlen⟩
    · exact ⟨.LINK_ID, (switch_label_eq_iff hd.1 _ _).2 hid, by simp [Eid.length_ok]; omega⟩
    · exact ⟨.QOS_MAP_SET, (switch_label_eq_iff hd.1 _ _).2 hid, by
        simp [Eid.length_ok]; omega⟩
    · exact ⟨.BSS_MAX_IDLE_PERIOD, (switch_label_eq_iff hd.1 _ _).2 hid, by
        simp [Eid.length_ok]; omega⟩
  obtain ⟨h1, h2⟩ := parse_elems_skip_sim d show_errors P Q U l hl hok
  exact ⟨h1, hwf, h2⟩

/-- C18 instantiated: a Link Identifier element of Length 1 between an SSID
and a Supported Rates element. -/
theorem parse_elems_underlength_skipped_witness :
    sample_defs.Distinct ∧
    ((Elem.mk 101 [7]).id = sample_defs.WLAN_EID_LINK_ID ∧ (Elem.mk 101 [7]).value.length < 18) ∧
    (ieee802_11_parse_elems sample_defs
        (encode ([Elem.mk 0 [65]] ++ Elem.mk 101 [7] :: [Elem.mk 1 [2, 4]])) 0).res =
      (ieee802_11_parse_elems sample_defs
        (encode ([Elem.mk 0 [65]] ++ [Elem.mk 1 [2, 4]])) 0).res ∧
    field_value (encode ([Elem.mk 0 [65]] ++ Elem.mk 101 [7] :: [Elem.mk 1 [2, 4]]))
        (ieee802_11_parse_elems sample_defs
          (encode ([Elem.mk 0 [65]] ++ Elem.mk 101 [7] :: [Elem.mk 1 [2, 4]])) 0).elems
        Field.supp_rates = some [2, 4] :=
  ⟨by decide, by decide,
    (parse_elems_underlength_skipped sample_defs (by decide) [Elem.mk 0 [65]]
      [Elem.mk 1 [2, 4]] (Elem.mk 101 [7]) 0 (Or.inl (by decide))).1,
    by decide⟩

/-- The member of a case label after a stream in which exactly one element,
not preceded by a Message-Integrity element, has the ID of the label: it refers
to that element when the Length meets the requirement of the label, and is
absent otherwise. -/
theorem parse_elems_single (d : ieee802_11_defs) (hd : d.eids.Nodup) (se : Int)
    (pre post : List Elem) (x : Elem) (l : Eid) (m : Field) (hx : x.id = d.eid l)
    (hm : l.field = some m) (hmic : ∀ y ∈ pre, y.id ≠ d.WLAN_EID_MIC)
    (hpre : ∀ y ∈ pre, y.id ≠ x.id) (hpost : ∀ y ∈ post, y.id ≠ x.id) :
    (ieee802_11_parse_elems d (encode (pre ++ x :: post)) se).elems.ptr m =
      if l.length_ok x.value.length = true then some ((encode pre).length + 2) else none := by
  by_cases hok : l.length_ok x.value.length = true
  · rw [if_pos hok]
    have := parse_elems_from_recorded d hd se l m hm x hx hok post hpost pre [] 0
      ieee802_11_elems.zero [] hmic
    simp only [List.nil_append, List.length_nil, Nat.zero_add] at this
    exact this.1
  · rw [if_neg hok]
    have hok' : l.length_ok x.value.length = false := by simpa using hok
    have hl : switch_label d x.id = some l := (switch_label_eq_iff hd _ _).2 hx
    obtain ⟨_, h2⟩ := parse_elems_skip_sim d se pre post x l hl hok'
    have hk := parse_elems_from_kept d se l m hm (pre ++ post) [] 0 ieee802_11_elems.zero []
      (by
        intro y hy
        rcases List.mem_append.1 hy with h | h
        · exact hx ▸ hpre y h
        · exact hx ▸ hpost y h)
    simp only [List.nil_append, List.length_nil] at hk
    have h3 := h2 m
    unfold field_value at h3
    rw [parse_elems_eq_from d (encode (pre ++ post)) se, hk.1] at h3
    simpa [ieee802_11_elems.zero] using h3

/-- C17, as amended: for the four element kinds with an ID-specific Length
requirement, in a stream of well-formed elements in which the element is the
only one with its ID and no Message-Integrity element precedes it, the element
populates its member if and only if its declared Length meets the requirement:
at least 18 for Link Identifier, at least 16 for QoS Map Set, at least 3 for
BSS Max Idle Period, and exactly 1 for VHT Operating Mode Notification;
otherwise the member stays absent. -/
theorem parse_elems_min_length (d : ieee802_11_defs) (hd : d.Distinct)
    (pre post : List Elem) (x : Elem) (show_errors : Int)
    (hmic : ∀ y ∈ pre, y.id ≠ d.WLAN_EID_MIC) (hpre : ∀ y ∈ pre, y.id ≠ x.id)
    (hpost : ∀ y ∈ post, y.id ≠ x.id) :
    (x.id = d.WLAN_EID_LINK_ID →
      (ieee802_11_parse_elems d (encode (pre ++ x :: post)) show_errors).elems.ptr
          Field.link_id =
        if 18 ≤ x.value.length then some ((encode pre).length + 2) else none) ∧
    (x.id = d.WLAN_EID_QOS_MAP_SET →
      (ieee802_11_parse_elems d (encode (pre ++ x :: post)) show_errors).elems.ptr
          Field.qos_map_set =
        if 16 ≤ x.value.length then some ((encode pre).length + 2) else none) ∧
    (x.id = d.WLAN_EID_BSS_MAX_IDLE_PERIOD →
      (ieee802_11_parse_elems d (encode (pre ++ x :: post)) show_errors).elems.ptr
          Field.bss_max_idle_period =
        if 3 ≤ x.value.length then some ((encode pre).length + 2) else none) ∧
    (x.id = d.WLAN_EID_VHT_OPERATING_MODE_NOTIFICATION →
      (ieee802_11_parse_elems d (encode (pre ++ x :: post)) show_errors).elems.ptr
          Field.vht_opmode_notif =
        if x.value.length = 1 then some ((encode pre).length + 2) else none) := by
  refine ⟨fun h => ?_, fun h => ?_, fun h => ?_, fun h => ?_⟩
  · have := parse_elems_single d hd.1 show_errors pre post x .LINK_ID .link_id h rfl hmic
      hpre hpost
    simpa [Eid.length_ok] using this
  · have := parse_elems_single d hd.1 show_errors pre post x .QOS_MAP_SET .qos_map_set h rfl
      hmic hpre hpost
    simpa [Eid.length_ok] using this
  · have := parse_elems_single d hd.1 show_errors pre post x .BSS_MAX_IDLE_PERIOD
      .bss_max_idle_period h rfl hmic hpre hpost
    simpa [Eid.length_ok] using this
  · have := parse_elems_single d hd.1 show_errors pre post x .VHT_OPERATING_MODE_NOTIFICATION
      .vht_opmode_notif h rfl hmic hpre hpost
    simpa [Eid.length_ok] using this

/-- C17 instantiated: a BSS Max Idle Period element of Length 3 behind an SSID
element populates `bss_max_idle_period`. -/
theorem parse_elems_min_length_witness :
    sample_defs.Distinct ∧ (∀ y ∈ [Elem.mk 0 [65]], y.id ≠ sample_defs.WLAN_EID_MIC) ∧
    (∀ y ∈ [Elem.mk 0 [65]], y.id ≠ (Elem.mk 90 [1, 2, 3]).id) ∧
    (∀ y ∈ ([] : List Elem), y.id ≠ (Elem.mk 90 [1, 2, 3]).id) ∧
    (Elem.mk 90 [1, 2, 3]).id = sample_defs.WLAN_EID_BSS_MAX_IDLE_PERIOD ∧
    (ieee802_11_parse_elems sample_defs (encode ([Elem.mk 0 [65]] ++ Elem.mk 90 [1, 2, 3] :: []))
        0).elems.ptr Field.bss_max_idle_period =
      if 3 ≤ (Elem.mk 90 [1, 2, 3]).value.length then
        some ((encode [Elem.mk 0 [65]]).length + 2)
      else none :=
  ⟨by decide, by decide, by decide, by decide, by decide,
    (parse_elems_min_length sample_defs (by decide) [Elem.mk 0 [65]] [] (Elem.mk 90 [1, 2, 3]) 0
      (by decide) (by decide) (by decide)).2.2.1 (by decide)⟩

/-- C17 as stated fails for VHT Operating Mode Notification: an element of
Length 2 meets "Length >= 1", but the code requires the Length to be exactly 1
and leaves `vht_opmode_notif` absent. -/
theorem parse_elems_min_length_counterexample :
    (Elem.mk 199 [0, 0]).id = sample_defs.WLAN_EID_VHT_OPERATING_MODE_NOTIFICATION ∧
    1 ≤ (Elem.mk 199 [0, 0]).value.length ∧
    (ieee802_11_parse_elems sample_defs (encode [Elem.mk 199 [0, 0]]) 0).elems.ptr
      Field.vht_opmode_notif = none := by
  decide

/-! ## C21: the DFS ranges -/

/-- C21: `ieee80211_is_dfs` returns non-zero if and only if the frequency lies
in one of the inclusive ranges 5260..5320 MHz or 5500..5700 MHz; it returns 0
for 5259, 5321, 5499 and 5701 and non-zero at the four ends of the ranges. -/
theorem is_dfs_iff :
    (∀ freq : Int, ieee80211_is_dfs freq ≠ 0 ↔
      (5260 ≤ freq ∧ freq ≤ 5320) ∨ (5500 ≤ freq ∧ freq ≤ 5700)) ∧
    ieee80211_is_dfs 5259 = 0 ∧ ieee80211_is_dfs 5321 = 0 ∧
    ieee80211_is_dfs 5499 = 0 ∧ ieee80211_is_dfs 5701 = 0 ∧
    ieee80211_is_dfs 5260 ≠ 0 ∧ ieee80211_is_dfs 5320 ≠ 0 ∧
    ieee80211_is_dfs 5500 ≠ 0 ∧ ieee80211_is_dfs 5700 ≠ 0 := by
  refine ⟨fun freq => ?_, by decide, by decide, by decide, by decide, by decide, by decide,
    by decide, by decide⟩
  unfold ieee80211_is_dfs
  split_ifs with h
  · simpa using h
  · simpa using h

/-! ## C22: the vendor dispatcher changes the element set only on success -/

/-- The two shapes of the result of the vendor dispatcher: -1 with the element
set as it was, or 0 with the span recorded in one vendor member. -/
theorem vendor_specific_out (d : ieee802_11_defs) (buf : List Nat) (pos elen : Nat)
    (elems : ieee802_11_elems) (se : Int) :
    ((ieee802_11_parse_vendor_specific d buf pos elen elems se).ret = -1 ∧
      (ieee802_11_parse_vendor_specific d buf pos elen elems se).elems = elems) ∨
    (4 ≤ elen ∧ ∃ m : Field,
      (ieee802_11_parse_vendor_specific d buf pos elen elems se).elems =
        elems.assign m pos elen ∧
      (ieee802_11_parse_vendor_specific d buf pos elen elems se).ret = 0 ∧
      m.vendor = true) := by
  unfold ieee802_11_parse_vendor_specific
  dsimp only
  generalize WPA_GET_BE24 buf pos = oui
  generalize rd buf (pos + 3) = t
  generalize rd buf (pos + 4) = st
  split_ifs <;> first
    | exact Or.inl ⟨rfl, rfl⟩
    | exact Or.inr ⟨by omega, _, rfl, rfl, rfl⟩

/-- C22: for every Value span and every prior element set,
`ieee802_11_parse_vendor_specific` either reports unrecognised (-1) and leaves
the element set exactly as it was, or reports recognised (0) and changes one
member, which only this function assigns: its reference becomes the start of
the span and its length the length of the span, OUI and type octets included,
and every other member keeps its reference and length.  A span shorter than 4
octets is reported as unrecognised. -/
theorem vendor_specific_frame (d : ieee802_11_defs) (buf : List Nat) (pos elen : Nat)
    (elems : ieee802_11_elems) (show_errors : Int) :
    (((ieee802_11_parse_vendor_specific d buf pos elen elems show_errors).ret = -1 ∧
        (ieee802_11_parse_vendor_specific d buf pos elen elems show_errors).elems = elems) ∨
      ((ieee802_11_parse_vendor_specific d buf pos elen elems show_errors).ret = 0 ∧
        4 ≤ elen ∧
        ∃ m : Field, m.vendor = true ∧
          (ieee802_11_parse_vendor_specific d buf pos elen elems show_errors).elems.ptr m =
            some pos ∧
          (ieee802_11_parse_vendor_specific d buf pos elen elems show_errors).elems.len m =
            elen ∧
          ∀ g : Field, g ≠ m →
            (ieee802_11_parse_vendor_specific d buf pos elen elems show_errors).elems.ptr g =
              elems.ptr g ∧
            (ieee802_11_parse_vendor_specific d buf pos elen elems show_errors).elems.len g =
              elems.len g)) ∧
    ((ieee802_11_parse_vendor_specific d buf pos elen elems show_errors).ret ≠ 0 →
      (ieee802_11_parse_vendor_specific d buf pos elen elems show_errors).elems = elems) := by
  have h := vendor_specific_out d buf pos elen elems show_errors
  generalize ieee802_11_parse_vendor_specific d buf pos elen elems show_errors = v at h ⊢
  rcases h with ⟨hr, he⟩ | ⟨h4, m, he, hr, hm⟩
  · exact ⟨Or.inl ⟨hr, he⟩, fun _ => he⟩
  · refine ⟨Or.inr ⟨hr, h4, m, hm, ?_, ?_, ?_⟩, fun h => absurd hr h⟩
    · rw [he]
      exact if_pos rfl
    · rw [he]
      exact if_pos rfl
    · intro g hg
      rw [he]
      exact assign_other elems pos elen hg

/-! ## C23, C24: two operating classes whose range check disagrees with the table -/

/-- C23 at channel 4: for country "JP" and operating class 59 the code returns
the 60 GHz frequency for the channels 1, 2 and 3, and -1 for channel 4, which
the comment of the case label ("60 GHz band, channels 1..4") includes; the EU
table returns 64800 for channel 4 of its 60 GHz class 18. -/
theorem chan_to_freq_jp_class_59 :
    ieee80211_chan_to_freq (some ['J', 'P']) 59 1 = 58320 ∧
    ieee80211_chan_to_freq (some ['J', 'P']) 59 2 = 60480 ∧
    ieee80211_chan_to_freq (some ['J', 'P']) 59 3 = 62640 ∧
    ieee80211_chan_to_freq (some ['J', 'P']) 59 4 = -1 ∧
    ieee80211_chan_to_freq (some ['A', 'L']) 18 4 = 64800 := by
  decide

/-- C24 at channels 165 and 169: for an absent country and operating class 125
the code returns 5000 + 5c for the channels 149, 153, 157 and 161, and -1 for
the channels 165 and 169, which the comment of the case label lists; the EU
table returns 5825 and 5845 for them in its class 17. -/
theorem chan_to_freq_global_class_125 :
    ieee80211_chan_to_freq none 125 149 = 5745 ∧
    ieee80211_chan_to_freq none 125 153 = 5765 ∧
    ieee80211_chan_to_freq none 125 157 = 5785 ∧
    ieee80211_chan_to_freq none 125 161 = 5805 ∧
    ieee80211_chan_to_freq none 125 165 = -1 ∧
    ieee80211_chan_to_freq none 125 169 = -1 ∧
    ieee80211_chan_to_freq (some ['A', 'L']) 17 165 = 5825 ∧
    ieee80211_chan_to_freq (some ['A', 'L']) 17 169 = 5845 := by
  decide

/-! ## C25: the returned address field against the declared length -/

/-- The address field that `get_hdr_bssid` returns for a frame that is not a
management frame lies inside the first `len` octets of the header. -/
theorem get_hdr_bssid_inside (k : ieee802_11_fc_defs) (hdr : List Nat) (len o : Nat)
    (hty : k.WLAN_FC_GET_TYPE (hdr_frame_control hdr) ≠ k.WLAN_FC_TYPE_MGMT)
    (h : get_hdr_bssid k hdr len = some o) : o + 6 ≤ len := by
  unfold get_hdr_bssid at h
  dsimp only at h
  simp only [hdr_addr1, hdr_addr2, hdr_addr3] at h
  split_ifs at h <;> (cases h; omega)

/-- The address field that `get_hdr_bssid` returns for a management frame of
fewer than 22 octets does not lie inside the first `len` octets. -/
theorem get_hdr_bssid_mgmt_outside (k : ieee802_11_fc_defs) (hk : k.Distinct)
    (hdr : List Nat) (len : Nat) (h16 : 16 ≤ len) (h22 : len < 22)
    (hty : k.WLAN_FC_GET_TYPE (hdr_frame_control hdr) = k.WLAN_FC_TYPE_MGMT) :
    get_hdr_bssid k hdr len = some hdr_addr3 ∧ ¬ hdr_addr3 + 6 ≤ len := by
  have hd := hk.1
  simp only [List.nodup_cons, List.mem_cons, List.mem_singleton, not_or, List.not_mem_nil,
    not_false_eq_true, List.nodup_nil, and_true] at hd
  constructor
  · unfold get_hdr_bssid
    rw [if_neg (by omega)]
    dsimp only
    rw [hty, if_neg (fun h => hd.1.2 h.symm), if_neg (fun h => hd.2 h.symm), if_pos rfl]
  · simp only [hdr_addr3]
    omega

/-- C25 at a management frame of 16 octets: `get_hdr_bssid` returns the third
address field, header octets 16..21, none of which is among the first 16
octets; the data path of the same function returns `NULL` for fewer than 24
octets. -/
theorem get_hdr_bssid_mgmt_16 :
    get_hdr_bssid sample_fc_defs
      [0x80, 0, 0, 0, 255, 255, 255, 255, 255, 255, 2, 0, 0, 0, 0, 1] 16 = some hdr_addr3 ∧
    ¬ hdr_addr3 + 6 ≤ 16 ∧
    get_hdr_bssid sample_fc_defs
      [0x08, 1, 0, 0, 255, 255, 255, 255, 255, 255, 2, 0, 0, 0, 0, 1] 16 = none := by
  decide

/-! ## C26: frequency to channel inverts channel to frequency -/

theorem TableValue_ite (chan : Nat) (p : Prop) [Decidable p] (a b : Int)
    (ha : TableValue chan a) (hb : TableValue chan b) :
    TableValue chan (if p then a else b) := by
  split_ifs
  · exact ha
  · exact hb

theorem TableValue_range (chan lo hi : Nat) (v : Int)
    (h : lo ≤ chan → chan ≤ hi → TableValue chan v) :
    TableValue chan (if chan < lo ∨ chan > hi then -1 else v) := by
  split_ifs with hc
  · exact Or.inl rfl
  · exact h (by omega) (by omega)

theorem TableValue_14 (chan : Nat) :
    TableValue chan (if chan ≠ 14 then -1 else 2414 + 5 * (chan : Int)) := by
  split_ifs with hc
  · exact Or.inl rfl
  · exact Or.inr (Or.inr (Or.inl ⟨not_not.1 hc, by omega⟩))

theorem chan_to_freq_us_value (op_class chan : Nat) :
    TableValue chan (ieee80211_chan_to_freq_us op_class chan) := by
  unfold ieee80211_chan_to_freq_us
  repeat' first
    | (apply TableValue_range; intro h1 h2; unfold TableValue; omega)
    | apply TableValue_14
    | apply TableValue_ite
    | exact Or.inl rfl

theorem chan_to_freq_eu_value (op_class chan : Nat) :
    TableValue chan (ieee80211_chan_to_freq_eu op_class chan) := by
  unfold ieee80211_chan_to_freq_eu
  repeat' first
    | (apply TableValue_range; intro h1 h2; unfold TableValue; omega)
    | apply TableValue_14
    | apply TableValue_ite
    | exact Or.inl rfl

theorem chan_to_freq_jp_value (op_class chan : Nat) :
    TableValue chan (ieee80211_chan_to_freq_jp op_class chan) := by
  unfold ieee80211_chan_to_freq_jp
  repeat' first
    | (apply TableValue_range; intro h1 h2; unfold TableValue; omega)
    | apply TableValue_14
    | apply TableValue_ite
    | exact Or.inl rfl

theorem chan_to_freq_cn_value (op_class chan : Nat) :
    TableValue chan (ieee80211_chan_to_freq_cn op_class chan) := by
  unfold ieee80211_chan_to_freq_cn
  repeat' first
    | (apply TableValue_range; intro h1 h2; unfold TableValue; omega)
    | apply TableValue_14
    | apply TableValue_ite
    | exact Or.inl rfl

theorem chan_to_freq_global_value (op_class chan : Nat) :
    TableValue chan (ieee80211_chan_to_freq_global op_class chan) := by
  unfold ieee80211_chan_to_freq_global
  repeat' first
    | (apply TableValue_range; intro h1 h2; unfold TableValue; omega)
    | apply TableValue_14
    | apply TableValue_ite
    | exact Or.inl rfl

/-- Whatever the country is, the answer of `ieee80211_chan_to_freq` is one of
the table values of the channel. -/
theorem chan_to_freq_value (country : Option (List Char)) (op_class chan : Nat) :
    TableValue chan (ieee80211_chan_to_freq country op_class chan) := by
  unfold ieee80211_chan_to_freq
  split_ifs
  · exact chan_to_freq_us_value op_class chan
  · exact chan_to_freq_eu_value op_class chan
  · exact chan_to_freq_jp_value op_class chan
  · exact chan_to_freq_cn_value op_class chan
  · exact chan_to_freq_global_value op_class chan

/-- On a positive table value of the channel `chan`, `ieee80211_freq_to_chan`
finds a mode and stores `chan`. -/
theorem freq_to_chan_table_value (chan : Nat) (f : Int) (channel : Nat)
    (hv : TableValue chan f) (hpos : 0 < f) :
    (ieee80211_freq_to_chan f channel).1 ≠ hostapd_hw_mode.NUM_HOSTAPD_MODES ∧
    (ieee80211_freq_to_chan f channel).2 = chan := by
  unfold ieee80211_freq_to_chan
  rcases hv with h | ⟨h1, h2, h⟩ | ⟨h1, h⟩ | ⟨h1, h2, h⟩ | ⟨h1, h2, h⟩
  · omega
  · rw [if_pos (by omega)]
    refine ⟨(fun h => by cases h), ?_⟩
    dsimp only
    rw [Int.tdiv_eq_ediv (by omega) (by decide)]
    omega
  · rw [if_neg (by omega), if_pos h]
    exact ⟨(fun h => by cases h), h1.symm⟩
  · rw [if_neg (by omega), if_neg (by omega), if_neg (by omega), if_pos (by omega)]
    refine ⟨(fun h => by cases h), ?_⟩
    dsimp only
    rw [Int.tdiv_eq_ediv (by omega) (by decide)]
    omega
  · rw [if_neg (by omega), if_neg (by omega), if_neg (by omega), if_neg (by omega),
      if_pos (by omega)]
    refine ⟨(fun h => by cases h), ?_⟩
    dsimp only
    rw [Int.tdiv_eq_ediv (by omega) (by decide)]
    omega

/-- C26: for every country (possibly absent), operating class and channel, if
`ieee80211_chan_to_freq` returns a frequency `f > 0` then
`ieee80211_freq_to_chan` on `f` returns a hardware mode other than
`NUM_HOSTAPD_MODES` and stores exactly the original channel number, whatever
the channel octet held before the call. -/
theorem freq_to_chan_inverts (country : Option (List Char)) (op_class chan channel : Nat)
    (hpos : 0 < ieee80211_chan_to_freq country op_class chan) :
    (ieee80211_freq_to_chan (ieee80211_chan_to_freq country op_class chan) channel).1 ≠
      hostapd_hw_mode.NUM_HOSTAPD_MODES ∧
    (ieee80211_freq_to_chan (ieee80211_chan_to_freq country op_class chan) channel).2 =
      chan :=
  freq_to_chan_table_value chan _ channel (chan_to_freq_value country op_class chan) hpos

/-- C26 instantiated: channel 36 of the US operating class 1, with a channel
octet that held 0. -/
theorem freq_to_chan_inverts_witness :
    0 < ieee80211_chan_to_freq (some ['U', 'S']) 1 36 ∧
    ieee80211_chan_to_freq (some ['U', 'S']) 1 36 = 5180 ∧
    (ieee80211_freq_to_chan (ieee80211_chan_to_freq (some ['U', 'S']) 1 36) 0).1 ≠
      hostapd_hw_mode.NUM_HOSTAPD_MODES ∧
    (ieee80211_freq_to_chan (ieee80211_chan_to_freq (some ['U', 'S']) 1 36) 0).2 = 36 :=
  ⟨by decide, by decide,
    (freq_to_chan_inverts (some ['U', 'S']) 1 36 0 (by decide)).1,
    (freq_to_chan_inverts (some ['U', 'S']) 1 36 0 (by decide)).2⟩

/-! ## C27: of several elements with one ID the last one wins -/

theorem UnknownAt_elem (d : ieee802_11_defs) (pre post : List Nat) (e : Elem) :
    UnknownAt d (pre ++ (e.encode ++ post)) pre.length ↔ e.unknown d := by
  unfold UnknownAt Elem.unknown
  rw [rd_elem_id, rd_elem_len]
  have h : (ieee802_11_parse_vendor_specific d (pre ++ (e.encode ++ post)) (pre.length + 2)
      e.value.length ieee802_11_elems.zero 0).ret =
      (ieee802_11_parse_vendor_specific d e.value 0 e.value.length ieee802_11_elems.zero
        0).ret := by
    apply vendor_specific_ret_shift
    intro i hi
    rw [rd_elem_value _ _ _ _ hi, Nat.zero_add]
  rw [h]

/-- On a concatenation of well-formed elements without a Message-Integrity
element the verdict is `ParseUnknown` exactly when the counter is already
raised or some element is unknown. -/
theorem parse_elems_from_unknown_elems (d : ieee802_11_defs) (hd : d.eids.Nodup) (se : Int) :
    ∀ (es : List Elem) (pb : List Nat) (unknown : Nat) (elems : ieee802_11_elems)
      (log : List Diag), (∀ y ∈ es, y.id ≠ d.WLAN_EID_MIC) →
      ((parse_elems_from d (pb ++ encode es) se (encode es).length pb.length unknown elems
        log).res = ParseRes.ParseUnknown ↔ unknown ≠ 0 ∨ ∃ y ∈ es, y.unknown d)
  | [], pb, unknown, elems, log, _ => by
    simp only [encode, List.length_nil]
    rw [parse_elems_from_zero]
    dsimp only
    split_ifs with h
    · simp [h]
    · simp [h]
  | e :: es, pb, unknown, elems, log, hmic => by
    simp only [encode]
    have hlab : switch_label d e.id ≠ some .MIC := fun h =>
      hmic e (List.mem_cons_self _ _) ((switch_label_eq_iff hd _ _).1 h)
    rw [parse_elems_from_elem_next d se pb _ e unknown elems log hlab]
    have ih := parse_elems_from_unknown_elems d hd se es (pb ++ e.encode)
      (parse_elems_switch d (pb ++ (e.encode ++ encode es)) se e.id e.value.length
        (pb.length + 2) 0 unknown elems log).unknown
      (parse_elems_switch d (pb ++ (e.encode ++ encode es)) se e.id e.value.length
        (pb.length + 2) 0 unknown elems log).elems
      (parse_elems_switch d (pb ++ (e.encode ++ encode es)) se e.id e.value.length
        (pb.length + 2) 0 unknown elems log).log
      (fun y hy => hmic y (List.mem_cons_of_mem _ hy))
    rw [ih]
    have hsw := parse_elems_switch_unknown d hd (pb ++ (e.encode ++ encode es)) se pb.length 0
      unknown elems log
    rw [rd_elem_id, rd_elem_len, UnknownAt_elem] at hsw
    rw [hsw]
    simp only [List.mem_cons, exists_eq_or_imp, or_assoc]

/-- C27: when an element kind occurs more than once the last occurrence wins.
For every buffer that is a concatenation of well-formed elements without a
Message-Integrity element, in which `x` is the last element with an ID whose
case label records its element whatever the Length is, however many earlier
elements have the same ID: after `ieee802_11_parse_elems` the member of the
label refers to the Value of `x` (its offset, its length and its octets); the
verdict is not `ParseFailed`; and the verdict is `ParseUnknown` exactly when an
element with another ID is unknown, so the occurrences of the ID are not
reported as unknown. -/
theorem parse_elems_last_wins (d : ieee802_11_defs) (hd : d.Distinct)
    (pre post : List Elem) (x : Elem) (l : Eid) (m : Field) (show_errors : Int)
    (hx : x.id = d.eid l) (hm : l.field = some m) (hun : ∀ n, l.length_ok n = true)
    (hmic : ∀ y ∈ pre ++ x :: post, y.id ≠ d.WLAN_EID_MIC)
    (hlast : ∀ y ∈ post, y.id ≠ x.id) :
    (ieee802_11_parse_elems d (encode (pre ++ x :: post)) show_errors).elems.ptr m =
      some ((encode pre).length + 2) ∧
    (ieee802_11_parse_elems d (encode (pre ++ x :: post)) show_errors).elems.len m =
      x.value.length ∧
    ((encode (pre ++ x :: post)).drop ((encode pre).length + 2)).take x.value.length =
      x.value ∧
    (ieee802_11_parse_elems d (encode (pre ++ x :: post)) show_errors).res ≠
      ParseRes.ParseFailed ∧
    ((ieee802_11_parse_elems d (encode (pre ++ x :: post)) show_errors).res =
        ParseRes.ParseUnknown ↔
      ∃ y ∈ pre ++ x :: post, y.id ≠ x.id ∧ y.unknown d) := by
  have hrec := parse_elems_from_recorded d hd.1 show_errors l m hm x hx (hun _) post hlast pre
    [] 0 ieee802_11_elems.zero []
    (fun y hy => hmic y (List.mem_append_left _ hy))
  have hwf := parse_elems_from_wf d show_errors (pre ++ x :: post) [] 0 ieee802_11_elems.zero []
  have hunk := parse_elems_from_unknown_elems d hd.1 show_errors (pre ++ x :: post) [] 0
    ieee802_11_elems.zero [] hmic
  simp only [List.nil_append, List.length_nil, Nat.zero_add] at hrec hwf hunk
  have hless : m.lengthless = false := by
    cases l <;> simp [Eid.field] at hm <;> subst hm <;> first
      | rfl
      | exact absurd (hun 0) (by simp [Eid.length_ok])
  have hv : l ≠ .VENDOR_SPECIFIC := by
    intro h
    subst h
    cases hm
  refine ⟨hrec.1, hrec.2 hless, ?_, hwf, ?_⟩
  · have := elem_value_span (encode pre) (encode post) x
    rw [encode_append]
    exact this
  · rw [parse_elems_eq_from, hunk]
    simp only [ne_eq, not_true_eq_false, false_or]
    constructor
    · rintro ⟨y, hy, hu⟩
      refine ⟨y, hy, fun hid => ?_, hu⟩
      rcases hu with hu | ⟨hu, _⟩
      · exact hu (hid ▸ hx ▸ eid_mem_eids d l)
      · exact hv (@eid_inj d hd.1 l Eid.VENDOR_SPECIFIC ((hx.symm.trans hid.symm).trans hu))
    · rintro ⟨y, hy, _, hu⟩
      exact ⟨y, hy, hu⟩

/-- C27 instantiated: two SSID elements, a Supported Rates element between
them and one behind them; `ssid` refers to the Value of the second SSID
element. -/
theorem parse_elems_last_wins_witness :
    sample_defs.Distinct ∧ (Elem.mk 0 [66, 67]).id = sample_defs.eid Eid.SSID ∧
    (∃ y ∈ [Elem.mk 0 [65], Elem.mk 1 [2]], y.id = (Elem.mk 0 [66, 67]).id) ∧
    (ieee802_11_parse_elems sample_defs
      (encode ([Elem.mk 0 [65], Elem.mk 1 [2]] ++ Elem.mk 0 [66, 67] :: [Elem.mk 1 [4]]))
      0).elems.ptr Field.ssid = some ((encode [Elem.mk 0 [65], Elem.mk 1 [2]]).length + 2) ∧
    (ieee802_11_parse_elems sample_defs
      (encode ([Elem.mk 0 [65], Elem.mk 1 [2]] ++ Elem.mk 0 [66, 67] :: [Elem.mk 1 [4]]))
      0).elems.len Field.ssid = 2 ∧
    (ieee802_11_parse_elems sample_defs
      (encode ([Elem.mk 0 [65], Elem.mk 1 [2]] ++ Elem.mk 0 [66, 67] :: [Elem.mk 1 [4]]))
      0).res = ParseRes.ParseOK :=
  ⟨by decide, rfl, by decide,
    (parse_elems_last_wins sample_defs (by decide) [Elem.mk 0 [65], Elem.mk 1 [2]]
      [Elem.mk 1 [4]] (Elem.mk 0 [66, 67]) Eid.SSID Field.ssid 0 rfl rfl (fun _ => rfl)
      (by decide) (by decide)).1,
    (parse_elems_last_wins sample_defs (by decide) [Elem.mk 0 [65], Elem.mk 1 [2]]
      [Elem.mk 1 [4]] (Elem.mk 0 [66, 67]) Eid.SSID Field.ssid 0 rfl rfl (fun _ => rfl)
      (by decide) (by decide)).2.1,
    by decide⟩

/-! ## C4: the members of accepted vendor elements -/

/-- The vendor dispatcher on a span, against the dispatcher on a span with the
same octets and the zeroed element set: either both leave their element set
alone or both record their span in the same vendor member. -/
theorem vendor_specific_shift (d : ieee802_11_defs) (buf buf' : List Nat)
    (pos pos' elen : Nat) (e : ieee802_11_elems) (se se' : Int)
    (h : ∀ i, i < elen → rd buf (pos + i) = rd buf' (pos' + i)) :
    ((ieee802_11_parse_vendor_specific d buf pos elen e se).elems = e ∧
      (ieee802_11_parse_vendor_specific d buf' pos' elen ieee802_11_elems.zero se').elems =
        ieee802_11_elems.zero) ∨
    (∃ m : Field,
      (ieee802_11_parse_vendor_specific d buf pos elen e se).elems = e.assign m pos elen ∧
      (ieee802_11_parse_vendor_specific d buf' pos' elen ieee802_11_elems.zero se').elems =
        ieee802_11_elems.zero.assign m pos' elen ∧ m.vendor = true) := by
  obtain ⟨r, h1, h2, -, hw⟩ := vendor_specific_rel d buf buf' pos pos' elen e
    ieee802_11_elems.zero se se' h
  have hven : ∀ m : Field,
      (ieee802_11_parse_vendor_specific d buf' pos' elen ieee802_11_elems.zero se').elems.ptr m =
        some pos' → m.vendor = true := by
    intro m hp
    by_contra hv
    have hv' : m.vendor = false := by simpa using hv
    have h0 := (vendor_specific_other d buf' pos' elen ieee802_11_elems.zero se' m hv').1
    rw [hp] at h0
    cases h0
  cases r with
  | keep => exact Or.inl ⟨h1, h2⟩
  | full m =>
    refine Or.inr ⟨m, h1, h2, hven m ?_⟩
    rw [h2]
    exact if_pos rfl
  | ptr_only m =>
    exfalso
    have hv : m.vendor = true := by
      apply hven m
      rw [h2]
      exact if_pos rfl
    have hl : m.lengthless = true := hw
    cases m <;> first | exact absurd hl (by decide) | exact absurd hv (by decide)

/-- A pass through the switch at a label other than the vendor-specific one
leaves every vendor member alone; at the vendor-specific label the element set
is the one that the vendor dispatcher hands back. -/
theorem parse_elems_switch_vendor_member (d : ieee802_11_defs) (buf : List Nat) (se : Int)
    (id elen pos left unknown : Nat) (elems : ieee802_11_elems) (log : List Diag)
    {m : Field} (hm : m.vendor = true) :
    (switch_label d id ≠ some .VENDOR_SPECIFIC →
      (parse_elems_switch d buf se id elen pos left unknown elems log).elems.ptr m =
        elems.ptr m ∧
      (parse_elems_switch d buf se id elen pos left unknown elems log).elems.len m =
        elems.len m) ∧
    (switch_label d id = some .VENDOR_SPECIFIC →
      (parse_elems_switch d buf se id elen pos left unknown elems log).elems =
        (ieee802_11_parse_vendor_specific d buf pos elen elems se).elems) := by
  unfold parse_elems_switch
  rcases switch_label d id with _ | l
  · exact ⟨fun _ => ⟨rfl, rfl⟩, fun h => by cases h⟩
  · cases l <;> refine ⟨fun hne => ?_, fun he => ?_⟩ <;> first
      | exact absurd rfl hne
      | rfl
      | cases he
      | exact ⟨rfl, rfl⟩
      | exact assign_other elems pos elen (fun h => by rw [h] at hm; cases hm)
      | (dsimp only
         split_ifs <;> first
           | exact ⟨rfl, rfl⟩
           | exact assign_other elems pos elen (fun h => by rw [h] at hm; cases hm)
           | exact assignPtr_other elems pos (fun h => by rw [h] at hm; cases hm))

/-- Elements that the vendor dispatcher does not record in the vendor member
`m` leave `m` as it was. -/
theorem parse_elems_from_vendor_kept (d : ieee802_11_defs) (hd : d.eids.Nodup) (se : Int)
    (m : Field) (hm : m.vendor = true) :
    ∀ (es : List Elem) (pb : List Nat) (unknown : Nat) (elems : ieee802_11_elems)
      (log : List Diag),
      (∀ y ∈ es, y.id = d.WLAN_EID_VENDOR_SPECIFIC → ¬ y.vendor_records d m) →
      (parse_elems_from d (pb ++ encode es) se (encode es).length pb.length unknown elems
        log).elems.ptr m = elems.ptr m ∧
      (parse_elems_from d (pb ++ encode es) se (encode es).length pb.length unknown elems
        log).elems.len m = elems.len m
  | [], pb, unknown, elems, log, _ => by
    simp only [encode, List.length_nil]
    rw [parse_elems_from_zero]
    exact ⟨rfl, rfl⟩
  | e :: es, pb, unknown, elems, log, hne => by
    simp only [encode]
    by_cases hlab : switch_label d e.id = some .MIC
    · rw [parse_elems_from_elem_mic d se pb _ e unknown elems log hlab]
      exact assign_other elems _ _ (fun h => by rw [h] at hm; cases hm)
    · rw [parse_elems_from_elem_next d se pb _ e unknown elems log hlab]
      obtain ⟨h1, h2⟩ := parse_elems_from_vendor_kept d hd se m hm es (pb ++ e.encode)
        (parse_elems_switch d (pb ++ (e.encode ++ encode es)) se e.id e.value.length
          (pb.length + 2) 0 unknown elems log).unknown
        (parse_elems_switch d (pb ++ (e.encode ++ encode es)) se e.id e.value.length
          (pb.length + 2) 0 unknown elems log).elems
        (parse_elems_switch d (pb ++ (e.encode ++ encode es)) se e.id e.value.length
          (pb.length + 2) 0 unknown elems log).log
        (fun y hy => hne y (List.mem_cons_of_mem _ hy))
      obtain ⟨hk, hv⟩ := parse_elems_switch_vendor_member d (pb ++ (e.encode ++ encode es)) se
        e.id e.value.length (pb.length + 2) 0 unknown elems log hm
      by_cases hven : switch_label d e.id = some .VENDOR_SPECIFIC
      · rw [h1, h2, hv hven]
        have hid : e.id = d.WLAN_EID_VENDOR_SPECIFIC := (switch_label_eq_iff hd _ _).1 hven
        have hnr := hne e (List.mem_cons_self _ _) hid
        rcases vendor_specific_shift d (pb ++ (e.encode ++ encode es)) e.value (pb.length + 2) 0
          e.value.length elems se 0
          (fun i hi => by rw [rd_elem_value _ _ _ _ hi, Nat.zero_add]) with
          ⟨ha, _⟩ | ⟨m', ha, hb, _⟩
        · rw [ha]
          exact ⟨rfl, rfl⟩
        · rw [ha]
          apply assign_other
          intro hmm
          apply hnr
          unfold Elem.vendor_records
          rw [hb, hmm]
          simp [ieee802_11_elems.assign]
      · obtain ⟨h3, h4⟩ := hk hven
        exact ⟨h1.trans h3, h2.trans h4⟩

/-- The last vendor-specific element that the dispatcher records in the vendor
member `m` and that no Message-Integrity element precedes is the one that `m`
refers to. -/
theorem parse_elems_from_vendor_recorded (d : ieee802_11_defs) (hd : d.eids.Nodup) (se : Int)
    (m : Field) (x : Elem) (hx : x.id = d.WLAN_EID_VENDOR_SPECIFIC)
    (hr : x.vendor_records d m) (post : List Elem)
    (hpost : ∀ y ∈ post, y.id = d.WLAN_EID_VENDOR_SPECIFIC → ¬ y.vendor_records d m) :
    ∀ (pre : List Elem) (pb : List Nat) (unknown : Nat) (elems : ieee802_11_elems)
      (log : List Diag), (∀ y ∈ pre, y.id ≠ d.WLAN_EID_MIC) →
      (parse_elems_from d (pb ++ encode (pre ++ x :: post)) se
        (encode (pre ++ x :: post)).length pb.length unknown elems log).elems.ptr m =
          some (pb.length + (encode pre).length + 2) ∧
      (parse_elems_from d (pb ++ encode (pre ++ x :: post)) se
        (encode (pre ++ x :: post)).length pb.length unknown elems log).elems.len m =
          x.value.length
  | [], pb, unknown, elems, log, _ => by
    have hlx : switch_label d x.id = some .VENDOR_SPECIFIC := (switch_label_eq_iff hd _ _).2 hx
    have hlab : switch_label d x.id ≠ some .MIC := by
      rw [hlx]
      intro h
      cases h
    simp only [List.nil_append, encode, List.length_nil, Nat.add_zero]
    rw [parse_elems_from_elem_next d se pb _ x unknown elems log hlab]
    rcases vendor_specific_shift d (pb ++ (x.encode ++ encode post)) x.value (pb.length + 2) 0
      x.value.length elems se 0
      (fun i hi => by rw [rd_elem_value _ _ _ _ hi, Nat.zero_add]) with
      ⟨_, hb⟩ | ⟨m', ha, hb, hm'⟩
    · exact absurd (by rw [hb]; rfl) hr
    · have hmm : m = m' := by
        by_contra hne
        apply hr
        rw [hb]
        exact (assign_other ieee802_11_elems.zero 0 x.value.length hne).1
      subst hmm
      obtain ⟨h1, h2⟩ := parse_elems_from_vendor_kept d hd se m hm' post (pb ++ x.encode)
        (parse_elems_switch d (pb ++ (x.encode ++ encode post)) se x.id x.value.length
          (pb.length + 2) 0 unknown elems log).unknown
        (parse_elems_switch d (pb ++ (x.encode ++ encode post)) se x.id x.value.length
          (pb.length + 2) 0 unknown elems log).elems
        (parse_elems_switch d (pb ++ (x.encode ++ encode post)) se x.id x.value.length
          (pb.length + 2) 0 unknown elems log).log hpost
      rw [h1, h2, (parse_elems_switch_vendor_member d (pb ++ (x.encode ++ encode post)) se x.id
        x.value.length (pb.length + 2) 0 unknown elems log hm').2 hlx, ha]
      exact ⟨if_pos rfl, if_pos rfl⟩
  | e :: pre, pb, unknown, elems, log, hpre => by
    have hlab : switch_label d e.id ≠ some .MIC := fun h =>
      hpre e (List.mem_cons_self _ _) ((switch_label_eq_iff hd _ _).1 h)
    simp only [List.cons_append, encode]
    rw [parse_elems_from_elem_next d se pb _ e unknown elems log hlab]
    have ih := parse_elems_from_vendor_recorded d hd se m x hx hr post hpost pre
      (pb ++ e.encode)
      (parse_elems_switch d (pb ++ (e.encode ++ encode (pre ++ x :: post))) se e.id
        e.value.length (pb.length + 2) 0 unknown elems log).unknown
      (parse_elems_switch d (pb ++ (e.encode ++ encode (pre ++ x :: post))) se e.id
        e.value.length (pb.length + 2) 0 unknown elems log).elems
      (parse_elems_switch d (pb ++ (e.encode ++ encode (pre ++ x :: post))) se e.id
        e.value.length (pb.length + 2) 0 unknown elems log).log
      (fun y hy => hpre y (List.mem_cons_of_mem _ hy))
    have hlen : (pb ++ e.encode).length + (encode pre).length + 2 =
        pb.length + (e.encode ++ encode pre).length + 2 := by
      simp; omega
    rw [hlen] at ih
    exact ih

/-- C4, as amended: for a buffer built by concatenating well-formed elements
whose IDs are all recognised and whose vendor-specific elements are all accepted
by `ieee802_11_parse_vendor_specific`, the verdict is `ParseOK`.  For every
element `x` that no Message-Integrity element precedes, that is the last
element with its ID and whose Length meets the requirement of its case label,
the member that the label records is populated with a reference to the Value
of `x`: the offset of the Value, its length, and the octets there are the
original Value octets.  For every vendor-specific element `x` that no
Message-Integrity element precedes and every member `m` in which the vendor
dispatcher records the Value of `x`, if no later vendor-specific element is
recorded in `m`, then `m` is populated with a reference to the whole Value of
`x`: its offset, its length and its octets.  Every vendor-specific element of
the buffer has such a member, one of the vendor members. -/
theorem parse_elems_recognised (d : ieee802_11_defs) (hd : d.Distinct) (es : List Elem)
    (show_errors : Int) (hrec : ∀ x ∈ es, x.id ∈ d.eids)
    (hven : ∀ x ∈ es, x.id = d.WLAN_EID_VENDOR_SPECIFIC →
      (ieee802_11_parse_vendor_specific d x.value 0 x.value.length ieee802_11_elems.zero
        0).ret = 0) :
    (ieee802_11_parse_elems d (encode es) show_errors).res = ParseRes.ParseOK ∧
    (∀ (pre post : List Elem) (x : Elem) (l : Eid) (m : Field), es = pre ++ x :: post →
      (∀ y ∈ pre, y.id ≠ d.WLAN_EID_MIC) → (∀ y ∈ post, y.id ≠ x.id) →
      x.id = d.eid l → l.field = some m → l.length_ok x.value.length = true →
      (ieee802_11_parse_elems d (encode es) show_errors).elems.ptr m =
        some ((encode pre).length + 2) ∧
      (m.lengthless = false →
        (ieee802_11_parse_elems d (encode es) show_errors).elems.len m = x.value.length) ∧
      ((encode es).drop ((encode pre).length + 2)).take x.value.length = x.value) ∧
    (∀ (pre post : List Elem) (x : Elem) (m : Field), es = pre ++ x :: post →
      (∀ y ∈ pre, y.id ≠ d.WLAN_EID_MIC) → x.id = d.WLAN_EID_VENDOR_SPECIFIC →
      x.vendor_records d m →
      (∀ y ∈ post, y.id = d.WLAN_EID_VENDOR_SPECIFIC → ¬ y.vendor_records d m) →
      (ieee802_11_parse_elems d (encode es) show_errors).elems.ptr m =
        some ((encode pre).length + 2) ∧
      (ieee802_11_parse_elems d (encode es) show_errors).elems.len m = x.value.length ∧
      ((encode es).drop ((encode pre).length + 2)).take x.value.length = x.value) ∧
    (∀ x ∈ es, x.id = d.WLAN_EID_VENDOR_SPECIFIC →
      ∃ m : Field, m.vendor = true ∧ x.vendor_records d m) := by
  refine ⟨?_, ?_, ?_, ?_⟩
  · have := parse_elems_from_ok d show_errors es [] ieee802_11_elems.zero [] hrec hven
    simpa [parse_elems_eq_from] using this
  · intro pre post x l m hes hpre hpost hx hm hok
    subst hes
    have := parse_elems_from_recorded d hd.1 show_errors l m hm x hx hok post hpost pre []
      0 ieee802_11_elems.zero [] hpre
    simp only [List.nil_append, List.length_nil, Nat.zero_add] at this
    refine ⟨this.1, this.2, ?_⟩
    rw [encode_append]
    exact elem_value_span (encode pre) (encode post) x
  · intro pre post x m hes hpre hx hr hpost
    subst hes
    have := parse_elems_from_vendor_recorded d hd.1 show_errors m x hx hr post hpost pre []
      0 ieee802_11_elems.zero [] hpre
    simp only [List.nil_append, List.length_nil, Nat.zero_add] at this
    refine ⟨this.1, this.2, ?_⟩
    rw [encode_append]
    exact elem_value_span (encode pre) (encode post) x
  · intro x hx hid
    have hret := hven x hx hid
    rcases vendor_specific_out d x.value 0 x.value.length ieee802_11_elems.zero 0 with
      ⟨hr, _⟩ | ⟨_, m, he, _, hm⟩
    · rw [hret] at hr
      exact absurd hr (by decide)
    · refine ⟨m, hm, ?_⟩
      unfold Elem.vendor_records
      rw [he]
      exact fun h => Option.noConfusion ((if_pos rfl).symm.trans h)

/-- C4 instantiated: SSID, Supported Rates and a WPA vendor element; the verdict
is `ParseOK`, `supp_rates` refers to the Value of the second element and
`wpa_ie` to the Value of the third. -/
theorem parse_elems_recognised_witness :
    sample_defs.Distinct ∧
    (∀ x ∈ [Elem.mk 0 [65, 66], Elem.mk 1 [2, 4], Elem.mk 221 [0, 0x50, 0xf2, 1, 1, 0]],
      x.id ∈ sample_defs.eids) ∧
    (∀ x ∈ [Elem.mk 0 [65, 66], Elem.mk 1 [2, 4], Elem.mk 221 [0, 0x50, 0xf2, 1, 1, 0]],
      x.id = sample_defs.WLAN_EID_VENDOR_SPECIFIC →
      (ieee802_11_parse_vendor_specific sample_defs x.value 0 x.value.length
        ieee802_11_elems.zero 0).ret = 0) ∧
    (ieee802_11_parse_elems sample_defs
      (encode [Elem.mk 0 [65, 66], Elem.mk 1 [2, 4], Elem.mk 221 [0, 0x50, 0xf2, 1, 1, 0]])
      0).res = ParseRes.ParseOK ∧
    (ieee802_11_parse_elems sample_defs
      (encode [Elem.mk 0 [65, 66], Elem.mk 1 [2, 4], Elem.mk 221 [0, 0x50, 0xf2, 1, 1, 0]])
      0).elems.ptr Field.supp_rates = some ((encode [Elem.mk 0 [65, 66]]).length + 2) ∧
    (Elem.mk 221 [0, 0x50, 0xf2, 1, 1, 0]).vendor_records sample_defs Field.wpa_ie ∧
    (ieee802_11_parse_elems sample_defs
      (encode [Elem.mk 0 [65, 66], Elem.mk 1 [2, 4], Elem.mk 221 [0, 0x50, 0xf2, 1, 1, 0]])
      0).elems.ptr Field.wpa_ie =
        some ((encode [Elem.mk 0 [65, 66], Elem.mk 1 [2, 4]]).length + 2) ∧
    (ieee802_11_parse_elems sample_defs
      (encode [Elem.mk 0 [65, 66], Elem.mk 1 [2, 4], Elem.mk 221 [0, 0x50, 0xf2, 1, 1, 0]])
      0).elems.len Field.wpa_ie = 6 :=
  ⟨by decide, by decide, by decide,
    (parse_elems_recognised sample_defs (by decide)
      [Elem.mk 0 [65, 66], Elem.mk 1 [2, 4], Elem.mk 221 [0, 0x50, 0xf2, 1, 1, 0]] 0
      (by decide) (by decide)).1,
    ((parse_elems_recognised sample_defs (by decide)
      [Elem.mk 0 [65, 66], Elem.mk 1 [2, 4], Elem.mk 221 [0, 0x50, 0xf2, 1, 1, 0]] 0
      (by decide) (by decide)).2.1 [Elem.mk 0 [65, 66]] [Elem.mk 221 [0, 0x50, 0xf2, 1, 1, 0]]
      (Elem.mk 1 [2, 4]) Eid.SUPP_RATES Field.supp_rates rfl (by decide) (by decide) rfl rfl
      rfl).1,
    by decide,
    ((parse_elems_recognised sample_defs (by decide)
      [Elem.mk 0 [65, 66], Elem.mk 1 [2, 4], Elem.mk 221 [0, 0x50, 0xf2, 1, 1, 0]] 0
      (by decide) (by decide)).2.2.1 [Elem.mk 0 [65, 66], Elem.mk 1 [2, 4]] []
      (Elem.mk 221 [0, 0x50, 0xf2, 1, 1, 0]) Field.wpa_ie rfl (by decide) rfl (by decide)
      (by decide)).1,
    ((parse_elems_recognised sample_defs (by decide)
      [Elem.mk 0 [65, 66], Elem.mk 1 [2, 4], Elem.mk 221 [0, 0x50, 0xf2, 1, 1, 0]] 0
      (by decide) (by decide)).2.2.1 [Elem.mk 0 [65, 66], Elem.mk 1 [2, 4]] []
      (Elem.mk 221 [0, 0x50, 0xf2, 1, 1, 0]) Field.wpa_ie rfl (by decide) rfl (by decide)
      (by decide)).2.1⟩

/-- C4 as stated fails.  A vendor-specific element (a recognised ID) with an
empty Value gives `ParseUnknown`; a Link Identifier element of Length 1 is not
recorded; of two SSID elements the member refers to the second, not to the
Value of the first; an SSID element behind a Message-Integrity element is not
recorded; of two WPA vendor elements `wpa_ie` refers to the second, not to the
Value of the first. -/
theorem parse_elems_recognised_counterexample :
    ((∀ x ∈ [Elem.mk 221 []], x.id ∈ sample_defs.eids) ∧
      (ieee802_11_parse_elems sample_defs (encode [Elem.mk 221 []]) 0).res =
        ParseRes.ParseUnknown) ∧
    ((∀ x ∈ [Elem.mk 101 [1]], x.id ∈ sample_defs.eids) ∧
      (ieee802_11_parse_elems sample_defs (encode [Elem.mk 101 [1]]) 0).elems.ptr
        Field.link_id = none) ∧
    ((∀ x ∈ [Elem.mk 0 [65], Elem.mk 0 [66]], x.id ∈ sample_defs.eids) ∧
      (ieee802_11_parse_elems sample_defs (encode [Elem.mk 0 [65], Elem.mk 0 [66]])
        0).elems.ptr Field.ssid = some 5 ∧
      ((encode [Elem.mk 0 [65], Elem.mk 0 [66]]).drop 5).take 1 ≠ [65]) ∧
    ((∀ x ∈ [Elem.mk 140 [], Elem.mk 0 [65]], x.id ∈ sample_defs.eids) ∧
      (ieee802_11_parse_elems sample_defs (encode [Elem.mk 140 [], Elem.mk 0 [65]])
        0).elems.ptr Field.ssid = none) ∧
    ((∀ x ∈ [Elem.mk 221 [0, 0x50, 0xf2, 1, 1, 0], Elem.mk 221 [0, 0x50, 0xf2, 1, 2, 0]],
        x.id ∈ sample_defs.eids) ∧
      (ieee802_11_parse_elems sample_defs
        (encode [Elem.mk 221 [0, 0x50, 0xf2, 1, 1, 0], Elem.mk 221 [0, 0x50, 0xf2, 1, 2, 0]])
        0).elems.ptr Field.wpa_ie = some 10 ∧
      ((encode [Elem.mk 221 [0, 0x50, 0xf2, 1, 1, 0],
        Elem.mk 221 [0, 0x50, 0xf2, 1, 2, 0]]).drop 10).take 6 ≠ [0, 0x50, 0xf2, 1, 1, 0]) := by
  decide

end Ieee80211
